import Mathlib

/-!
# H.264 SEI timestamp codec and NAL unit scanners of `bag_processor`

Shallow embedding of `SEIGenerator` (src/sei_generator.cpp), of the Annex-B scan and the
per-frame injection of `H264TimestampInjector` (src/h264_timestamp_injector.cpp), of the
length-prefixed loops of src/check_sei.cpp and src/convert_to_length_prefixed.cpp, and of the
Annex-B loops of src/check_annexb_sei.cpp and src/h264_timestamp_reader.cpp.  A
`uint8_t` is a `Nat` below 256, a `uint64_t` or `size_t` a `Nat` below `2 ^ 64` (wrap-around
written out where the source can overflow), and a `std::vector<uint8_t>` is a `List Nat`.
A loop whose number of iterations is not bounded by its input takes the number of
iterations it may run as an argument.
-/

namespace SEIGenerator

/-! ## Constants (src/sei_generator.h) -/

/-- The constant `NAL_UNIT_TYPE_SEI` of sei_generator.h, line 9. -/
def NAL_UNIT_TYPE_SEI : Nat := 6

/-- The constant `SEI_TYPE_USER_DATA_UNREGISTERED` of sei_generator.h, line 12. -/
def SEI_TYPE_USER_DATA_UNREGISTERED : Nat := 5

/-- The constant `TIMESTAMP_UUID` of sei_generator.h, lines 19-24: the 16 ASCII bytes
of "ROSBAG-TIMESTAMP". -/
def TIMESTAMP_UUID : List Nat :=
  [0x52, 0x4F, 0x53, 0x42, 0x41, 0x47, 0x2D, 0x54,
   0x49, 0x4D, 0x45, 0x53, 0x54, 0x41, 0x4D, 0x50]

/-- A well-formed byte vector: every element is a `uint8_t`. -/
def IsBytes (v : List Nat) : Prop := ∀ b ∈ v, b < 256

instance (v : List Nat) : Decidable (IsBytes v) := by
  unfold IsBytes; infer_instance

/-! ## Timestamp conversion (sei_generator.cpp, lines 155-179) -/

/-- The function `timestampToBytes`: a vector of 8 zero bytes is allocated and the loop
`for (int i = 7; i >= 0; i--) bytes[7 - i] = (timestamp_us >> (i * 8)) & 0xFF;` fills it. -/
def timestampToBytes (timestamp_us : Nat) : List Nat :=
  [7, 6, 5, 4, 3, 2, 1, 0].foldl
    (fun bytes i => bytes.set (7 - i) ((timestamp_us >>> (i * 8)) &&& 0xFF))
    (List.replicate 8 0)

/-- The function `bytesToTimestamp`: 0 for fewer than 8 bytes, else the loop
`timestamp = (timestamp << 8) | bytes[i]` over `i = 0..7` in 64-bit arithmetic. -/
def bytesToTimestamp (bytes : List Nat) : Nat :=
  if bytes.length < 8 then 0
  else
    (List.range 8).foldl
      (fun timestamp i => ((timestamp <<< 8) % 2 ^ 64) ||| bytes.getD i 0) 0

/-! ## Simple format (sei_generator.cpp, lines 13-34 and 181-204) -/

/-- The function `createSimpleTimestampSEI`: the pushes of lines 17, 21, 24, the insert of the
timestamp bytes of line 28 and the push of line 31, in order. -/
def createSimpleTimestampSEI (timestamp_us : Nat) : List Nat :=
  let sei_nal : List Nat := []
  let sei_nal := sei_nal ++ [NAL_UNIT_TYPE_SEI]
  let sei_nal := sei_nal ++ [0x01]
  let sei_nal := sei_nal ++ [0x08]
  let timestamp_bytes := timestampToBytes timestamp_us
  let sei_nal := sei_nal ++ timestamp_bytes
  let sei_nal := sei_nal ++ [0x80]
  sei_nal

/-- The function `extractSimpleTimestampFromSEI`: three guards that return 0, then the
big-endian loop over `sei_nalu[3 + i]`, `i = 0..7`. -/
def extractSimpleTimestampFromSEI (sei_nalu : List Nat) : Nat :=
  if sei_nalu.length < 12 then 0
  else
    let nal_type := sei_nalu.getD 0 0 &&& 0x1F
    if nal_type ≠ NAL_UNIT_TYPE_SEI then 0
    else if sei_nalu.getD 1 0 ≠ 0x01 ∨ sei_nalu.getD 2 0 ≠ 0x08 then 0
    else
      (List.range 8).foldl
        (fun timestamp i => ((timestamp <<< 8) % 2 ^ 64) ||| sei_nalu.getD (3 + i) 0) 0

/-! ## RBSP byte stuffing (sei_generator.cpp, lines 206-242) -/

/-- The body of the `for` loop of `writeRBSP` at index `i`, on the output built so far. -/
def writeRBSPStep (data : List Nat) (rbsp : List Nat) (i : Nat) : List Nat :=
  let rbsp :=
    if 2 ≤ i ∧ data.getD (i - 2) 0 = 0x00 ∧ data.getD (i - 1) 0 = 0x00 ∧ data.getD i 0 ≤ 0x03
    then rbsp ++ [0x03] else rbsp
  rbsp ++ [data.getD i 0]

/-- The function `writeRBSP`: `for (size_t i = 0; i < data.size(); i++)` over the source
bytes, the test of lines 211-212 reading the SOURCE bytes `data[i - 2]`, `data[i - 1]`. -/
def writeRBSP (data : List Nat) : List Nat :=
  (List.range data.length).foldl (writeRBSPStep data) []

/-- The body of the `for` loop of `readRBSP` at index `i`.  The state is the output built so
far and a flag that is set once the loop has been left by `break`. -/
def readRBSPStep (rbsp : List Nat) (st : List Nat × Bool) (i : Nat) : List Nat × Bool :=
  if st.2 then st
  else if 2 ≤ i ∧ rbsp.getD (i - 2) 0 = 0x00 ∧ rbsp.getD (i - 1) 0 = 0x00 ∧ rbsp.getD i 0 = 0x03
  then st
  else if i = rbsp.length - 1 ∧ rbsp.getD i 0 = 0x80 then (st.1, true)
  else (st.1 ++ [rbsp.getD i 0], false)

/-- The function `readRBSP`: `for (size_t i = 0; i < rbsp.size(); i++)` with the `continue`
of line 230 and the `break` of line 235. -/
def readRBSP (rbsp : List Nat) : List Nat :=
  ((List.range rbsp.length).foldl (readRBSPStep rbsp) ([], false)).1

/-! ## Extended format (sei_generator.cpp, lines 8-11 and 36-82) -/

/-- The loop `while (payload_size >= 255) { push_back(0xFF); payload_size -= 255; }` of
lines 54-57; it returns the remaining size and the payload built so far. -/
def writeSizeLoop (payload_size : Nat) (sei_payload : List Nat) : Nat × List Nat :=
  if 255 ≤ payload_size then writeSizeLoop (payload_size - 255) (sei_payload ++ [0xFF])
  else (payload_size, sei_payload)
termination_by payload_size
decreasing_by omega

/-- The function `createUserDataSEI`.  `uuid` is the `std::array<uint8_t, 16>` argument; the
size is computed as `16 + data.size()` (a `size_t`, far from wrapping for a vector that fits
in memory). -/
def createUserDataSEI (uuid : List Nat) (data : List Nat) : List Nat :=
  let sei_payload : List Nat := [SEI_TYPE_USER_DATA_UNREGISTERED]
  let payload_size := 16 + data.length
  let sei_payload :=
    if payload_size < 255 then sei_payload ++ [payload_size % 256]
    else
      let r := writeSizeLoop payload_size sei_payload
      r.2 ++ [r.1 % 256]
  let sei_payload := sei_payload ++ uuid
  let sei_payload := sei_payload ++ data
  let nal_unit : List Nat := [NAL_UNIT_TYPE_SEI]
  let rbsp_data := writeRBSP sei_payload
  let nal_unit := nal_unit ++ rbsp_data
  nal_unit ++ [0x80]

/-- The function `createTimestampSEI`, lines 8-11. -/
def createTimestampSEI (timestamp_us : Nat) : List Nat :=
  let timestamp_bytes := timestampToBytes timestamp_us
  createUserDataSEI TIMESTAMP_UUID timestamp_bytes

/-! ## Extended parser (sei_generator.cpp, lines 84-153) -/

/-- The loop `while (pos < payload.size() && payload[pos] == 0xFF)` of lines 106-109; it
returns the final `pos` and `payload_size`. -/
def readSizeLoop (payload : List Nat) (pos payload_size : Nat) : Nat × Nat :=
  if pos < payload.length ∧ payload.getD pos 0 = 0xFF then
    readSizeLoop payload (pos + 1) (payload_size + 255)
  else (pos, payload_size)
termination_by payload.length - pos
decreasing_by omega

/-- The UUID comparison loop of lines 121-127: `uuid_match` starts true and the first
mismatch clears it and leaves the loop. -/
def uuidMatch (payload : List Nat) (pos : Nat) : Bool :=
  (List.range 16).foldl
    (fun uuid_match i =>
      if !uuid_match then false
      else if payload.getD (pos + i) 0 ≠ TIMESTAMP_UUID.getD i 0 then false
      else true)
    true

/-- Lines 89-138 of `extractTimestampFromSEI`: what the function does once the guard
`isTimestampSEI(sei_nalu)` of line 85 has let it through.  `none` stands for a read outside
a vector (`sei_nalu.begin() + 1` on an empty unit, or `payload[0]` on an empty payload). -/
def extractTimestampBody (sei_nalu : List Nat) : Option Nat :=
  if sei_nalu.length < 1 then none
  else
    let payload_end := sei_nalu.drop 1
    let payload := readRBSP payload_end
    let pos := 0
    if payload.length ≤ pos then none
    else if payload.getD pos 0 ≠ SEI_TYPE_USER_DATA_UNREGISTERED then some 0
    else
      let pos := pos + 1
      let r := readSizeLoop payload pos 0
      let pos := r.1
      let payload_size := r.2
      let r :=
        if pos < payload.length then (pos + 1, payload_size + payload.getD pos 0)
        else (pos, payload_size)
      let pos := r.1
      if pos + 16 + 8 > payload.length then some 0
      else if !uuidMatch payload pos then some 0
      else
        let pos := pos + 16
        let timestamp_bytes := (payload.drop pos).take 8
        some (bytesToTimestamp timestamp_bytes)

/-- How a call of one of the two mutually recursive functions ends. -/
inductive Outcome (α : Type) where
  /-- The call returns this value. -/
  | returns : α → Outcome α
  /-- The call reads outside a vector. -/
  | outOfBounds : Outcome α
  /-- The call has not returned within the allowed depth of nested calls. -/
  | unfinished : Outcome α
deriving DecidableEq, Repr

mutual

/-- The function `extractTimestampFromSEI`, with a bound on the depth of nested calls: line 85
calls `isTimestampSEI` first, and only then runs lines 89-138. -/
def extractTimestampFromSEI : Nat → List Nat → Outcome Nat
  | 0, _ => Outcome.unfinished
  | depth + 1, sei_nalu =>
    match isTimestampSEI depth sei_nalu with
    | Outcome.unfinished => Outcome.unfinished
    | Outcome.outOfBounds => Outcome.outOfBounds
    | Outcome.returns false => Outcome.returns 0
    | Outcome.returns true =>
      match extractTimestampBody sei_nalu with
      | none => Outcome.outOfBounds
      | some timestamp => Outcome.returns timestamp

/-- The function `isTimestampSEI`, with the same bound: after the two guards, line 152 calls
`extractTimestampFromSEI` on the same unit, and `extractSimpleTimestampFromSEI` only when
that call returned 0. -/
def isTimestampSEI : Nat → List Nat → Outcome Bool
  | 0, _ => Outcome.unfinished
  | depth + 1, nalu =>
    if nalu.length = 0 then Outcome.returns false
    else
      let nal_type := nalu.getD 0 0 &&& 0x1F
      if nal_type ≠ NAL_UNIT_TYPE_SEI then Outcome.returns false
      else
        match extractTimestampFromSEI depth nalu with
        | Outcome.unfinished => Outcome.unfinished
        | Outcome.outOfBounds => Outcome.outOfBounds
        | Outcome.returns timestamp =>
          Outcome.returns (timestamp != 0 || extractSimpleTimestampFromSEI nalu != 0)

end

/-! ## List forms of the two RBSP loops

The loops of `writeRBSP` and `readRBSP` index their input; the two functions below walk it
as a list and carry the two preceding bytes, with 1 standing for "no such byte".  They are
proved equal to the loops (`writeRBSP_eq_escapeFrom`, `readRBSP_eq_unescapeFrom`) and serve
the proofs only. -/

/-- The output of the `writeRBSP` loop on the remaining source bytes, `p2` and `p1` being the
two source bytes before them. -/
def escapeFrom (p2 p1 : Nat) : List Nat → List Nat
  | [] => []
  | b :: rest =>
    (if p2 = 0 ∧ p1 = 0 ∧ b ≤ 3 then [3, b] else [b]) ++ escapeFrom p1 b rest

/-- The output of the `readRBSP` loop on the remaining input bytes, `q2` and `q1` being the
two input bytes before them. -/
def unescapeFrom (q2 q1 : Nat) : List Nat → List Nat
  | [] => []
  | b :: rest =>
    if q2 = 0 ∧ q1 = 0 ∧ b = 3 then unescapeFrom q1 b rest
    else if rest = [] ∧ b = 0x80 then []
    else b :: unescapeFrom q1 b rest

/-- The last byte of a prefix, or 1 when the prefix is empty. -/
def lastByte (pre : List Nat) : Nat := pre.reverse.getD 0 1

/-- The byte before the last of a prefix, or 1 when the prefix has fewer than 2 bytes. -/
def lastByte2 (pre : List Nat) : Nat := pre.reverse.getD 1 1

/-- What `readRBSP` does with a final 0x80: the vector without that stop byte. -/
def stripStop (x : List Nat) : List Nat :=
  if x.getLast? = some 0x80 then x.dropLast else x

/-! ## Two sample units of the extended format -/

/-- A type-6 unit of the extended shape whose 16 tag bytes are all 41, not the recognized
UUID, followed by the 8 bytes 01..08 and the stop byte. -/
def unitWithOtherTag : List Nat :=
  [0x06, 0x05, 0x18,
   0x41, 0x41, 0x41, 0x41, 0x41, 0x41, 0x41, 0x41,
   0x41, 0x41, 0x41, 0x41, 0x41, 0x41, 0x41, 0x41,
   0x01, 0x02, 0x03, 0x04, 0x05, 0x06, 0x07, 0x08,
   0x80]

/-- A type-6 unit of the extended shape with the recognized UUID and eight 00 timestamp
bytes, escaped as `00 00 03 00 00 03 00 00 03 00 00`, and the stop byte. -/
def unitWithZeroTimestamp : List Nat :=
  [0x06, 0x05, 0x18,
   0x52, 0x4F, 0x53, 0x42, 0x41, 0x47, 0x2D, 0x54,
   0x49, 0x4D, 0x45, 0x53, 0x54, 0x41, 0x4D, 0x50,
   0x00, 0x00, 0x03, 0x00, 0x00, 0x03, 0x00, 0x00, 0x03, 0x00, 0x00,
   0x80]

end SEIGenerator

open SEIGenerator

/-! ## 64-bit unsigned subtraction -/

/-- The difference `a - b` of two `size_t` values (both below `2 ^ 64`) in 64-bit unsigned
arithmetic: it wraps around when `a < b`. -/
def subSizeT (a b : Nat) : Nat := if b ≤ a then a - b else a + 2 ^ 64 - b

/-! ## Annex-B scan and per-frame injection (src/h264_timestamp_injector.cpp) -/

namespace H264TimestampInjector

/-- The constant `NAL_UNIT_TYPE_IDR`, line 19. -/
def NAL_UNIT_TYPE_IDR : Nat := 5

/-- The constant `NAL_UNIT_TYPE_NON_IDR`, line 20. -/
def NAL_UNIT_TYPE_NON_IDR : Nat := 1

/-- The struct `NALUnit` of lines 26-31. -/
structure NALUnit where
  /-- Index of the first payload byte in the input. -/
  offset : Nat
  /-- Number of payload bytes. -/
  size : Nat
  /-- The 5-bit NAL unit type. -/
  type : Nat
  /-- Whether the unit is a coded slice. -/
  is_frame : Bool
deriving DecidableEq, Repr

/-- The function `isStartCode`, lines 225-245.  `pos + 3` is computed without wrap-around:
the scan calls it with `pos` below `2 ^ 64 - 3` during its first `2 ^ 64 - 4` iterations. -/
def isStartCode (input_data : List Nat) (pos : Nat) : Bool :=
  if pos + 3 ≥ input_data.length then false
  else if input_data.getD pos 0 = 0x00 ∧ input_data.getD (pos + 1) 0 = 0x00 ∧
      input_data.getD (pos + 2) 0 = 0x01 then true
  else if pos + 4 ≤ input_data.length ∧ input_data.getD pos 0 = 0x00 ∧
      input_data.getD (pos + 1) 0 = 0x00 ∧ input_data.getD (pos + 2) 0 = 0x00 ∧
      input_data.getD (pos + 3) 0 = 0x01 then true
  else false

/-- The loop `for (size_t i = start; i < input_data_.size() - 3; i++)` of lines 248-252, with
the number of iterations it has left; it returns `input_data_.size()` when it runs out. -/
def findNextStartCodeLoop (input_data : List Nat) : Nat → Nat → Nat
  | 0, _ => input_data.length
  | left + 1, i =>
    if isStartCode input_data i then i
    else findNextStartCodeLoop input_data left (i + 1)

/-- The function `findNextStartCode`, lines 247-254: the loop runs from `start` up to the
bound `input_data_.size() - 3`, a 64-bit unsigned difference. -/
def findNextStartCode (input_data : List Nat) (start : Nat) : Nat :=
  findNextStartCodeLoop input_data (subSizeT input_data.length 3 - start) start

/-- The `while` loop of `parseNALUnits`, lines 180-222, run for at most `fuel` iterations
from the cursor `pos` with the units pushed so far; `none` when the loop has not ended
within `fuel` iterations.  The guard `pos < input_data_.size() - 4` is a 64-bit unsigned
comparison. -/
def parseNALUnitsLoop (input_data : List Nat) : Nat → Nat → List NALUnit → Option (List NALUnit)
  | 0, _, _ => none
  | fuel + 1, pos, nal_units =>
    if pos < subSizeT input_data.length 4 then
      if isStartCode input_data pos then
        let pos := if input_data.getD (pos + 2) 0 = 0x01 then pos + 3 else pos + 4
        let next_start := findNextStartCode input_data pos
        let nal_size := subSizeT next_start pos
        let nal_units :=
          if nal_size > 0 ∧ pos < input_data.length then
            let type := input_data.getD pos 0 &&& 0x1F
            nal_units ++
              [{ offset := pos, size := nal_size, type := type,
                 is_frame := decide (type = NAL_UNIT_TYPE_IDR ∨ type = NAL_UNIT_TYPE_NON_IDR) }]
          else nal_units
        parseNALUnitsLoop input_data fuel next_start nal_units
      else parseNALUnitsLoop input_data fuel (pos + 1) nal_units
    else some nal_units

/-- The function `parseNALUnits`, lines 177-223: the loop from `pos = 0` with no unit. -/
def parseNALUnits (fuel : Nat) (input_data : List Nat) : Option (List NALUnit) :=
  parseNALUnitsLoop input_data fuel 0 []

/-- The function `writeStartCode`, lines 256-260, on the bytes written so far. -/
def writeStartCode (output : List Nat) : List Nat :=
  output ++ [0x00, 0x00, 0x00, 0x01]

/-- The body of the `for` loop of `processPerFrame`, lines 130-151, on the bytes written so
far and `timestamp_index`.  The element `k` of `timestamps_us` stands for
`static_cast<uint64_t>(frame_timestamps_[k] * 1000000)`; the floating-point product is not
modelled. -/
def processPerFrameStep (input_data : List Nat) (timestamps_us : List Nat)
    (st : List Nat × Nat) (nal : NALUnit) : List Nat × Nat :=
  let st :=
    if nal.is_frame = true ∧ st.2 < timestamps_us.length then
      let timestamp_us := timestamps_us.getD st.2 0
      let sei_nal := createSimpleTimestampSEI timestamp_us
      (writeStartCode st.1 ++ sei_nal, st.2 + 1)
    else st
  (writeStartCode st.1 ++ (input_data.drop nal.offset).take nal.size, st.2)

/-- The function `processPerFrame`, lines 117-158: the bytes written to the output file and
the final `timestamp_index` (the number of injected timestamps it prints). -/
def processPerFrame (input_data : List Nat) (nal_units : List NALUnit)
    (timestamps_us : List Nat) : List Nat × Nat :=
  nal_units.foldl (processPerFrameStep input_data timestamps_us) ([], 0)

/-- The byte index `i` lies in the span of the unit `u`: its payload together with the
`code_len` start-code bytes before it. -/
def inSpan (code_len : Nat) (u : NALUnit) (i : Nat) : Prop :=
  u.offset - code_len ≤ i ∧ i < u.offset + u.size

/-! ### Synthetic Annex-B buffers

A buffer built from a known sequence of units, each a start code of 3 or 4 bytes and a
payload, and the triples `(offset, size, type)` expected from its scan. -/

/-- The 4-byte start code `00 00 00 01` or the 3-byte start code `00 00 01`. -/
def startCode (four : Bool) : List Nat :=
  if four then [0x00, 0x00, 0x00, 0x01] else [0x00, 0x00, 0x01]

/-- The concatenation of the units `c_i ++ p_i`; a unit is the choice of its start code
(`true` for 4 bytes) and its payload. -/
def annexB : List (Bool × List Nat) → List Nat
  | [] => []
  | u :: rest => startCode u.1 ++ (u.2 ++ annexB rest)

/-- The triples `(offset of p_i, |p_i|, p_i[0] & 0x1F)` of the units of a buffer that starts
at byte index `off`. -/
def expectedTriples (off : Nat) : List (Bool × List Nat) → List (Nat × Nat × Nat)
  | [] => []
  | u :: rest =>
    (off + (startCode u.1).length, u.2.length, u.2.getD 0 0 &&& 0x1F) ::
      expectedTriples (off + (startCode u.1).length + u.2.length) rest

/-! ### What `processPerFrame` is expected to write -/

/-- The bytes written for a scanned unit: the 4-byte start code and the payload
`input_data[offset .. offset + size)`. -/
def unitBytes (input_data : List Nat) (u : NALUnit) : List Nat :=
  [0x00, 0x00, 0x00, 0x01] ++ (input_data.drop u.offset).take u.size

/-- The number `f(i)` of frame units before index `i`. -/
def framesBefore (units : List NALUnit) (i : Nat) : Nat :=
  (units.take i).countP (fun u => u.is_frame)

/-- The expected output of the per-frame policy: for each `i` in order, a start code and
the simple SEI of `ts[f(i)]` when `u_i` is a frame unit and `f(i) < |ts|`, then the start
code and the payload of `u_i`. -/
def perFrameSpec (input_data : List Nat) (units : List NALUnit) (ts : List Nat) : List Nat :=
  (List.range units.length).flatMap (fun i =>
    let u := units.getD i { offset := 0, size := 0, type := 0, is_frame := false }
    (if u.is_frame = true ∧ framesBefore units i < ts.length then
        [0x00, 0x00, 0x00, 0x01] ++ createSimpleTimestampSEI (ts.getD (framesBefore units i) 0)
      else []) ++ unitBytes input_data u)

end H264TimestampInjector

open H264TimestampInjector

/-! ## Length-prefixed streams (src/check_sei.cpp, src/convert_to_length_prefixed.cpp,
src/inject_real_timestamps_to_h264.cpp) -/

namespace LengthPrefixed

/-- The expression `(data[pos] << 24) | (data[pos+1] << 16) | (data[pos+2] << 8) |
data[pos+3]`, stored in a `uint32_t` (check_sei.cpp line 39, convert_to_length_prefixed.cpp
line 52, inject_real_timestamps_to_h264.cpp line 153). -/
def readLength (data : List Nat) (pos : Nat) : Nat :=
  ((data.getD pos 0 <<< 24) ||| (data.getD (pos + 1) 0 <<< 16) |||
    (data.getD (pos + 2) 0 <<< 8) ||| data.getD (pos + 3) 0) % 2 ^ 32

/-- The four bytes of a 32-bit length, most significant first. -/
def be32 (n : Nat) : List Nat :=
  [n / 2 ^ 24 % 256, n / 2 ^ 16 % 256, n / 2 ^ 8 % 256, n % 256]

/-- A well-formed length-prefixed buffer: the concatenation of the units
`be32 |payload| ++ payload`. -/
def lengthPrefixed : List (List Nat) → List Nat
  | [] => []
  | p :: rest => be32 p.length ++ (p ++ lengthPrefixed rest)

/-- The NAL type of a payload: the low five bits of its first byte. -/
def nalType (p : List Nat) : Nat := p.getD 0 0 &&& 0x1F

end LengthPrefixed

open LengthPrefixed

namespace CheckSei

/-- What the scan of check_sei.cpp reports: one entry `(nal_start, nal_type, length)` per
line "NAL unit at offset ...", the two counters of the summary, and the position printed
with "Invalid NAL unit length at position", if any. -/
structure ScanReport where
  /-- The units printed, in order. -/
  units : List (Nat × Nat × Nat)
  /-- The counter `sei_count`. -/
  sei_count : Nat
  /-- The counter `frame_count`. -/
  frame_count : Nat
  /-- The position of the error message written to `std::cerr`, when there is one. -/
  invalid_at : Option Nat
deriving DecidableEq, Repr

/-- The `while` loop of lines 37-93, run for at most `fuel` iterations; `depth` bounds the
nested calls of `extractTimestampFromSEI` (line 59).  The guard `pos < data.size() - 4` is a
64-bit unsigned comparison, and line 39 reads `data[pos .. pos + 3]`.  The calls of lines
60-86 only print. -/
def scanLoop (data : List Nat) (depth : Nat) : Nat → Nat → ScanReport → Outcome ScanReport
  | 0, _, _ => Outcome.unfinished
  | fuel + 1, pos, report =>
    if pos < subSizeT data.length 4 then
      if pos + 3 ≥ data.length then Outcome.outOfBounds
      else
        let length := readLength data pos
        let nal_start := pos + 4
        let nal_end := nal_start + length
        if nal_end > data.length then
          Outcome.returns { report with invalid_at := some pos }
        else if nal_start < data.length then
          let nal_type := data.getD nal_start 0 &&& 0x1F
          let report := { report with units := report.units ++ [(nal_start, nal_type, length)] }
          if nal_type = 6 then
            let report := { report with sei_count := report.sei_count + 1 }
            let sei_nalu := (data.drop nal_start).take length
            match extractTimestampFromSEI depth sei_nalu with
            | Outcome.unfinished => Outcome.unfinished
            | Outcome.outOfBounds => Outcome.outOfBounds
            | Outcome.returns _ => scanLoop data depth fuel nal_end report
          else if nal_type = 1 ∨ nal_type = 5 then
            scanLoop data depth fuel nal_end
              { report with frame_count := report.frame_count + 1 }
          else scanLoop data depth fuel nal_end report
        else scanLoop data depth fuel nal_end report
    else Outcome.returns report

/-- The scan of check_sei.cpp, lines 33-93, from `pos = 0` with both counters at 0. -/
def scan (depth fuel : Nat) (data : List Nat) : Outcome ScanReport :=
  scanLoop data depth fuel 0 { units := [], sei_count := 0, frame_count := 0, invalid_at := none }

/-- The entries `(offset of payload_i, type of payload_i, |payload_i|)` expected for the
units of a well-formed buffer that starts at byte index `off`. -/
def expectedLines (off : Nat) : List (List Nat) → List (Nat × Nat × Nat)
  | [] => []
  | p :: rest => (off + 4, nalType p, p.length) :: expectedLines (off + 4 + p.length) rest

/-- The number of frame units (type 1 or 5) among payloads. -/
def frameUnits (ps : List (List Nat)) : Nat :=
  ps.countP (fun p => decide (nalType p = 1 ∨ nalType p = 5))

end CheckSei

namespace ConvertToLengthPrefixed

/-- The copy loop of convert_to_length_prefixed.cpp, lines 50-69 (the same loop is at
inject_real_timestamps_to_h264.cpp, lines 151-170), run for at most `fuel` iterations on the
bytes written so far.  `break` at line 56 leaves the loop with the output as it is. -/
def rewriteLoop (data : List Nat) : Nat → Nat → List Nat → Outcome (List Nat)
  | 0, _, _ => Outcome.unfinished
  | fuel + 1, pos, output =>
    if pos < subSizeT data.length 4 then
      if pos + 3 ≥ data.length then Outcome.outOfBounds
      else
        let length := readLength data pos
        let nal_start := pos + 4
        let nal_end := nal_start + length
        if nal_end > data.length then Outcome.returns output
        else if nal_start < data.length then
          let nal_type := data.getD nal_start 0 &&& 0x1F
          let output :=
            if nal_type ≠ 6 then
              output ++ (data.drop pos).take 4 ++ (data.drop nal_start).take length
            else output
          rewriteLoop data fuel nal_end output
        else rewriteLoop data fuel nal_end output
    else Outcome.returns output

/-- The rewriter "insert one SEI at start": lines 35-69 of convert_to_length_prefixed.cpp,
where `timestamp` is the constant 1751959747173000, and lines 137-170 of
inject_real_timestamps_to_h264.cpp, where it is `real_timestamp`.  The result is the content
of the output file. -/
def insertSeiAtStart (fuel : Nat) (timestamp : Nat) (data : List Nat) : Outcome (List Nat) :=
  let sei_nal := createSimpleTimestampSEI timestamp
  let sei_length := sei_nal.length % 2 ^ 32
  let length_bytes :=
    [(sei_length >>> 24) &&& 0xFF, (sei_length >>> 16) &&& 0xFF,
     (sei_length >>> 8) &&& 0xFF, sei_length &&& 0xFF]
  let output := length_bytes ++ sei_nal
  rewriteLoop data fuel 0 output

end ConvertToLengthPrefixed

/-! ## Further pieces of the SEI codec -/

namespace SEIGenerator

/-- Lines 104-113 of `extractTimestampFromSEI`, from the cursor `pos`: the size loop, then
the final size byte when there is one; it returns the final `pos` and `payload_size`. -/
def readPayloadSize (payload : List Nat) (pos : Nat) : Nat × Nat :=
  let r := readSizeLoop payload pos 0
  let pos := r.1
  let payload_size := r.2
  if pos < payload.length then (pos + 1, payload_size + payload.getD pos 0)
  else (pos, payload_size)

/-- The reference encoder of the specification, section 4.2: it scans the source left to
right and, whenever the last two EMITTED bytes (`e2`, `e1`; 1 stands for "none") are `00 00`
and the next source byte is at most 03, it emits the escape byte 03 and then the source
byte. -/
def referenceEncodeFrom (e2 e1 : Nat) : List Nat → List Nat
  | [] => []
  | b :: rest =>
    if e2 = 0 ∧ e1 = 0 ∧ b ≤ 3 then [3, b] ++ referenceEncodeFrom 3 b rest
    else [b] ++ referenceEncodeFrom e1 b rest

/-- The reference encoder on a whole source. -/
def referenceEncode (x : List Nat) : List Nat := referenceEncodeFrom 1 1 x

end SEIGenerator

/-! ## The encoder with provenance, and escape removal alone -/

namespace SEIGenerator

/-- The body of the `for` loop of `writeRBSP` at index `i`, each pushed byte paired with its
provenance: `true` for the byte pushed by `rbsp.push_back(0x03)` of line 213, `false` for the
byte pushed by `rbsp.push_back(data[i])` of line 215. -/
def writeRBSPMarkedStep (data : List Nat) (rbsp : List (Nat × Bool)) (i : Nat) :
    List (Nat × Bool) :=
  let rbsp :=
    if 2 ≤ i ∧ data.getD (i - 2) 0 = 0x00 ∧ data.getD (i - 1) 0 = 0x00 ∧ data.getD i 0 ≤ 0x03
    then rbsp ++ [(0x03, true)] else rbsp
  rbsp ++ [(data.getD i 0, false)]

/-- The function `writeRBSP` with the provenance of every output byte. -/
def writeRBSPMarked (data : List Nat) : List (Nat × Bool) :=
  (List.range data.length).foldl (writeRBSPMarkedStep data) []

/-- The number of escape bytes that `writeRBSP` inserts into `data`. -/
def insertedEscapes (data : List Nat) : Nat :=
  (writeRBSPMarked data).countP (fun e => e.2)

/-- The encoder with provenance as a list recursion; `p2`, `p1` are the two previous source
bytes (1 when there is none). -/
def escapeMarkedFrom (p2 p1 : Nat) : List Nat → List (Nat × Bool)
  | [] => []
  | b :: rest =>
    (if p2 = 0 ∧ p1 = 0 ∧ b ≤ 3 then [(3, true), (b, false)] else [(b, false)]) ++
      escapeMarkedFrom p1 b rest

/-- The escape rule of `readRBSP` alone (lines 228-231, without the stop-byte test of lines
233-236): a byte 03 whose two previous input bytes `q2`, `q1` are 00 is dropped, every other
byte is kept. -/
def removeEscapesFrom (q2 q1 : Nat) : List Nat → List Nat
  | [] => []
  | b :: rest =>
    if q2 = 0 ∧ q1 = 0 ∧ b = 3 then removeEscapesFrom q1 b rest
    else b :: removeEscapesFrom q1 b rest

/-- Escape removal on a whole vector. -/
def removeEscapes (r : List Nat) : List Nat := removeEscapesFrom 1 1 r

end SEIGenerator

/-! ## The Annex-B checker (check_annexb_sei.cpp) and the test writer (test_simple_sei.cpp) -/

namespace CheckAnnexB

/-- The function `isStartCode` of check_annexb_sei.cpp, lines 7-23. -/
def isStartCode (data : List Nat) (pos : Nat) : Bool :=
  if pos + 3 ≥ data.length then false
  else if data.getD pos 0 = 0x00 ∧ data.getD (pos + 1) 0 = 0x00 ∧
      data.getD (pos + 2) 0 = 0x01 then true
  else if pos + 4 ≤ data.length ∧ data.getD pos 0 = 0x00 ∧
      data.getD (pos + 1) 0 = 0x00 ∧ data.getD (pos + 2) 0 = 0x00 ∧
      data.getD (pos + 3) 0 = 0x01 then true
  else false

/-- The loop of `findNextStartCode`, lines 26-30, with `left` positions still to visit from
`i` on; it falls through to `return data.size()`. -/
def findNextStartCodeLoop (data : List Nat) : Nat → Nat → Nat
  | 0, _ => data.length
  | left + 1, i =>
    if isStartCode data i then i else findNextStartCodeLoop data left (i + 1)

/-- The function `findNextStartCode` of check_annexb_sei.cpp, lines 25-32: the positions
visited are `start ≤ i < data.size() - 3`, the bound being a 64-bit unsigned difference. -/
def findNextStartCode (data : List Nat) (start : Nat) : Nat :=
  findNextStartCodeLoop data (subSizeT data.length 3 - start) start

/-- What the checker prints: one entry `(pos, nal_type, nal_size)` per line "NAL unit at
offset ...", the two counters of the summary, and the value `simple_timestamp` computed for
each SEI unit (line 86), in order. -/
structure ScanReport where
  /-- The units printed, in order. -/
  units : List (Nat × Nat × Nat)
  /-- The counter `sei_count`. -/
  sei_count : Nat
  /-- The counter `frame_count`. -/
  frame_count : Nat
  /-- The values returned by `extractSimpleTimestampFromSEI`, one per SEI unit. -/
  simple_timestamps : List Nat
deriving DecidableEq, Repr

/-- The `while` loop of lines 62-111, run for at most `fuel` iterations.  The guard
`pos < data.size() - 4` and `nal_size = next_start - pos` are 64-bit unsigned. -/
def scanLoop (data : List Nat) : Nat → Nat → ScanReport → Option ScanReport
  | 0, _, _ => none
  | fuel + 1, pos, report =>
    if pos < subSizeT data.length 4 then
      if isStartCode data pos then
        let pos := if data.getD (pos + 2) 0 = 0x01 then pos + 3 else pos + 4
        let next_start := findNextStartCode data pos
        let nal_size := subSizeT next_start pos
        let report :=
          if nal_size > 0 ∧ pos < data.length then
            let nal_type := data.getD pos 0 &&& 0x1F
            let report := { report with units := report.units ++ [(pos, nal_type, nal_size)] }
            if nal_type = 6 then
              let sei_nalu := (data.drop pos).take nal_size
              let simple_timestamp := extractSimpleTimestampFromSEI sei_nalu
              { report with
                sei_count := report.sei_count + 1
                simple_timestamps := report.simple_timestamps ++ [simple_timestamp] }
            else if nal_type = 1 ∨ nal_type = 5 then
              { report with frame_count := report.frame_count + 1 }
            else report
          else report
        scanLoop data fuel next_start report
      else scanLoop data fuel (pos + 1) report
    else some report

/-- The scan of check_annexb_sei.cpp, lines 58-111, from `pos = 0` with both counters at 0;
`none` when the loop has not ended within `fuel` iterations. -/
def scan (fuel : Nat) (data : List Nat) : Option ScanReport :=
  scanLoop data fuel 0 { units := [], sei_count := 0, frame_count := 0, simple_timestamps := [] }

end CheckAnnexB

namespace TestSimpleSei

/-- The array `start_code` of test_simple_sei.cpp, line 27. -/
def start_code : List Nat := [0x00, 0x00, 0x00, 0x01]

/-- The array `frame_nal` of test_simple_sei.cpp, line 33. -/
def frame_nal : List Nat := [0x41, 0x9A, 0x24, 0x4D, 0x00, 0x28, 0x88, 0x09, 0x11, 0x00]

/-- The constant `test_timestamp` of test_simple_sei.cpp, line 9. -/
def test_timestamp : Nat := 1751959747173000

/-- The bytes written to test_simple_sei.h264 by lines 14-34, for the timestamp given. -/
def writtenFile (test_timestamp : Nat) : List Nat :=
  let sei_nal := createSimpleTimestampSEI test_timestamp
  start_code ++ sei_nal ++ start_code ++ frame_nal

end TestSimpleSei

/-! ## The timestamp reader (h264_timestamp_reader.cpp) -/

namespace H264TimestampReader

/-- The member function `isStartCode` of h264_timestamp_reader.cpp, lines 11-27, on the
member `data_`. -/
def isStartCode (data_ : List Nat) (pos : Nat) : Bool :=
  if pos + 3 ≥ data_.length then false
  else if data_.getD pos 0 = 0x00 ∧ data_.getD (pos + 1) 0 = 0x00 ∧
      data_.getD (pos + 2) 0 = 0x01 then true
  else if pos + 4 ≤ data_.length ∧ data_.getD pos 0 = 0x00 ∧
      data_.getD (pos + 1) 0 = 0x00 ∧ data_.getD (pos + 2) 0 = 0x00 ∧
      data_.getD (pos + 3) 0 = 0x01 then true
  else false

/-- The loop of `findNextStartCode`, lines 30-34, with `left` positions still to visit from
`i` on; it falls through to `return data_.size()`. -/
def findNextStartCodeLoop (data_ : List Nat) : Nat → Nat → Nat
  | 0, _ => data_.length
  | left + 1, i =>
    if isStartCode data_ i then i else findNextStartCodeLoop data_ left (i + 1)

/-- The member function `findNextStartCode`, lines 29-36: the positions visited are
`start ≤ i < data_.size() - 3`, the bound being a 64-bit unsigned difference. -/
def findNextStartCode (data_ : List Nat) (start : Nat) : Nat :=
  findNextStartCodeLoop data_ (subSizeT data_.length 3 - start) start

/-- The state of `extractTimestamps` that its summary prints: the three counters and the
vector `timestamps` (kept here in microseconds, the source stores `timestamp_us / 1000000.0`),
together with the units visited, one entry `(pos, nal_type, nal_size)` per increment of
`nal_count`. -/
structure ReadReport where
  /-- The units visited, in order. -/
  visited : List (Nat × Nat × Nat)
  /-- The counter `nal_count`. -/
  nal_count : Nat
  /-- The counter `sei_count`. -/
  sei_count : Nat
  /-- The counter `timestamp_count`. -/
  timestamp_count : Nat
  /-- The timestamps pushed, in microseconds. -/
  timestamps : List Nat
deriving DecidableEq, Repr

/-- The `while` loop of `extractTimestamps`, lines 66-118, run for at most `fuel`
iterations; `depth` bounds the nested calls of `extractTimestampFromSEI` (line 91).  The
guard `pos < data_.size() - 4` and `nal_size = next_start - pos` are 64-bit unsigned.  The
branches of lines 105-111 only print. -/
def extractTimestampsLoop (data_ : List Nat) (depth : Nat) :
    Nat → Nat → ReadReport → Outcome ReadReport
  | 0, _, _ => Outcome.unfinished
  | fuel + 1, pos, report =>
    if pos < subSizeT data_.length 4 then
      if isStartCode data_ pos then
        let pos := if data_.getD (pos + 2) 0 = 0x01 then pos + 3 else pos + 4
        let next_start := findNextStartCode data_ pos
        let nal_size := subSizeT next_start pos
        if nal_size > 0 ∧ pos < data_.length then
          let nal_type := data_.getD pos 0 &&& 0x1F
          let report := { report with
            visited := report.visited ++ [(pos, nal_type, nal_size)]
            nal_count := report.nal_count + 1 }
          if nal_type = 6 then
            let report := { report with sei_count := report.sei_count + 1 }
            let nal_data := (data_.drop pos).take nal_size
            match extractTimestampFromSEI depth nal_data with
            | Outcome.unfinished => Outcome.unfinished
            | Outcome.outOfBounds => Outcome.outOfBounds
            | Outcome.returns timestamp_us =>
              let report :=
                if timestamp_us > 0 then
                  { report with
                    timestamps := report.timestamps ++ [timestamp_us]
                    timestamp_count := report.timestamp_count + 1 }
                else report
              extractTimestampsLoop data_ depth fuel next_start report
          else extractTimestampsLoop data_ depth fuel next_start report
        else extractTimestampsLoop data_ depth fuel next_start report
      else extractTimestampsLoop data_ depth fuel (pos + 1) report
    else Outcome.returns report

/-- The scan of `extractTimestamps`, lines 60-118, from `pos = 0` with all counters at 0. -/
def extractTimestamps (depth fuel : Nat) (data_ : List Nat) : Outcome ReadReport :=
  extractTimestampsLoop data_ depth fuel 0
    { visited := [], nal_count := 0, sei_count := 0, timestamp_count := 0, timestamps := [] }

/-- A report advanced by a list of scanned units none of which is of type 6: what the
reader is expected to hold after visiting them. -/
def advance (report : ReadReport) (units : List NALUnit) : ReadReport :=
  { report with
    visited := report.visited ++ units.map (fun u => (u.offset, u.type, u.size))
    nal_count := report.nal_count + units.length }

end H264TimestampReader

namespace CheckAnnexB

/-- A report advanced by a list of scanned units: what the checker is expected to hold after
visiting them, with one line per unit, the SEI counter advanced by the units of type 6, the
frame counter by the frame units, and one simple timestamp per unit of type 6. -/
def advance (data : List Nat) (report : ScanReport) (units : List NALUnit) : ScanReport :=
  { units := report.units ++ units.map (fun u => (u.offset, u.type, u.size))
    sei_count := report.sei_count + units.countP (fun u => decide (u.type = 6))
    frame_count := report.frame_count + units.countP (fun u => u.is_frame)
    simple_timestamps := report.simple_timestamps ++
      (units.filter (fun u => decide (u.type = 6))).map
        (fun u => extractSimpleTimestampFromSEI ((data.drop u.offset).take u.size)) }

end CheckAnnexB

namespace H264TimestampReader

/-- What the reader is expected to do, given what the injector's scan does on the same
buffer: it returns the report advanced by the scanned units when the scan returns and none
of them is of type 6, and it does not return otherwise. -/
def expectedOutcome (report : ReadReport) : Option (List NALUnit) → Outcome ReadReport
  | none => Outcome.unfinished
  | some units =>
    if units.all (fun u => decide (u.type ≠ 6)) then Outcome.returns (advance report units)
    else Outcome.unfinished

end H264TimestampReader

/-! ## Arithmetic helpers -/

/-- One step of the big-endian accumulation on a byte, without overflow. -/
theorem shl8_or_byte (a b : Nat) (ha : a < 2 ^ 56) (hb : b < 256) :
    ((a <<< 8) % 2 ^ 64) ||| b = a * 256 + b := by
  have h1 : a <<< 8 = 2 ^ 8 * a := by rw [Nat.shiftLeft_eq]; ring
  have h2 : 2 ^ 8 * a < 2 ^ 64 := by omega
  rw [h1, Nat.mod_eq_of_lt h2, ← Nat.mul_add_lt_is_or (by omega) a]
  omega

/-- The byte of `t` that `timestampToBytes` stores for shift `s`. -/
theorem shr_and_ff (t s : Nat) : (t >>> s) &&& 0xFF = t / 2 ^ s % 256 := by
  have h : (0xFF : Nat) = 2 ^ 8 - 1 := by norm_num
  rw [h, Nat.and_pow_two_sub_one_eq_mod, Nat.shiftRight_eq_div_pow]

/-- The eight bytes written by `timestampToBytes`, most significant first. -/
theorem timestampToBytes_eq (t : Nat) :
    timestampToBytes t =
      [t / 2 ^ 56 % 256, t / 2 ^ 48 % 256, t / 2 ^ 40 % 256, t / 2 ^ 32 % 256,
       t / 2 ^ 24 % 256, t / 2 ^ 16 % 256, t / 2 ^ 8 % 256, t % 256] := by
  simp only [timestampToBytes, List.foldl, List.replicate, List.set, shr_and_ff]
  simp

/-- The big-endian loop on eight bytes computes their positional value. -/
theorem be_fold_eq (f : Nat → Nat)
    (hf : ∀ i, i < 8 → f i < 256) :
    (List.range 8).foldl (fun timestamp i => ((timestamp <<< 8) % 2 ^ 64) ||| f i) 0 =
      f 0 * 256 ^ 7 + f 1 * 256 ^ 6 + f 2 * 256 ^ 5 + f 3 * 256 ^ 4 +
      f 4 * 256 ^ 3 + f 5 * 256 ^ 2 + f 6 * 256 + f 7 := by
  have h0 := hf 0 (by omega)
  have h1 := hf 1 (by omega)
  have h2 := hf 2 (by omega)
  have h3 := hf 3 (by omega)
  have h4 := hf 4 (by omega)
  have h5 := hf 5 (by omega)
  have h6 := hf 6 (by omega)
  have h7 := hf 7 (by omega)
  have e : List.range 8 = [0, 1, 2, 3, 4, 5, 6, 7] := by decide
  rw [e]
  simp only [List.foldl]
  rw [shl8_or_byte 0 (f 0) (by omega) h0]
  rw [shl8_or_byte _ (f 1) (by omega) h1]
  rw [shl8_or_byte _ (f 2) (by omega) h2]
  rw [shl8_or_byte _ (f 3) (by omega) h3]
  rw [shl8_or_byte _ (f 4) (by omega) h4]
  rw [shl8_or_byte _ (f 5) (by omega) h5]
  rw [shl8_or_byte _ (f 6) (by omega) h6]
  rw [shl8_or_byte _ (f 7) (by omega) h7]
  omega

/-! ## The RBSP loops as list recursions -/

theorem lastByte_concat (pre : List Nat) (b : Nat) : lastByte (pre ++ [b]) = b := by
  simp [lastByte]

theorem lastByte2_concat (pre : List Nat) (b : Nat) :
    lastByte2 (pre ++ [b]) = lastByte pre := by
  simp [lastByte2, lastByte]

theorem getD_append_at_length (pre rest : List Nat) (b : Nat) :
    (pre ++ b :: rest).getD pre.length 0 = b := by
  induction pre with
  | nil => rfl
  | cons a t ih => simpa using ih

/-- The test on the two preceding bytes at index `pre.length`, read off the prefix. -/
theorem prev_zero_iff (pre suf : List Nat) :
    (2 ≤ pre.length ∧ (pre ++ suf).getD (pre.length - 2) 0 = 0 ∧
      (pre ++ suf).getD (pre.length - 1) 0 = 0) ↔
    (lastByte2 pre = 0 ∧ lastByte pre = 0) := by
  rcases List.eq_nil_or_concat pre with rfl | ⟨pre1, a, rfl⟩
  · simp [lastByte, lastByte2]
  · rcases List.eq_nil_or_concat pre1 with rfl | ⟨pre2, a2, rfl⟩
    · simp [lastByte, lastByte2]
    · simp only [List.concat_eq_append]
      have e1 : (pre2 ++ [a2] ++ [a] ++ suf) = pre2 ++ a2 :: a :: suf := by simp
      have e2 : (pre2 ++ [a2] ++ [a] ++ suf) = (pre2 ++ [a2]) ++ a :: suf := by simp
      have l1 : (pre2 ++ [a2] ++ [a]).length - 2 = pre2.length := by simp
      have l2 : (pre2 ++ [a2] ++ [a]).length - 1 = (pre2 ++ [a2]).length := by simp
      have g1 : (pre2 ++ [a2] ++ [a] ++ suf).getD ((pre2 ++ [a2] ++ [a]).length - 2) 0 = a2 := by
        rw [l1, e1, getD_append_at_length]
      have g2 : (pre2 ++ [a2] ++ [a] ++ suf).getD ((pre2 ++ [a2] ++ [a]).length - 1) 0 = a := by
        rw [l2, e2, getD_append_at_length]
      rw [g1, g2]
      simp [lastByte, lastByte2]

/-- The `writeRBSP` loop from index `pre.length` on. -/
theorem writeRBSP_fold (suf : List Nat) :
    ∀ (pre acc : List Nat),
      (List.range' pre.length suf.length).foldl (writeRBSPStep (pre ++ suf)) acc =
        acc ++ escapeFrom (lastByte2 pre) (lastByte pre) suf := by
  induction suf with
  | nil => intro pre acc; simp [escapeFrom]
  | cons b rest ih =>
    intro pre acc
    have e : pre ++ b :: rest = (pre ++ [b]) ++ rest := by simp
    have hstep : writeRBSPStep (pre ++ b :: rest) acc pre.length =
        acc ++ (if lastByte2 pre = 0 ∧ lastByte pre = 0 ∧ b ≤ 3 then [3, b] else [b]) := by
      have hz := prev_zero_iff pre (b :: rest)
      unfold writeRBSPStep
      simp only [getD_append_at_length]
      by_cases hc : lastByte2 pre = 0 ∧ lastByte pre = 0 ∧ b ≤ 3
      · have hc2 : 2 ≤ pre.length ∧ (pre ++ b :: rest).getD (pre.length - 2) 0 = 0 ∧
            (pre ++ b :: rest).getD (pre.length - 1) 0 = 0 ∧ b ≤ 3 := by
          have := hz.mpr ⟨hc.1, hc.2.1⟩
          exact ⟨this.1, this.2.1, this.2.2, hc.2.2⟩
        rw [if_pos hc2, if_pos hc]
        simp
      · have hc2 : ¬ (2 ≤ pre.length ∧ (pre ++ b :: rest).getD (pre.length - 2) 0 = 0 ∧
            (pre ++ b :: rest).getD (pre.length - 1) 0 = 0 ∧ b ≤ 3) := by
          intro h
          have := hz.mp ⟨h.1, h.2.1, h.2.2.1⟩
          exact hc ⟨this.1, this.2, h.2.2.2⟩
        rw [if_neg hc2, if_neg hc]
    have hlen : (pre ++ [b]).length = pre.length + 1 := by simp
    simp only [List.length_cons, List.range'_succ, List.foldl_cons]
    rw [hstep, e, ← hlen, ih (pre ++ [b]), lastByte_concat, lastByte2_concat]
    simp [escapeFrom]

/-- The function `writeRBSP` as a list recursion. -/
theorem writeRBSP_eq_escapeFrom (x : List Nat) : writeRBSP x = escapeFrom 1 1 x := by
  have h := writeRBSP_fold x [] []
  simp only [List.length_nil, List.nil_append] at h
  unfold writeRBSP
  rw [List.range_eq_range', h]
  rfl

/-- The `readRBSP` loop from index `pre.length` on. -/
theorem readRBSP_fold (suf : List Nat) :
    ∀ (pre acc : List Nat),
      ((List.range' pre.length suf.length).foldl (readRBSPStep (pre ++ suf)) (acc, false)).1 =
        acc ++ unescapeFrom (lastByte2 pre) (lastByte pre) suf := by
  induction suf with
  | nil => intro pre acc; simp [unescapeFrom]
  | cons b rest ih =>
    intro pre acc
    have e : pre ++ b :: rest = (pre ++ [b]) ++ rest := by simp
    have hlen : (pre ++ [b]).length = pre.length + 1 := by simp
    have hz := prev_zero_iff pre (b :: rest)
    have hlast : (pre.length = (pre ++ b :: rest).length - 1) ↔ rest = [] := by
      simp only [List.length_append, List.length_cons]
      constructor
      · intro h
        exact List.length_eq_zero.mp (by omega)
      · intro h
        subst h
        simp
    simp only [List.length_cons, List.range'_succ, List.foldl_cons]
    by_cases hc : lastByte2 pre = 0 ∧ lastByte pre = 0 ∧ b = 3
    · have hc2 : 2 ≤ pre.length ∧ (pre ++ b :: rest).getD (pre.length - 2) 0 = 0 ∧
          (pre ++ b :: rest).getD (pre.length - 1) 0 = 0 ∧
          (pre ++ b :: rest).getD pre.length 0 = 3 := by
        have := hz.mpr ⟨hc.1, hc.2.1⟩
        exact ⟨this.1, this.2.1, this.2.2, by rw [getD_append_at_length]; exact hc.2.2⟩
      have hstep : readRBSPStep (pre ++ b :: rest) (acc, false) pre.length = (acc, false) := by
        unfold readRBSPStep
        simp only [Bool.false_eq_true, if_false]
        rw [if_pos hc2]
      rw [hstep, e, ← hlen, ih (pre ++ [b]), lastByte_concat, lastByte2_concat]
      conv_rhs => rw [unescapeFrom, if_pos hc]
    · have hc2 : ¬ (2 ≤ pre.length ∧ (pre ++ b :: rest).getD (pre.length - 2) 0 = 0 ∧
          (pre ++ b :: rest).getD (pre.length - 1) 0 = 0 ∧
          (pre ++ b :: rest).getD pre.length 0 = 3) := by
        intro h
        have := hz.mp ⟨h.1, h.2.1, h.2.2.1⟩
        rw [getD_append_at_length] at h
        exact hc ⟨this.1, this.2, h.2.2.2⟩
      by_cases hb : rest = [] ∧ b = 0x80
      · have hb2 : pre.length = (pre ++ b :: rest).length - 1 ∧
            (pre ++ b :: rest).getD pre.length 0 = 0x80 :=
          ⟨hlast.mpr hb.1, by rw [getD_append_at_length]; exact hb.2⟩
        have hstep : readRBSPStep (pre ++ b :: rest) (acc, false) pre.length = (acc, true) := by
          unfold readRBSPStep
          simp only [Bool.false_eq_true, if_false]
          rw [if_neg hc2, if_pos hb2]
        rw [hstep]
        conv_rhs => rw [unescapeFrom, if_neg hc, if_pos hb]
        rw [hb.1]
        simp
      · have hb2 : ¬ (pre.length = (pre ++ b :: rest).length - 1 ∧
            (pre ++ b :: rest).getD pre.length 0 = 0x80) := by
          intro h
          rw [getD_append_at_length] at h
          exact hb ⟨hlast.mp h.1, h.2⟩
        have hstep : readRBSPStep (pre ++ b :: rest) (acc, false) pre.length =
            (acc ++ [b], false) := by
          unfold readRBSPStep
          simp only [Bool.false_eq_true, if_false]
          rw [if_neg hc2, if_neg hb2, getD_append_at_length]
        rw [hstep, e, ← hlen, ih (pre ++ [b]), lastByte_concat, lastByte2_concat]
        conv_rhs => rw [unescapeFrom, if_neg hc, if_neg hb]
        simp

/-- The function `readRBSP` as a list recursion. -/
theorem readRBSP_eq_unescapeFrom (y : List Nat) : readRBSP y = unescapeFrom 1 1 y := by
  have h := readRBSP_fold y [] []
  simp only [List.length_nil, List.nil_append] at h
  unfold readRBSP
  rw [List.range_eq_range', h]
  rfl

/-! ## Decoding an encoded vector -/

theorem stripStop_nil : stripStop [] = [] := by
  simp [stripStop]

theorem stripStop_cons (b : Nat) (rest : List Nat) :
    stripStop (b :: rest) = if rest = [] ∧ b = 0x80 then [] else b :: stripStop rest := by
  cases rest with
  | nil =>
    by_cases hb : b = 0x80
    · simp [stripStop, hb]
    · have : ¬ (128 = b) := fun h => hb h.symm
      simp [stripStop, hb, this]
  | cons c rest2 =>
    by_cases hl : (c :: rest2).getLast? = some 0x80
    · have hl2 : (b :: c :: rest2).getLast? = some 0x80 := by
        rw [List.getLast?_cons_cons]; exact hl
      simp only [stripStop, hl, hl2, if_true]
      simp
    · have hl2 : ¬ (b :: c :: rest2).getLast? = some 0x80 := by
        rw [List.getLast?_cons_cons]; exact hl
      simp only [stripStop, hl, hl2, if_false]
      simp

theorem escapeFrom_eq_nil (p2 p1 : Nat) (x : List Nat) : escapeFrom p2 p1 x = [] ↔ x = [] := by
  cases x with
  | nil => simp [escapeFrom]
  | cons b rest =>
    simp only [escapeFrom]
    by_cases hc : p2 = 0 ∧ p1 = 0 ∧ b ≤ 3
    · simp [hc]
    · simp [hc]

/-- Decoding what the encoder emits gives the source back, up to the stop byte, as long as
the source has no run `00 00 00 b` with `b ≤ 3`.  The context bytes are the three source
bytes before `x`; the decoder has seen the escape byte 03 in place of `p2` when `p1` was
escaped. -/
theorem unescapeFrom_escapeFrom (x : List Nat) :
    ∀ (p3 p2 p1 : Nat),
      (∀ b, b ≤ 3 → ¬ [0, 0, 0, b] <:+: p3 :: p2 :: p1 :: x) →
      unescapeFrom (if p3 = 0 ∧ p2 = 0 ∧ p1 ≤ 3 then 3 else p2) p1 (escapeFrom p2 p1 x) =
        stripStop x := by
  induction x with
  | nil => intro p3 p2 p1 _; simp [escapeFrom, unescapeFrom, stripStop_nil]
  | cons b rest ih =>
    intro p3 p2 p1 H
    have H2 : ∀ c, c ≤ 3 → ¬ [0, 0, 0, c] <:+: p2 :: p1 :: b :: rest := by
      intro c hc hin
      exact H c hc (List.infix_cons hin)
    have hw : ¬ (p3 = 0 ∧ p2 = 0 ∧ p1 = 0 ∧ b ≤ 3) := by
      rintro ⟨h3, h2, h1, hb⟩
      apply H b hb
      subst h3 h2 h1
      exact ⟨[], rest, by simp⟩
    have ih2 := ih p2 p1 b H2
    rw [stripStop_cons]
    by_cases hc : p2 = 0 ∧ p1 = 0 ∧ b ≤ 3
    · obtain ⟨h2, h1, hb⟩ := hc
      have h3 : ¬ p3 = 0 := fun h => hw ⟨h, h2, h1, hb⟩
      have hb80 : ¬ b = 0x80 := by omega
      rw [if_pos ⟨h2, h1, hb⟩] at ih2
      subst h2 h1
      simp only [escapeFrom, h3, false_and, if_false, true_and, hb, if_true, List.cons_append,
        List.nil_append, List.singleton_append]
      rw [unescapeFrom, if_pos ⟨rfl, rfl, rfl⟩, unescapeFrom,
        if_neg (by omega), if_neg (fun h => hb80 h.2), ih2, if_neg (fun h => hb80 h.2)]
    · rw [if_neg hc] at ih2
      have hq : ¬ ((if p3 = 0 ∧ p2 = 0 ∧ p1 ≤ 3 then 3 else p2) = 0 ∧ p1 = 0 ∧ b = 3) := by
        rintro ⟨hq2, h1, hb⟩
        by_cases h : p3 = 0 ∧ p2 = 0 ∧ p1 ≤ 3
        · rw [if_pos h] at hq2
          omega
        · rw [if_neg h] at hq2
          exact hc ⟨hq2, h1, by omega⟩
      simp only [escapeFrom, hc, if_false, List.singleton_append]
      rw [unescapeFrom, if_neg hq, ih2]
      simp only [escapeFrom_eq_nil]

/-- The sentinel context adds no run `00 00 00 b`. -/
theorem no_run_with_sentinel (x : List Nat)
    (h : ∀ b, b ≤ 3 → ¬ [0, 0, 0, b] <:+: x) :
    ∀ b, b ≤ 3 → ¬ [0, 0, 0, b] <:+: 1 :: 1 :: 1 :: x := by
  intro b hb hin
  rw [List.infix_cons_iff] at hin
  rcases hin with hp | hin
  · simp at hp
  · rw [List.infix_cons_iff] at hin
    rcases hin with hp | hin
    · simp at hp
    · rw [List.infix_cons_iff] at hin
      rcases hin with hp | hin
      · simp at hp
      · exact h b hb hin

/-- Decoding an encoded vector: the source, without its final byte when that byte is 0x80,
for a source without a run `00 00 00 b`, `b ≤ 3`. -/
theorem readRBSP_writeRBSP (x : List Nat) (h : ∀ b, b ≤ 3 → ¬ [0, 0, 0, b] <:+: x) :
    readRBSP (writeRBSP x) = stripStop x := by
  rw [writeRBSP_eq_escapeFrom, readRBSP_eq_unescapeFrom]
  have := unescapeFrom_escapeFrom x 1 1 1 (no_run_with_sentinel x h)
  simpa using this

/-- The encoder emits no window `00 00 c` with `c ≤ 2`, also across the two bytes emitted
just before (`q2`, which is 03 or the source byte `p2`, and `p1`). -/
theorem escapeFrom_no_window (c : Nat) (hc : c ≤ 2) (x : List Nat) :
    ∀ (p2 p1 q2 : Nat), (q2 = 0 → p2 = 0) →
      ¬ [0, 0, c] <:+: q2 :: p1 :: escapeFrom p2 p1 x := by
  induction x with
  | nil =>
    intro p2 p1 q2 _ hin
    have := hin.length_le
    simp [escapeFrom] at this
  | cons b rest ih =>
    intro p2 p1 q2 hq hin
    by_cases he : p2 = 0 ∧ p1 = 0 ∧ b ≤ 3
    · obtain ⟨h2, h1, hb⟩ := he
      subst h2 h1
      simp only [escapeFrom, hb, and_self, if_true, List.cons_append, List.nil_append,
        List.singleton_append] at hin
      rw [List.infix_cons_iff] at hin
      rcases hin with hp | hin
      · simp at hp
        omega
      · rw [List.infix_cons_iff] at hin
        rcases hin with hp | hin
        · simp at hp
        · exact ih 0 b 3 (by omega) hin
    · simp only [escapeFrom, he, if_false, List.singleton_append] at hin
      rw [List.infix_cons_iff] at hin
      rcases hin with hp | hin
      · simp at hp
        obtain ⟨h2, h1, hb, _⟩ := hp
        exact he ⟨hq h2.symm, h1.symm, by omega⟩
      · exact ih p1 b p1 (fun h => h) hin

/-- No window `00 00 c`, `c ≤ 2`, in the output of `writeRBSP`. -/
theorem writeRBSP_no_window (c : Nat) (hc : c ≤ 2) (x : List Nat) :
    ¬ [0, 0, c] <:+: writeRBSP x := by
  intro hin
  rw [writeRBSP_eq_escapeFrom] at hin
  exact escapeFrom_no_window c hc x 1 1 1 (by omega) (List.infix_cons (List.infix_cons hin))

/-! ## The size field of the extended format -/

/-- The loop of lines 54-57 pushes one FF per full 255 and leaves the remainder. -/
theorem writeSizeLoop_eq (n : Nat) :
    ∀ acc : List Nat,
      writeSizeLoop n acc = (n % 255, acc ++ List.replicate (n / 255) 0xFF) := by
  induction n using Nat.strong_induction_on with
  | _ n ih =>
    intro acc
    rw [writeSizeLoop]
    by_cases h : 255 ≤ n
    · rw [if_pos h, ih (n - 255) (by omega) (acc ++ [0xFF])]
      have hd : n / 255 = (n - 255) / 255 + 1 := by omega
      have hm : (n - 255) % 255 = n % 255 := by omega
      rw [hd, hm, List.replicate_succ, List.append_assoc]
      rfl
    · rw [if_neg h]
      have hd : n / 255 = 0 := by omega
      have hm : n % 255 = n := by omega
      rw [hd, hm]
      simp

/-- The payload that `createUserDataSEI` stuffs: type 5, the size field, the uuid, the data. -/
theorem createUserDataSEI_eq (uuid data : List Nat) :
    createUserDataSEI uuid data =
      [0x06] ++
        writeRBSP ([0x05] ++
          (List.replicate ((16 + data.length) / 255) 0xFF ++ [(16 + data.length) % 255]) ++
          uuid ++ data) ++
        [0x80] := by
  unfold createUserDataSEI
  simp only [NAL_UNIT_TYPE_SEI, SEI_TYPE_USER_DATA_UNREGISTERED]
  by_cases h : 16 + data.length < 255
  · have hd : (16 + data.length) / 255 = 0 := by omega
    have hm : (16 + data.length) % 255 = 16 + data.length := by omega
    have hm2 : (16 + data.length) % 256 = 16 + data.length := by omega
    rw [if_pos h, hd, hm, hm2]
    simp
  · have hm2 : (16 + data.length) % 255 % 256 = (16 + data.length) % 255 := by omega
    rw [if_neg h, writeSizeLoop_eq]
    simp only [hm2]
    simp

/-! ## The mutual recursion of `extractTimestampFromSEI` and `isTimestampSEI` -/

/-- On a non-empty unit of NAL type 6 each of the two functions calls the other on the same
unit, so no depth of nested calls lets either return. -/
theorem sei_calls_unfinished (n : List Nat) (hne : n.length ≠ 0)
    (h6 : n.getD 0 0 &&& 0x1F = 6) :
    ∀ depth : Nat,
      extractTimestampFromSEI depth n = Outcome.unfinished ∧
      isTimestampSEI depth n = Outcome.unfinished := by
  intro depth
  induction depth with
  | zero => exact ⟨by simp [extractTimestampFromSEI], by simp [isTimestampSEI]⟩
  | succ d ih =>
    constructor
    · rw [extractTimestampFromSEI, ih.2]
    · rw [isTimestampSEI, if_neg hne]
      simp only [NAL_UNIT_TYPE_SEI, h6, ne_eq, not_true_eq_false, if_false]
      rw [ih.1]

/-- The two guards of `isTimestampSEI` are the only base case of the recursion. -/
theorem sei_calls_base (n : List Nat) (h : n.length = 0 ∨ n.getD 0 0 &&& 0x1F ≠ 6)
    (depth : Nat) :
    extractTimestampFromSEI (depth + 2) n = Outcome.returns 0 ∧
    isTimestampSEI (depth + 1) n = Outcome.returns false := by
  have hb : ∀ d, isTimestampSEI (d + 1) n = Outcome.returns false := by
    intro d
    rw [isTimestampSEI]
    by_cases he : n.length = 0
    · rw [if_pos he]
    · rw [if_neg he]
      have h6 : n.getD 0 0 &&& 0x1F ≠ 6 := by
        rcases h with h | h
        · exact absurd h he
        · exact h
      simp only [NAL_UNIT_TYPE_SEI, ne_eq, h6, not_false_eq_true, if_true]
  exact ⟨by rw [extractTimestampFromSEI, hb], hb depth⟩

/-- The first byte of an extended unit is 06. -/
theorem createUserDataSEI_head (uuid data : List Nat) :
    (createUserDataSEI uuid data).length ≠ 0 ∧
    (createUserDataSEI uuid data).getD 0 0 &&& 0x1F = 6 := by
  rw [createUserDataSEI_eq]
  simp only [List.cons_append, List.nil_append, List.length_cons, List.getD_cons_zero]
  exact ⟨by omega, by decide⟩

/-! ## Lines 89-138 on a payload of the extended shape -/

theorem getD_append_add (pre suf : List Nat) (i : Nat) :
    (pre ++ suf).getD (pre.length + i) 0 = suf.getD i 0 := by
  induction pre with
  | nil => simp
  | cons a t ih =>
    have e : (a :: t).length + i = (t.length + i) + 1 := by simp; omega
    rw [e]
    simpa using ih

/-- The size loop of lines 106-109 on a run of `k` bytes FF closed by a byte `s ≠ FF`. -/
theorem readSizeLoop_run (s : Nat) (tl : List Nat) (hs : s ≠ 0xFF) (k : Nat) :
    ∀ (pre : List Nat) (acc : Nat),
      readSizeLoop (pre ++ List.replicate k 0xFF ++ s :: tl) pre.length acc =
        (pre.length + k, acc + 255 * k) := by
  induction k with
  | zero =>
    intro pre acc
    rw [readSizeLoop]
    simp only [List.replicate_zero, List.append_nil, getD_append_at_length]
    rw [if_neg (fun h => hs h.2)]
    simp
  | succ k ih =>
    intro pre acc
    have e : pre ++ List.replicate (k + 1) 0xFF ++ s :: tl =
        (pre ++ [0xFF]) ++ List.replicate k 0xFF ++ s :: tl := by
      simp [List.replicate_succ]
    have e2 : pre ++ List.replicate (k + 1) 0xFF ++ s :: tl =
        pre ++ 0xFF :: (List.replicate k 0xFF ++ s :: tl) := by
      simp [List.replicate_succ]
    have hlen : (pre ++ [0xFF]).length = pre.length + 1 := by simp
    rw [readSizeLoop]
    have hc : pre.length < (pre ++ List.replicate (k + 1) 0xFF ++ s :: tl).length ∧
        (pre ++ List.replicate (k + 1) 0xFF ++ s :: tl).getD pre.length 0 = 0xFF := by
      constructor
      · simp only [List.length_append, List.length_replicate, List.length_cons]
        omega
      · rw [e2, getD_append_at_length]
    rw [if_pos hc, e, ← hlen, ih (pre ++ [0xFF]) (acc + 255), hlen]
    congr 1
    · omega
    · omega

/-- The comparison loop of lines 121-127 succeeds exactly when the 16 bytes at `pos` are the
bytes of `TIMESTAMP_UUID`. -/
theorem uuidMatch_iff (payload : List Nat) (pos : Nat) :
    uuidMatch payload pos = true ↔
      ∀ i, i < 16 → payload.getD (pos + i) 0 = TIMESTAMP_UUID.getD i 0 := by
  have hfalse : ∀ l : List Nat, l.foldl
      (fun uuid_match i =>
        if !uuid_match then false
        else if payload.getD (pos + i) 0 ≠ TIMESTAMP_UUID.getD i 0 then false
        else true) false = false := by
    intro l
    induction l with
    | nil => rfl
    | cons a t ih => simpa using ih
  have htrue : ∀ l : List Nat, l.foldl
      (fun uuid_match i =>
        if !uuid_match then false
        else if payload.getD (pos + i) 0 ≠ TIMESTAMP_UUID.getD i 0 then false
        else true) true = true ↔
      ∀ i ∈ l, payload.getD (pos + i) 0 = TIMESTAMP_UUID.getD i 0 := by
    intro l
    induction l with
    | nil => simp
    | cons a t ih =>
      by_cases ha : payload.getD (pos + a) 0 = TIMESTAMP_UUID.getD a 0
      · simp only [List.foldl_cons, Bool.not_true, Bool.false_eq_true, if_false, ne_eq, ha,
          not_true_eq_false, List.mem_cons, forall_eq_or_imp, true_and]
        exact ih
      · simp only [List.foldl_cons, Bool.not_true, Bool.false_eq_true, if_false, ne_eq, ha,
          not_false_eq_true, if_true, List.mem_cons, forall_eq_or_imp, false_and, iff_false]
        rw [hfalse]
        simp
  unfold uuidMatch
  rw [htrue]
  simp [List.mem_range]

/-- A 16-byte tag is the recognized UUID exactly when it agrees with it byte by byte. -/
theorem tag_eq_uuid_iff (tag : List Nat) (htag : tag.length = 16) :
    tag = TIMESTAMP_UUID ↔ ∀ i, i < 16 → tag.getD i 0 = TIMESTAMP_UUID.getD i 0 := by
  constructor
  · intro h i _
    rw [h]
  · intro h
    have hu : TIMESTAMP_UUID.length = 16 := by decide
    apply List.ext_getElem (by rw [htag, hu])
    intro i h1 h2
    have := h i (by omega)
    rw [List.getD_eq_getElem tag 0 h1, List.getD_eq_getElem TIMESTAMP_UUID 0 h2] at this
    exact this

/-- Lines 89-138 of `extractTimestampFromSEI` on a unit whose decoded payload is `05`, a size
field (`k` bytes FF and a byte `s ≠ FF`), a 16-byte tag and at least 8 more bytes: the
big-endian value of the 8 bytes after the tag when the tag is `TIMESTAMP_UUID`, else 0. -/
theorem extractTimestampBody_shape (n : List Nat) (k s : Nat) (tag rest : List Nat)
    (hn : n.length ≠ 0)
    (hp : readRBSP (n.drop 1) = [0x05] ++ List.replicate k 0xFF ++ [s] ++ tag ++ rest)
    (hs : s ≠ 0xFF) (htag : tag.length = 16) (hrest : 8 ≤ rest.length) :
    extractTimestampBody n =
      some (if tag = TIMESTAMP_UUID then bytesToTimestamp (rest.take 8) else 0) := by
  have e1 : [0x05] ++ List.replicate k 0xFF ++ [s] ++ tag ++ rest =
      [0x05] ++ List.replicate k 0xFF ++ s :: (tag ++ rest) := by simp
  have e2 : [0x05] ++ List.replicate k 0xFF ++ [s] ++ tag ++ rest =
      ([0x05] ++ List.replicate k 0xFF ++ [s]) ++ (tag ++ rest) := by simp
  have e4 : [0x05] ++ List.replicate k 0xFF ++ [s] ++ tag ++ rest =
      ([0x05] ++ List.replicate k 0xFF ++ [s] ++ tag) ++ rest := by simp
  have hlen : ([0x05] ++ List.replicate k 0xFF ++ [s] ++ tag ++ rest).length =
      k + 18 + rest.length := by
    simp only [List.length_append, List.length_replicate, List.length_cons, List.length_nil,
      htag]
    omega
  have hl1 : ([0x05] : List Nat).length = 1 := rfl
  have hl3 : ([0x05] ++ List.replicate k 0xFF ++ [s]).length = 1 + k + 1 := by
    simp
    omega
  have hl4 : ([0x05] ++ List.replicate k 0xFF ++ [s] ++ tag).length = 1 + k + 1 + 16 := by
    simp [htag]
    omega
  have hloop : readSizeLoop ([0x05] ++ List.replicate k 0xFF ++ [s] ++ tag ++ rest) (0 + 1) 0 =
      (1 + k, 255 * k) := by
    have := readSizeLoop_run s (tag ++ rest) hs k [0x05] 0
    rw [hl1] at this
    rw [e1, this]
    simp
  have hget0 : ([0x05] ++ List.replicate k 0xFF ++ [s] ++ tag ++ rest).getD 0 0 = 5 := by
    simp
  have hmatch : uuidMatch ([0x05] ++ List.replicate k 0xFF ++ [s] ++ tag ++ rest)
      (1 + k + 1) = decide (tag = TIMESTAMP_UUID) := by
    rw [Bool.eq_iff_iff, uuidMatch_iff, decide_eq_true_iff, tag_eq_uuid_iff tag htag]
    constructor
    · intro h i hi
      have := h i hi
      rw [e2, ← hl3, getD_append_add, List.getD_append _ _ _ _ (by omega)] at this
      exact this
    · intro h i hi
      rw [e2, ← hl3, getD_append_add, List.getD_append _ _ _ _ (by omega)]
      exact h i hi
  have hdrop : (([0x05] ++ List.replicate k 0xFF ++ [s] ++ tag ++ rest).drop
      (1 + k + 1 + 16)) = rest := by
    rw [e4, ← hl4, List.drop_left]
  unfold extractTimestampBody
  simp only [hp]
  rw [if_neg (by omega), hlen, if_neg (by omega), hget0]
  simp only [SEI_TYPE_USER_DATA_UNREGISTERED, ne_eq, not_true_eq_false, if_false, hloop]
  have hpos : 1 + k < k + 18 + rest.length := by omega
  simp only [hpos, if_true]
  rw [if_neg (by omega), hmatch, hdrop]
  by_cases ht : tag = TIMESTAMP_UUID
  · simp [ht]
  · simp [ht]

/-- A unit of NAL type 6 is not empty. -/
theorem length_ne_zero_of_type6 (n : List Nat) (h6 : n.getD 0 0 &&& 0x1F = 6) :
    n.length ≠ 0 := by
  intro h
  have : n = [] := List.length_eq_zero.mp h
  subst this
  revert h6
  decide

/-- The twelve bytes built by `createSimpleTimestampSEI`. -/
theorem createSimpleTimestampSEI_eq (t : Nat) :
    createSimpleTimestampSEI t =
      [6, 1, 8,
       t / 2 ^ 56 % 256, t / 2 ^ 48 % 256, t / 2 ^ 40 % 256, t / 2 ^ 32 % 256,
       t / 2 ^ 24 % 256, t / 2 ^ 16 % 256, t / 2 ^ 8 % 256, t % 256,
       0x80] := by
  simp [createSimpleTimestampSEI, timestampToBytes_eq, NAL_UNIT_TYPE_SEI]

/-- The value of `extractSimpleTimestampFromSEI` on a well-formed byte vector, by cases on
its guards. -/
theorem extractSimple_cases (n : List Nat) (hn : IsBytes n) :
    extractSimpleTimestampFromSEI n =
      if 12 ≤ n.length ∧ n.getD 0 0 &&& 0x1F = 6 ∧ n.getD 1 0 = 1 ∧ n.getD 2 0 = 8 then
        n.getD 3 0 * 256 ^ 7 + n.getD 4 0 * 256 ^ 6 + n.getD 5 0 * 256 ^ 5 +
        n.getD 6 0 * 256 ^ 4 + n.getD 7 0 * 256 ^ 3 + n.getD 8 0 * 256 ^ 2 +
        n.getD 9 0 * 256 + n.getD 10 0
      else 0 := by
  unfold extractSimpleTimestampFromSEI
  by_cases hlen : n.length < 12
  · have : ¬ 12 ≤ n.length := by omega
    simp [hlen, this]
  · have hlen2 : 12 ≤ n.length := by omega
    simp only [hlen, if_false, NAL_UNIT_TYPE_SEI]
    by_cases h0 : n.getD 0 0 &&& 0x1F = 6
    · by_cases h12 : n.getD 1 0 = 1 ∧ n.getD 2 0 = 8
      · have hb : ∀ i, i < 8 → n.getD (3 + i) 0 < 256 := by
          intro i hi
          have hlt : 3 + i < n.length := by omega
          rw [List.getD_eq_getElem n 0 hlt]
          exact hn _ (List.getElem_mem hlt)
        have hfold := be_fold_eq (fun i => n.getD (3 + i) 0) hb
        simp only [] at hfold
        simp only [h0, h12, hlen2, ne_eq, not_true_eq_false, or_self, if_false, and_self,
          if_true]
        rw [hfold]
      · have h12b : n.getD 1 0 ≠ 1 ∨ n.getD 2 0 ≠ 8 := by
          by_contra hc
          push_neg at hc
          exact h12 hc
        have hcond : ¬ (12 ≤ n.length ∧ n.getD 0 0 &&& 0x1F = 6 ∧ n.getD 1 0 = 1 ∧
            n.getD 2 0 = 8) := fun hc => h12 ⟨hc.2.2.1, hc.2.2.2⟩
        rw [if_neg hcond]
        simp only [h0, ne_eq, not_true_eq_false, if_false]
        rw [if_pos h12b]
    · have hcond : ¬ (12 ≤ n.length ∧ n.getD 0 0 &&& 0x1F = 6 ∧ n.getD 1 0 = 1 ∧
          n.getD 2 0 = 8) := fun hc => h0 hc.2.1
      rw [if_neg hcond]
      simp only [ne_eq, h0, not_false_eq_true, if_true]

/-- The bytes of `createSimpleTimestampSEI` are well formed. -/
theorem createSimpleTimestampSEI_isBytes (t : Nat) : IsBytes (createSimpleTimestampSEI t) := by
  rw [createSimpleTimestampSEI_eq]
  intro b hb
  simp only [List.mem_cons, List.mem_singleton, List.not_mem_nil, or_false] at hb
  omega

/-- When one of its guards fails, `extractSimpleTimestampFromSEI` returns 0; the bytes need
not be well formed. -/
theorem extractSimple_absent (n : List Nat)
    (h : n.length < 12 ∨ n.getD 0 0 &&& 0x1F ≠ 6 ∨ n.getD 1 0 ≠ 1 ∨ n.getD 2 0 ≠ 8) :
    extractSimpleTimestampFromSEI n = 0 := by
  unfold extractSimpleTimestampFromSEI
  by_cases hlen : n.length < 12
  · simp [hlen]
  · by_cases h0 : n.getD 0 0 &&& 0x1F = 6
    · have h12 : n.getD 1 0 ≠ 1 ∨ n.getD 2 0 ≠ 8 := by
        rcases h with h | h | h | h
        · exact absurd h hlen
        · exact absurd h0 h
        · exact Or.inl h
        · exact Or.inr h
      simp only [hlen, if_false, NAL_UNIT_TYPE_SEI, h0, ne_eq, not_true_eq_false]
      rw [if_pos h12]
    · simp only [hlen, if_false, NAL_UNIT_TYPE_SEI, ne_eq, h0, not_false_eq_true, if_true]

/-- The simple parser inverts the simple builder on 64-bit timestamps. -/
theorem extractSimple_createSimple (t : Nat) (ht : t < 2 ^ 64) :
    extractSimpleTimestampFromSEI (createSimpleTimestampSEI t) = t := by
  rw [extractSimple_cases _ (createSimpleTimestampSEI_isBytes t), createSimpleTimestampSEI_eq]
  simp only [List.length_cons, List.length_nil, List.getD_cons_zero, List.getD_cons_succ]
  rw [if_pos (by decide)]
  omega

/-! ## Eight-byte vectors -/

/-- A vector of exactly eight elements, spelled out. -/
theorem eq_of_length_eight (b : List Nat) (hlen : b.length = 8) :
    ∃ b0 b1 b2 b3 b4 b5 b6 b7, b = [b0, b1, b2, b3, b4, b5, b6, b7] := by
  rcases b with _ | ⟨b0, _ | ⟨b1, _ | ⟨b2, _ | ⟨b3, _ | ⟨b4, _ | ⟨b5, _ | ⟨b6, _ | ⟨b7, _ | ⟨b8, t⟩⟩⟩⟩⟩⟩⟩⟩⟩
  all_goals first
    | exact ⟨_, _, _, _, _, _, _, _, rfl⟩
    | (simp at hlen)

/-- The value of `bytesToTimestamp` on eight bytes. -/
theorem bytesToTimestamp_eight (b0 b1 b2 b3 b4 b5 b6 b7 : Nat)
    (hb : IsBytes [b0, b1, b2, b3, b4, b5, b6, b7]) :
    bytesToTimestamp [b0, b1, b2, b3, b4, b5, b6, b7] =
      b0 * 256 ^ 7 + b1 * 256 ^ 6 + b2 * 256 ^ 5 + b3 * 256 ^ 4 +
      b4 * 256 ^ 3 + b5 * 256 ^ 2 + b6 * 256 + b7 := by
  have hf : ∀ i, i < 8 → [b0, b1, b2, b3, b4, b5, b6, b7].getD i 0 < 256 := by
    intro i hi
    have hlt : i < [b0, b1, b2, b3, b4, b5, b6, b7].length := by simpa using hi
    rw [List.getD_eq_getElem _ 0 hlt]
    exact hb _ (List.getElem_mem hlt)
  have h := be_fold_eq (fun i => [b0, b1, b2, b3, b4, b5, b6, b7].getD i 0) hf
  unfold bytesToTimestamp
  rw [if_neg (by simp)]
  simpa using h

/-! ## The Annex-B scan -/

theorem subSizeT_of_le (a b : Nat) (h : b ≤ a) : subSizeT a b = a - b := by
  unfold subSizeT
  rw [if_pos h]

/-- What `isStartCode` tests. -/
theorem isStartCode_iff (d : List Nat) (j : Nat) :
    isStartCode d j = true ↔
      j + 3 < d.length ∧ d.getD j 0 = 0 ∧ d.getD (j + 1) 0 = 0 ∧
        (d.getD (j + 2) 0 = 1 ∨ (d.getD (j + 2) 0 = 0 ∧ d.getD (j + 3) 0 = 1)) := by
  unfold isStartCode
  by_cases h1 : j + 3 ≥ d.length
  · rw [if_pos h1]
    constructor
    · intro h; exact absurd h (by simp)
    · intro h; omega
  · rw [if_neg h1]
    by_cases h2 : d.getD j 0 = 0 ∧ d.getD (j + 1) 0 = 0 ∧ d.getD (j + 2) 0 = 1
    · rw [if_pos h2]
      simp only [true_iff]
      exact ⟨by omega, h2.1, h2.2.1, Or.inl h2.2.2⟩
    · rw [if_neg h2]
      by_cases h3 : j + 4 ≤ d.length ∧ d.getD j 0 = 0 ∧ d.getD (j + 1) 0 = 0 ∧
          d.getD (j + 2) 0 = 0 ∧ d.getD (j + 3) 0 = 1
      · rw [if_pos h3]
        simp only [true_iff]
        exact ⟨by omega, h3.2.1, h3.2.2.1, Or.inr ⟨h3.2.2.2.1, h3.2.2.2.2⟩⟩
      · rw [if_neg h3]
        constructor
        · intro h; exact absurd h (by simp)
        · rintro ⟨hl, ha, hb, hc | hc⟩
          · exact absurd ⟨ha, hb, hc⟩ h2
          · exact absurd ⟨by omega, ha, hb, hc.1, hc.2⟩ h3

/-- The search loop returns the first start code among the `n` positions from `i` on, or the
size of the buffer when there is none. -/
theorem findNextStartCodeLoop_spec (d : List Nat) (n : Nat) :
    ∀ i : Nat,
      (findNextStartCodeLoop d n i = d.length ∧
        ∀ j, i ≤ j → j < i + n → isStartCode d j = false) ∨
      (isStartCode d (findNextStartCodeLoop d n i) = true ∧
        i ≤ findNextStartCodeLoop d n i ∧ findNextStartCodeLoop d n i < i + n ∧
        ∀ j, i ≤ j → j < findNextStartCodeLoop d n i → isStartCode d j = false) := by
  induction n with
  | zero =>
    intro i
    left
    exact ⟨rfl, fun j h1 h2 => by omega⟩
  | succ n ih =>
    intro i
    rw [findNextStartCodeLoop]
    by_cases h : isStartCode d i = true
    · rw [if_pos h]
      right
      exact ⟨h, le_refl i, by omega, fun j h1 h2 => by omega⟩
    · rw [if_neg h]
      have hf : isStartCode d i = false := by simpa using h
      rcases ih (i + 1) with ⟨hr, hall⟩ | ⟨hs, hge, hlt, hall⟩
      · left
        refine ⟨hr, ?_⟩
        intro j h1 h2
        by_cases hj : j = i
        · rw [hj]; exact hf
        · exact hall j (by omega) (by omega)
      · right
        refine ⟨hs, by omega, by omega, ?_⟩
        intro j h1 h2
        by_cases hj : j = i
        · rw [hj]; exact hf
        · exact hall j (by omega) h2

/-- The next start code lies between `start` and the end of the buffer. -/
theorem findNextStartCode_bounds (d : List Nat) (start : Nat) (hs : start ≤ d.length) :
    start ≤ findNextStartCode d start ∧ findNextStartCode d start ≤ d.length := by
  unfold findNextStartCode
  rcases findNextStartCodeLoop_spec d (subSizeT d.length 3 - start) start with
    ⟨hr, _⟩ | ⟨hsc, hge, _, _⟩
  · rw [hr]
    exact ⟨hs, le_refl _⟩
  · have := ((isStartCode_iff d _).mp hsc).1
    exact ⟨hge, by omega⟩

/-- The units pushed by the scan loop from the cursor `pos` on: where they lie, what
precedes them, their type and frame flag, and the gap between two of them. -/
theorem parseNALUnitsLoop_spec (d : List Nat) (h4 : 4 ≤ d.length) (fuel : Nat) :
    ∀ (pos : Nat) (acc r : List NALUnit),
      parseNALUnitsLoop d fuel pos acc = some r →
      ∃ new, r = acc ++ new ∧
        (∀ u ∈ new, pos + 3 ≤ u.offset ∧ 1 ≤ u.size ∧ u.offset + u.size ≤ d.length ∧
          d.getD (u.offset - 3) 0 = 0 ∧ d.getD (u.offset - 2) 0 = 0 ∧
          d.getD (u.offset - 1) 0 = 1 ∧
          u.type = d.getD u.offset 0 &&& 0x1F ∧
          u.is_frame = decide (u.type = 5 ∨ u.type = 1)) ∧
        new.Pairwise (fun a b => a.offset + a.size + 3 ≤ b.offset) := by
  induction fuel with
  | zero =>
    intro pos acc r h
    simp [parseNALUnitsLoop] at h
  | succ fuel ih =>
    intro pos acc r h
    rw [parseNALUnitsLoop] at h
    have hsub : subSizeT d.length 4 = d.length - 4 := subSizeT_of_le _ _ h4
    rw [hsub] at h
    by_cases hg : pos < d.length - 4
    · rw [if_pos hg] at h
      by_cases hsc : isStartCode d pos = true
      · rw [if_pos hsc] at h
        obtain ⟨_, ha, hb, hc⟩ := (isStartCode_iff d pos).mp hsc
        -- the cursor after the start code, and the three bytes before it
        obtain ⟨p1, hp1, hlo, hhi, hb3, hb2, hb1⟩ :
            ∃ p1, (if d.getD (pos + 2) 0 = 0x01 then pos + 3 else pos + 4) = p1 ∧
              pos + 3 ≤ p1 ∧ p1 ≤ pos + 4 ∧ d.getD (p1 - 3) 0 = 0 ∧
              d.getD (p1 - 2) 0 = 0 ∧ d.getD (p1 - 1) 0 = 1 := by
          by_cases h1 : d.getD (pos + 2) 0 = 1
          · refine ⟨pos + 3, by rw [if_pos h1], by omega, by omega, ?_, ?_, ?_⟩
            · simpa using ha
            · have e : pos + 3 - 2 = pos + 1 := by omega
              rw [e]; exact hb
            · have e : pos + 3 - 1 = pos + 2 := by omega
              rw [e]; exact h1
          · rcases hc with hc | hc
            · exact absurd hc h1
            · refine ⟨pos + 4, by rw [if_neg h1], by omega, by omega, ?_, ?_, ?_⟩
              · have e : pos + 4 - 3 = pos + 1 := by omega
                rw [e]; exact hb
              · have e : pos + 4 - 2 = pos + 2 := by omega
                rw [e]; exact hc.1
              · have e : pos + 4 - 1 = pos + 3 := by omega
                rw [e]; exact hc.2
        simp only [hp1] at h
        have hp1lt : p1 < d.length := by omega
        obtain ⟨hn1, hn2⟩ := findNextStartCode_bounds d p1 (by omega)
        rw [subSizeT_of_le _ _ hn1] at h
        by_cases hem : findNextStartCode d p1 - p1 > 0 ∧ p1 < d.length
        · rw [if_pos hem] at h
          obtain ⟨new, hr, hall, hpw⟩ := ih _ _ _ h
          refine ⟨{ offset := p1, size := findNextStartCode d p1 - p1,
                    type := d.getD p1 0 &&& 0x1F,
                    is_frame := decide (d.getD p1 0 &&& 0x1F = NAL_UNIT_TYPE_IDR ∨
                      d.getD p1 0 &&& 0x1F = NAL_UNIT_TYPE_NON_IDR) } :: new,
            by rw [hr, List.append_assoc]; rfl, ?_, ?_⟩
          · intro u hu
            rcases List.mem_cons.mp hu with rfl | hu
            · refine ⟨hlo, by simp only; omega, by simp only; omega, hb3, hb2, hb1, rfl, ?_⟩
              simp [NAL_UNIT_TYPE_IDR, NAL_UNIT_TYPE_NON_IDR]
            · obtain ⟨h1, h2⟩ := hall u hu
              exact ⟨by omega, h2⟩
          · rw [List.pairwise_cons]
            refine ⟨?_, hpw⟩
            intro b hb
            have := (hall b hb).1
            simp only
            omega
        · rw [if_neg hem] at h
          obtain ⟨new, hr, hall, hpw⟩ := ih _ _ _ h
          refine ⟨new, hr, ?_, hpw⟩
          intro u hu
          obtain ⟨h1, h2⟩ := hall u hu
          exact ⟨by omega, h2⟩
      · rw [if_neg hsc] at h
        obtain ⟨new, hr, hall, hpw⟩ := ih _ _ _ h
        refine ⟨new, hr, ?_, hpw⟩
        intro u hu
        obtain ⟨h1, h2⟩ := hall u hu
        exact ⟨by omega, h2⟩
    · rw [if_neg hg] at h
      refine ⟨[], ?_, by simp, List.Pairwise.nil⟩
      simp only [Option.some.injEq] at h
      rw [← h]
      simp

/-- On a buffer of at least 4 bytes the scan loop ends within `fuel` iterations as soon as
`fuel` exceeds the number of bytes left. -/
theorem parseNALUnitsLoop_returns (d : List Nat) (h4 : 4 ≤ d.length) (fuel : Nat) :
    ∀ (pos : Nat) (acc : List NALUnit), pos ≤ d.length → d.length < fuel + pos →
      ∃ r, parseNALUnitsLoop d fuel pos acc = some r := by
  induction fuel with
  | zero => intro pos acc h1 h2; omega
  | succ fuel ih =>
    intro pos acc h1 h2
    rw [parseNALUnitsLoop, subSizeT_of_le _ _ h4]
    by_cases hg : pos < d.length - 4
    · rw [if_pos hg]
      by_cases hsc : isStartCode d pos = true
      · rw [if_pos hsc]
        simp only
        have hp : (if d.getD (pos + 2) 0 = 0x01 then pos + 3 else pos + 4) ≤ d.length ∧
            pos + 3 ≤ (if d.getD (pos + 2) 0 = 0x01 then pos + 3 else pos + 4) := by
          split <;> omega
        obtain ⟨hn1, hn2⟩ := findNextStartCode_bounds d _ hp.1
        exact ih _ _ hn2 (by omega)
      · rw [if_neg hsc]
        exact ih _ _ (by omega) (by omega)
    · rw [if_neg hg]
      exact ⟨acc, rfl⟩

/-- On a buffer shorter than 4 bytes no position is a start code, so the loop pushes
nothing. -/
theorem parseNALUnitsLoop_short (d : List Nat) (h4 : d.length < 4) (fuel : Nat) :
    ∀ (pos : Nat) (acc r : List NALUnit),
      parseNALUnitsLoop d fuel pos acc = some r → r = acc := by
  induction fuel with
  | zero =>
    intro pos acc r h
    simp [parseNALUnitsLoop] at h
  | succ fuel ih =>
    intro pos acc r h
    rw [parseNALUnitsLoop] at h
    have hsc : ¬ isStartCode d pos = true := by
      intro hs
      have := ((isStartCode_iff d pos).mp hs).1
      omega
    by_cases hg : pos < subSizeT d.length 4
    · rw [if_pos hg, if_neg hsc] at h
      exact ih _ _ _ h
    · rw [if_neg hg] at h
      simp only [Option.some.injEq] at h
      exact h.symm

/-- Two members of a list ordered by `R` are equal or related one way or the other. -/
theorem pairwise_trichotomy {α : Type} (R : α → α → Prop) (l : List α)
    (h : l.Pairwise R) : ∀ a ∈ l, ∀ b ∈ l, a = b ∨ R a b ∨ R b a := by
  induction l with
  | nil => intro a ha; simp at ha
  | cons x xs ih =>
    rw [List.pairwise_cons] at h
    intro a ha b hb
    rcases List.mem_cons.mp ha with ha1 | ha1
    · rcases List.mem_cons.mp hb with hb1 | hb1
      · exact Or.inl (ha1.trans hb1.symm)
      · rw [ha1]
        exact Or.inr (Or.inl (h.1 b hb1))
    · rcases List.mem_cons.mp hb with hb1 | hb1
      · rw [hb1]
        exact Or.inr (Or.inr (h.1 a ha1))
      · exact ih h.2 a ha1 b hb1

/-! ## The scan of a synthetic Annex-B buffer -/

/-- Three consecutive bytes of a vector form a window of it. -/
theorem window_of_getD (a b c : Nat) (p : List Nat) :
    ∀ k, k + 2 < p.length → p.getD k 0 = a → p.getD (k + 1) 0 = b →
      p.getD (k + 2) 0 = c → [a, b, c] <:+: p := by
  induction p with
  | nil => intro k hk; simp at hk
  | cons x xs ih =>
    intro k hk ha hb hc
    cases k with
    | zero =>
      rcases xs with _ | ⟨y, _ | ⟨z, t⟩⟩
      · simp at hk
      · simp at hk
      · simp at ha hb hc
        subst ha hb hc
        exact ⟨[], t, rfl⟩
    | succ k =>
      have hk2 : k + 2 < xs.length := by
        simp only [List.length_cons] at hk
        omega
      have e1 : k + 1 + 1 = (k + 1) + 1 := rfl
      have e2 : k + 1 + 2 = (k + 2) + 1 := by omega
      rw [List.getD_cons_succ] at ha
      rw [e1, List.getD_cons_succ] at hb
      rw [e2, List.getD_cons_succ] at hc
      exact List.infix_cons (ih k hk2 ha hb hc)

/-- A non-empty vector whose byte at the last index is 0 ends in 0. -/
theorem getLast_of_getD (p : List Nat) (hp : p ≠ []) (h : p.getD (p.length - 1) 0 = 0) :
    p.getLast? = some 0 := by
  have hlen : p.length - 1 < p.length := by
    have := List.length_pos.mpr hp
    omega
  rw [List.getLast?_eq_getElem?, List.getElem?_eq_getElem hlen]
  rw [List.getD_eq_getElem p 0 hlen] at h
  rw [h]

theorem startCode_length (c : Bool) : 3 ≤ (startCode c).length ∧ (startCode c).length ≤ 4 := by
  cases c <;> simp [startCode]

/-- The first two bytes of a synthetic buffer are 00 (also read past the end of an empty
one, where the default is 0). -/
theorem annexB_head (us : List (Bool × List Nat)) :
    (annexB us).getD 0 0 = 0 ∧ (annexB us).getD 1 0 = 0 := by
  cases us with
  | nil => simp [annexB]
  | cons u rest =>
    rcases u with ⟨c, p⟩
    cases c <;> simp [annexB, startCode]

/-- A start code followed by at least one byte is recognized at its first byte. -/
theorem isStartCode_at_unit (pre : List Nat) (c : Bool) (p R : List Nat) (hp : p ≠ []) :
    isStartCode (pre ++ (startCode c ++ (p ++ R))) pre.length = true := by
  have hpl := List.length_pos.mpr hp
  rw [isStartCode_iff]
  have g : ∀ m, (pre ++ (startCode c ++ (p ++ R))).getD (pre.length + m) 0 =
      (startCode c ++ (p ++ R)).getD m 0 := fun m => getD_append_add pre _ m
  have g0 := g 0
  rw [Nat.add_zero] at g0
  rw [g0, g 1, g 2, g 3]
  cases c
  · have hl : (pre ++ (startCode false ++ (p ++ R))).length =
        pre.length + 3 + p.length + R.length := by
      simp [startCode]
      omega
    refine ⟨by omega, by simp [startCode], by simp [startCode], Or.inl (by simp [startCode])⟩
  · have hl : (pre ++ (startCode true ++ (p ++ R))).length =
        pre.length + 4 + p.length + R.length := by
      simp [startCode]
      omega
    refine ⟨by omega, by simp [startCode], by simp [startCode],
      Or.inr ⟨by simp [startCode], by simp [startCode]⟩⟩

/-- The byte two places after the first byte of a start code tells its length. -/
theorem skip_startCode (pre : List Nat) (c : Bool) (X : List Nat) :
    (if (pre ++ (startCode c ++ X)).getD (pre.length + 2) 0 = 0x01 then pre.length + 3
      else pre.length + 4) = pre.length + (startCode c).length := by
  rw [getD_append_add]
  cases c <;> simp [startCode]

/-- No position inside a payload is a start code, when the payload has no window `00 00 01`,
does not end in 00, and is followed by two 00 bytes or by nothing. -/
theorem no_startCode_in_payload (A p R : List Nat) (hp1 : ¬ [0, 0, 1] <:+: p)
    (hp2 : p.getLast? ≠ some 0) (hR : R.getD 0 0 = 0 ∧ R.getD 1 0 = 0) :
    ∀ j, A.length ≤ j → j < A.length + p.length →
      isStartCode (A ++ (p ++ R)) j = false := by
  intro j hj1 hj2
  by_contra hcon
  have hs : isStartCode (A ++ (p ++ R)) j = true := by simpa using hcon
  obtain ⟨_, ha, hb, hc⟩ := (isStartCode_iff _ _).mp hs
  obtain ⟨k, rfl⟩ : ∃ k, j = A.length + k := ⟨j - A.length, by omega⟩
  have hk : k < p.length := by omega
  have hpne : p ≠ [] := by
    intro h
    rw [h] at hk
    simp at hk
  have e1 : A.length + k + 1 = A.length + (k + 1) := by omega
  have e2 : A.length + k + 2 = A.length + (k + 2) := by omega
  have e3 : A.length + k + 3 = A.length + (k + 3) := by omega
  rw [getD_append_add] at ha
  rw [e1, getD_append_add] at hb
  rw [e2, e3, getD_append_add, getD_append_add] at hc
  have inP : ∀ m, m < p.length → (p ++ R).getD m 0 = p.getD m 0 :=
    fun m hm => List.getD_append p R 0 m hm
  have inR : ∀ m, p.length ≤ m → (p ++ R).getD m 0 = R.getD (m - p.length) 0 :=
    fun m hm => List.getD_append_right p R 0 m hm
  have hR01 : ∀ m, m ≤ 1 → R.getD m 0 = 0 := by
    intro m hm
    interval_cases m
    · exact hR.1
    · exact hR.2
  rw [inP k hk] at ha
  rcases hc with hc | ⟨hc0, hc1⟩
  · by_cases h2 : k + 2 < p.length
    · rw [inP _ (by omega)] at hb
      rw [inP _ h2] at hc
      exact hp1 (window_of_getD 0 0 1 p k h2 ha hb hc)
    · rw [inR _ (by omega), hR01 _ (by omega)] at hc
      omega
  · by_cases h3 : k + 3 < p.length
    · rw [inP _ (by omega)] at hb
      rw [inP _ (by omega)] at hc0
      rw [inP _ h3] at hc1
      exact hp1 (window_of_getD 0 0 1 p (k + 1) (by omega) hb hc0 hc1)
    · by_cases h4 : k + 3 - p.length ≤ 1
      · rw [inR _ (by omega), hR01 _ h4] at hc1
        omega
      · have hk1 : k = p.length - 1 := by omega
        rw [hk1] at ha
        exact hp2 (getLast_of_getD p hpne ha)

/-- The search from the first byte of such a payload ends at the first byte after it. -/
theorem findNextStartCode_payload (A p R : List Nat) (hp0 : p ≠ [])
    (hp1 : ¬ [0, 0, 1] <:+: p) (hp2 : p.getLast? ≠ some 0)
    (hR : R.getD 0 0 = 0 ∧ R.getD 1 0 = 0)
    (hnext : R = [] ∨
      (4 ≤ R.length ∧ isStartCode (A ++ (p ++ R)) (A.length + p.length) = true)) :
    findNextStartCode (A ++ (p ++ R)) A.length = A.length + p.length := by
  have hK := no_startCode_in_payload A p R hp1 hp2 hR
  have hpl := List.length_pos.mpr hp0
  have hlen : (A ++ (p ++ R)).length = A.length + p.length + R.length := by
    simp only [List.length_append]
    omega
  unfold findNextStartCode
  rcases findNextStartCodeLoop_spec (A ++ (p ++ R))
      (subSizeT (A ++ (p ++ R)).length 3 - A.length) A.length with
    ⟨hr, hall⟩ | ⟨hsc, hge, hlt, hall⟩
  · rcases hnext with hnil | ⟨hR4, hse⟩
    · rw [hr, hlen, hnil]
      simp
    · have := hall (A.length + p.length) (by omega) (by
        rw [subSizeT_of_le _ _ (by omega), hlen]
        omega)
      rw [this] at hse
      exact absurd hse (by simp)
  · by_cases hlt2 : findNextStartCodeLoop (A ++ (p ++ R))
        (subSizeT (A ++ (p ++ R)).length 3 - A.length) A.length < A.length + p.length
    · rw [hK _ hge hlt2] at hsc
      exact absurd hsc (by simp)
    · rcases hnext with hnil | ⟨hR4, hse⟩
      · have h3 := ((isStartCode_iff _ _).mp hsc).1
        have hR0 : R.length = 0 := by rw [hnil]; rfl
        omega
      · by_cases heq : findNextStartCodeLoop (A ++ (p ++ R))
            (subSizeT (A ++ (p ++ R)).length 3 - A.length) A.length = A.length + p.length
        · exact heq
        · have := hall (A.length + p.length) (by omega) (by omega)
          rw [this] at hse
          exact absurd hse (by simp)

/-- A synthetic buffer with a first unit of non-empty payload has at least 4 bytes. -/
theorem annexB_cons_length (c : Bool) (p : List Nat) (rest : List (Bool × List Nat))
    (hp : p ≠ []) : 4 ≤ (annexB ((c, p) :: rest)).length := by
  have hpl := List.length_pos.mpr hp
  have hs := (startCode_length c).1
  simp only [annexB, List.length_append]
  omega

/-- The scan loop on a synthetic buffer, from the first byte of a unit on: it pushes one
unit per unit of the buffer, with the expected offset, size and type. -/
theorem parseNALUnitsLoop_annexB (us : List (Bool × List Nat)) :
    ∀ (pre : List Nat) (fuel : Nat) (acc : List NALUnit),
      4 ≤ (pre ++ annexB us).length →
      (∀ u ∈ us, u.2 ≠ [] ∧ ¬ [0, 0, 1] <:+: u.2 ∧ u.2.getLast? ≠ some 0) →
      (∀ u, us.getLast? = some u → 2 ≤ u.2.length) →
      (annexB us).length < fuel →
      ∃ r, parseNALUnitsLoop (pre ++ annexB us) fuel pre.length acc = some (acc ++ r) ∧
        r.map (fun u => (u.offset, u.size, u.type)) = expectedTriples pre.length us := by
  induction us with
  | nil =>
    intro pre fuel acc h4 _ _ hf
    obtain ⟨f, rfl⟩ : ∃ f, fuel = f + 1 := ⟨fuel - 1, by omega⟩
    refine ⟨[], ?_, by simp [expectedTriples]⟩
    rw [parseNALUnitsLoop, subSizeT_of_le _ _ h4, if_neg]
    · simp
    · simp only [annexB, List.append_nil]
      omega
  | cons u rest ih =>
    intro pre fuel acc h4 hall hlast hf
    rcases u with ⟨c, p⟩
    obtain ⟨hp0, hp1, hp2⟩ := hall (c, p) (List.mem_cons_self _ _)
    have hpl := List.length_pos.mpr hp0
    have hs := startCode_length c
    obtain ⟨f, rfl⟩ : ∃ f, fuel = f + 1 := ⟨fuel - 1, by omega⟩
    simp only [annexB] at h4 hf ⊢
    have hlen : (pre ++ (startCode c ++ (p ++ annexB rest))).length =
        pre.length + (startCode c).length + p.length + (annexB rest).length := by
      simp only [List.length_append]
      omega
    -- what follows the payload
    have hrest : (rest = [] ∧ 2 ≤ p.length) ∨ 4 ≤ (annexB rest).length := by
      cases rest with
      | nil => exact Or.inl ⟨rfl, hlast (c, p) (by simp)⟩
      | cons u2 rest2 =>
        rcases u2 with ⟨c2, p2⟩
        exact Or.inr (annexB_cons_length c2 p2 rest2
          (hall (c2, p2) (List.mem_cons_of_mem _ (List.mem_cons_self _ _))).1)
    have hguard : pre.length < (pre ++ (startCode c ++ (p ++ annexB rest))).length - 4 := by
      rw [hlen]
      rcases hrest with ⟨_, h2⟩ | h4r
      · omega
      · omega
    have hsc := isStartCode_at_unit pre c p (annexB rest) hp0
    have hskip := skip_startCode pre c (p ++ annexB rest)
    have hA : pre ++ (startCode c ++ (p ++ annexB rest)) =
        (pre ++ startCode c) ++ (p ++ annexB rest) := by
      rw [List.append_assoc]
    have hAl : (pre ++ startCode c).length = pre.length + (startCode c).length := by
      simp
    have hnext : annexB rest = [] ∨ (4 ≤ (annexB rest).length ∧
        isStartCode ((pre ++ startCode c) ++ (p ++ annexB rest))
          ((pre ++ startCode c).length + p.length) = true) := by
      cases rest with
      | nil => exact Or.inl rfl
      | cons u2 rest2 =>
        rcases u2 with ⟨c2, p2⟩
        have hp20 := (hall (c2, p2) (List.mem_cons_of_mem _ (List.mem_cons_self _ _))).1
        refine Or.inr ⟨annexB_cons_length c2 p2 rest2 hp20, ?_⟩
        have e : (pre ++ startCode c) ++ (p ++ annexB ((c2, p2) :: rest2)) =
            ((pre ++ startCode c) ++ p) ++ (startCode c2 ++ (p2 ++ annexB rest2)) := by
          simp only [annexB, List.append_assoc]
        have el : (pre ++ startCode c).length + p.length =
            ((pre ++ startCode c) ++ p).length := (List.length_append _ _).symm
        rw [e, el]
        exact isStartCode_at_unit _ c2 p2 (annexB rest2) hp20
    have hfind := findNextStartCode_payload (pre ++ startCode c) p (annexB rest) hp0 hp1 hp2
      (annexB_head rest) hnext
    rw [← hA, hAl] at hfind
    have hbyte : (pre ++ (startCode c ++ (p ++ annexB rest))).getD
        (pre.length + (startCode c).length) 0 = p.getD 0 0 := by
      rw [hA, ← hAl]
      have := getD_append_add (pre ++ startCode c) (p ++ annexB rest) 0
      rw [Nat.add_zero] at this
      rw [this, List.getD_append p _ 0 0 hpl]
    -- the units after this one
    have hpre2 : pre ++ (startCode c ++ (p ++ annexB rest)) =
        (pre ++ (startCode c ++ p)) ++ annexB rest := by
      simp only [List.append_assoc]
    have hpre2l : (pre ++ (startCode c ++ p)).length =
        pre.length + (startCode c).length + p.length := by
      simp only [List.length_append]
      omega
    have hlast2 : ∀ u, rest.getLast? = some u → 2 ≤ u.2.length := by
      intro u hu
      cases rest with
      | nil => simp at hu
      | cons u2 rest2 =>
        apply hlast u
        rw [List.getLast?_cons_cons]
        exact hu
    obtain ⟨r, hr, hmap⟩ := ih (pre ++ (startCode c ++ p)) f
      (acc ++ [{ offset := pre.length + (startCode c).length, size := p.length,
                 type := p.getD 0 0 &&& 0x1F,
                 is_frame := decide (p.getD 0 0 &&& 0x1F = NAL_UNIT_TYPE_IDR ∨
                   p.getD 0 0 &&& 0x1F = NAL_UNIT_TYPE_NON_IDR) }])
      (by rw [← hpre2]; exact h4)
      (fun u hu => hall u (List.mem_cons_of_mem _ hu)) hlast2
      (by simp only [List.length_append] at hf; omega)
    rw [← hpre2, hpre2l] at hr
    refine ⟨{ offset := pre.length + (startCode c).length, size := p.length,
              type := p.getD 0 0 &&& 0x1F,
              is_frame := decide (p.getD 0 0 &&& 0x1F = NAL_UNIT_TYPE_IDR ∨
                p.getD 0 0 &&& 0x1F = NAL_UNIT_TYPE_NON_IDR) } :: r, ?_, ?_⟩
    · rw [parseNALUnitsLoop, subSizeT_of_le _ _ h4, if_pos hguard, if_pos hsc]
      simp only [hskip, hfind, hbyte]
      rw [subSizeT_of_le _ _ (by omega)]
      have hsz : pre.length + (startCode c).length + p.length -
          (pre.length + (startCode c).length) = p.length := by omega
      rw [hsz, if_pos ⟨hpl, by rw [hlen]; omega⟩, hr, List.append_assoc]
      rfl
    · simp only [List.map_cons, expectedTriples, hmap, hpre2l]

/-! ## The per-frame injection -/

/-- The per-frame loop writes what the expected output says, and its final `timestamp_index`
is the smaller of the number of frame units and the number of timestamps. -/
theorem processPerFrame_eq (d : List Nat) (ts : List Nat) (units : List NALUnit) :
    processPerFrame d units ts =
      (perFrameSpec d units ts, min (units.countP (fun u => u.is_frame)) ts.length) := by
  induction units using List.reverseRecOn with
  | nil => simp [processPerFrame, perFrameSpec]
  | append_singleton l u ih =>
    have hfold : processPerFrame d (l ++ [u]) ts =
        processPerFrameStep d ts (processPerFrame d l ts) u := by
      simp [processPerFrame]
    have hfb : framesBefore (l ++ [u]) l.length = l.countP (fun u => u.is_frame) := by
      simp [framesBefore]
    have hget : (l ++ [u]).getD l.length { offset := 0, size := 0, type := 0, is_frame := false }
        = u := by
      simp
    have hspec : perFrameSpec d (l ++ [u]) ts =
        perFrameSpec d l ts ++
          ((if u.is_frame = true ∧ l.countP (fun u => u.is_frame) < ts.length then
              [0x00, 0x00, 0x00, 0x01] ++
                createSimpleTimestampSEI (ts.getD (l.countP (fun u => u.is_frame)) 0)
            else []) ++ unitBytes d u) := by
      unfold perFrameSpec
      rw [List.length_append, List.length_singleton, List.range_succ, List.flatMap_append,
        List.flatMap_singleton]
      simp only [hfb, hget]
      congr 1
      apply List.flatMap_congr
      intro i hi
      have hi2 : i < l.length := List.mem_range.mp hi
      have e1 : (l ++ [u]).getD i { offset := 0, size := 0, type := 0, is_frame := false } =
          l.getD i { offset := 0, size := 0, type := 0, is_frame := false } :=
        List.getD_append l [u] _ i hi2
      have e2 : framesBefore (l ++ [u]) i = framesBefore l i := by
        unfold framesBefore
        rw [List.take_append_of_le_length (by omega)]
      simp only [e1, e2]
    rw [hfold, ih, hspec]
    unfold processPerFrameStep
    simp only [List.countP_append, List.countP_cons, List.countP_nil]
    by_cases hfr : u.is_frame = true
    · by_cases hlt : l.countP (fun u => u.is_frame) < ts.length
      · have hmin : min (l.countP (fun u => u.is_frame)) ts.length =
            l.countP (fun u => u.is_frame) := by omega
        have hc : u.is_frame = true ∧ min (l.countP (fun u => u.is_frame)) ts.length <
            ts.length := ⟨hfr, by omega⟩
        rw [if_pos hc, if_pos ⟨hfr, hlt⟩, hmin]
        simp only [hfr, if_true, Nat.zero_add]
        refine Prod.ext ?_ ?_
        · simp [writeStartCode, unitBytes]
        · simp only
          omega
      · have hc : ¬ (u.is_frame = true ∧ min (l.countP (fun u => u.is_frame)) ts.length <
            ts.length) := fun h => by omega
        rw [if_neg hc, if_neg (fun h => hlt h.2)]
        simp only [hfr, if_true, Nat.zero_add]
        refine Prod.ext ?_ ?_
        · simp [writeStartCode, unitBytes]
        · simp only
          omega
    · have hc : ¬ (u.is_frame = true ∧ min (l.countP (fun u => u.is_frame)) ts.length <
          ts.length) := fun h => hfr h.1
      rw [if_neg hc, if_neg (fun h => hfr h.1)]
      simp only [hfr, Bool.false_eq_true, if_false, Nat.add_zero]
      refine Prod.ext ?_ ?_
      · simp [writeStartCode, unitBytes]
      · rfl

/-! ## Length-prefixed buffers -/

/-- The length expression on four bytes is their big-endian value. -/
theorem readLength_eq (data : List Nat) (pos : Nat)
    (h0 : data.getD pos 0 < 256) (h1 : data.getD (pos + 1) 0 < 256)
    (h2 : data.getD (pos + 2) 0 < 256) (h3 : data.getD (pos + 3) 0 < 256) :
    readLength data pos =
      data.getD pos 0 * 2 ^ 24 + data.getD (pos + 1) 0 * 2 ^ 16 +
        data.getD (pos + 2) 0 * 2 ^ 8 + data.getD (pos + 3) 0 := by
  unfold readLength
  generalize data.getD pos 0 = a at *
  generalize data.getD (pos + 1) 0 = b at *
  generalize data.getD (pos + 2) 0 = c at *
  generalize data.getD (pos + 3) 0 = e at *
  have e1 : 2 ^ 8 * c ||| e = 2 ^ 8 * c + e := (Nat.mul_add_lt_is_or (by omega) c).symm
  have e2 : 2 ^ 16 * b ||| (2 ^ 8 * c + e) = 2 ^ 16 * b + (2 ^ 8 * c + e) :=
    (Nat.mul_add_lt_is_or (by omega) b).symm
  have e3 : 2 ^ 24 * a ||| (2 ^ 16 * b + (2 ^ 8 * c + e)) =
      2 ^ 24 * a + (2 ^ 16 * b + (2 ^ 8 * c + e)) :=
    (Nat.mul_add_lt_is_or (by omega) a).symm
  have s1 : a <<< 24 = 2 ^ 24 * a := by rw [Nat.shiftLeft_eq, Nat.mul_comm]
  have s2 : b <<< 16 = 2 ^ 16 * b := by rw [Nat.shiftLeft_eq, Nat.mul_comm]
  have s3 : c <<< 8 = 2 ^ 8 * c := by rw [Nat.shiftLeft_eq, Nat.mul_comm]
  rw [s1, s2, s3, Nat.lor_assoc, Nat.lor_assoc, e1, e2, e3]
  omega

theorem be32_length (n : Nat) : (be32 n).length = 4 := rfl

/-- The length field of a unit is read back. -/
theorem readLength_be32 (pre X : List Nat) (n : Nat) (hn : n < 2 ^ 32) :
    readLength (pre ++ (be32 n ++ X)) pre.length = n := by
  have g : ∀ m, (pre ++ (be32 n ++ X)).getD (pre.length + m) 0 = (be32 n ++ X).getD m 0 :=
    fun m => getD_append_add pre _ m
  have g0 := g 0
  rw [Nat.add_zero] at g0
  have v0 : (pre ++ (be32 n ++ X)).getD pre.length 0 = n / 2 ^ 24 % 256 := by
    rw [g0]; simp [be32]
  have v1 : (pre ++ (be32 n ++ X)).getD (pre.length + 1) 0 = n / 2 ^ 16 % 256 := by
    rw [g 1]; simp [be32]
  have v2 : (pre ++ (be32 n ++ X)).getD (pre.length + 2) 0 = n / 2 ^ 8 % 256 := by
    rw [g 2]; simp [be32]
  have v3 : (pre ++ (be32 n ++ X)).getD (pre.length + 3) 0 = n % 256 := by
    rw [g 3]; simp [be32]
  rw [readLength_eq _ _ (by rw [v0]; omega) (by rw [v1]; omega) (by rw [v2]; omega)
    (by rw [v3]; omega), v0, v1, v2, v3]
  omega

/-- The facts about one unit `be32 |p| ++ p` at byte index `pre.length` that both loops
use. -/
theorem unit_facts (pre p R : List Nat) (hp1 : 1 ≤ p.length) (hp2 : p.length < 2 ^ 32) :
    (pre ++ (be32 p.length ++ (p ++ R))).length = pre.length + 4 + p.length + R.length ∧
    readLength (pre ++ (be32 p.length ++ (p ++ R))) pre.length = p.length ∧
    (pre ++ (be32 p.length ++ (p ++ R))).getD (pre.length + 4) 0 &&& 0x1F = nalType p ∧
    ((pre ++ (be32 p.length ++ (p ++ R))).drop pre.length).take 4 = be32 p.length ∧
    ((pre ++ (be32 p.length ++ (p ++ R))).drop (pre.length + 4)).take p.length = p := by
  refine ⟨?_, readLength_be32 pre (p ++ R) p.length hp2, ?_, ?_, ?_⟩
  · simp only [List.length_append, be32_length]
    omega
  · have e : pre ++ (be32 p.length ++ (p ++ R)) = (pre ++ be32 p.length) ++ (p ++ R) := by
      rw [List.append_assoc]
    have el : pre.length + 4 = (pre ++ be32 p.length).length := by
      rw [List.length_append, be32_length]
    have := getD_append_add (pre ++ be32 p.length) (p ++ R) 0
    rw [Nat.add_zero] at this
    rw [e, el, this, List.getD_append p R 0 0 (by omega)]
    rfl
  · rw [List.drop_left, List.take_left' (be32_length _)]
  · have e : pre ++ (be32 p.length ++ (p ++ R)) = (pre ++ be32 p.length) ++ (p ++ R) := by
      rw [List.append_assoc]
    have el : (pre ++ be32 p.length).length = pre.length + 4 := by
      rw [List.length_append, be32_length]
    rw [e, List.drop_left' el, List.take_left]

/-- The scan of check_sei.cpp over complete units that are not of type 6: one iteration per
unit, one report line per unit, and the frame counter advanced by the number of frame
units. -/
theorem scanLoop_units (depth : Nat) (tail : List Nat) (ps : List (List Nat)) :
    ∀ (pre : List Nat) (fuel : Nat) (report : CheckSei.ScanReport),
      (∀ p ∈ ps, 1 ≤ p.length ∧ p.length < 2 ^ 32 ∧ nalType p ≠ 6) →
      CheckSei.scanLoop (pre ++ (lengthPrefixed ps ++ tail)) depth (ps.length + fuel)
          pre.length report =
        CheckSei.scanLoop (pre ++ (lengthPrefixed ps ++ tail)) depth fuel
          (pre.length + (lengthPrefixed ps).length)
          { units := report.units ++ CheckSei.expectedLines pre.length ps,
            sei_count := report.sei_count,
            frame_count := report.frame_count + CheckSei.frameUnits ps,
            invalid_at := report.invalid_at } := by
  induction ps with
  | nil =>
    intro pre fuel report _
    simp [lengthPrefixed, CheckSei.expectedLines, CheckSei.frameUnits]
  | cons p rest ih =>
    intro pre fuel report hall
    obtain ⟨hp1, hp2, hp6⟩ := hall p (List.mem_cons_self _ _)
    have hdata : pre ++ (lengthPrefixed (p :: rest) ++ tail) =
        pre ++ (be32 p.length ++ (p ++ (lengthPrefixed rest ++ tail))) := by
      simp only [lengthPrefixed, List.append_assoc]
    obtain ⟨hlen, hread, htype, _, _⟩ :=
      unit_facts pre p (lengthPrefixed rest ++ tail) hp1 hp2
    have hpre2 : pre ++ (be32 p.length ++ (p ++ (lengthPrefixed rest ++ tail))) =
        (pre ++ (be32 p.length ++ p)) ++ (lengthPrefixed rest ++ tail) := by
      simp only [List.append_assoc]
    have hpre2l : (pre ++ (be32 p.length ++ p)).length = pre.length + 4 + p.length := by
      simp only [List.length_append, be32_length]
      omega
    have hlp : (lengthPrefixed (p :: rest)).length =
        4 + p.length + (lengthPrefixed rest).length := by
      simp only [lengthPrefixed, List.length_append, be32_length]
      omega
    have hfu : (p :: rest).length + fuel = (rest.length + fuel) + 1 := by
      simp only [List.length_cons]
      omega
    rw [hfu, hlp, hdata, CheckSei.scanLoop, subSizeT_of_le _ _ (by omega),
      if_pos (by omega), if_neg (by omega)]
    simp only [hread, htype]
    rw [if_neg (by omega), if_pos (by omega), if_neg hp6]
    have hih := fun report => ih (pre ++ (be32 p.length ++ p)) fuel report
      (fun q hq => hall q (List.mem_cons_of_mem _ hq))
    rw [← hpre2, hpre2l] at hih
    have hpos : pre.length + (4 + p.length + (lengthPrefixed rest).length) =
        pre.length + 4 + p.length + (lengthPrefixed rest).length := by omega
    rw [hpos]
    by_cases hfr : nalType p = 1 ∨ nalType p = 5
    · rw [if_pos hfr, hih]
      have hc : CheckSei.frameUnits (p :: rest) = CheckSei.frameUnits rest + 1 := by
        simp [CheckSei.frameUnits, List.countP_cons, hfr]
      simp only [CheckSei.expectedLines, hc, List.append_assoc, List.singleton_append]
      congr 2
      omega
    · rw [if_neg hfr, hih]
      have hc : CheckSei.frameUnits (p :: rest) = CheckSei.frameUnits rest := by
        simp [CheckSei.frameUnits, List.countP_cons, hfr]
      simp only [CheckSei.expectedLines, hc, List.append_assoc, List.singleton_append]

/-- The copy loop of the rewriter over complete units: one iteration per unit, and every
unit whose type is not 6 is appended to the output with its length field. -/
theorem rewriteLoop_units (tail : List Nat) (ps : List (List Nat)) :
    ∀ (pre : List Nat) (fuel : Nat) (output : List Nat),
      (∀ p ∈ ps, 1 ≤ p.length ∧ p.length < 2 ^ 32) →
      ConvertToLengthPrefixed.rewriteLoop (pre ++ (lengthPrefixed ps ++ tail))
          (ps.length + fuel) pre.length output =
        ConvertToLengthPrefixed.rewriteLoop (pre ++ (lengthPrefixed ps ++ tail)) fuel
          (pre.length + (lengthPrefixed ps).length)
          (output ++ lengthPrefixed (ps.filter (fun p => decide (nalType p ≠ 6)))) := by
  induction ps with
  | nil =>
    intro pre fuel output _
    simp [lengthPrefixed]
  | cons p rest ih =>
    intro pre fuel output hall
    obtain ⟨hp1, hp2⟩ := hall p (List.mem_cons_self _ _)
    have hdata : pre ++ (lengthPrefixed (p :: rest) ++ tail) =
        pre ++ (be32 p.length ++ (p ++ (lengthPrefixed rest ++ tail))) := by
      simp only [lengthPrefixed, List.append_assoc]
    obtain ⟨hlen, hread, htype, hcopy1, hcopy2⟩ :=
      unit_facts pre p (lengthPrefixed rest ++ tail) hp1 hp2
    have hpre2 : pre ++ (be32 p.length ++ (p ++ (lengthPrefixed rest ++ tail))) =
        (pre ++ (be32 p.length ++ p)) ++ (lengthPrefixed rest ++ tail) := by
      simp only [List.append_assoc]
    have hpre2l : (pre ++ (be32 p.length ++ p)).length = pre.length + 4 + p.length := by
      simp only [List.length_append, be32_length]
      omega
    have hlp : (lengthPrefixed (p :: rest)).length =
        4 + p.length + (lengthPrefixed rest).length := by
      simp only [lengthPrefixed, List.length_append, be32_length]
      omega
    have hfu : (p :: rest).length + fuel = (rest.length + fuel) + 1 := by
      simp only [List.length_cons]
      omega
    rw [hfu, hlp, hdata, ConvertToLengthPrefixed.rewriteLoop, subSizeT_of_le _ _ (by omega),
      if_pos (by omega), if_neg (by omega)]
    simp only [hread, htype, hcopy1, hcopy2]
    rw [if_neg (by omega), if_pos (by omega)]
    have hih := fun output => ih (pre ++ (be32 p.length ++ p)) fuel output
      (fun q hq => hall q (List.mem_cons_of_mem _ hq))
    rw [← hpre2, hpre2l] at hih
    have hpos : pre.length + (4 + p.length + (lengthPrefixed rest).length) =
        pre.length + 4 + p.length + (lengthPrefixed rest).length := by omega
    rw [hpos, hih]
    by_cases h6 : nalType p = 6
    · simp [h6]
    · simp [h6, lengthPrefixed, List.append_assoc]

/-! ## More iterations change nothing -/

/-- Once the Annex-B scan loop has ended within `fuel` iterations, it ends with the same
units within any larger number. -/
theorem parseNALUnitsLoop_mono (d : List Nat) (fuel : Nat) :
    ∀ (pos : Nat) (acc r : List NALUnit) (k : Nat),
      parseNALUnitsLoop d fuel pos acc = some r →
      parseNALUnitsLoop d (fuel + k) pos acc = some r := by
  induction fuel with
  | zero =>
    intro pos acc r k h
    simp [parseNALUnitsLoop] at h
  | succ fuel ih =>
    intro pos acc r k h
    have e : fuel + 1 + k = (fuel + k) + 1 := by omega
    rw [e, parseNALUnitsLoop]
    rw [parseNALUnitsLoop] at h
    by_cases hg : pos < subSizeT d.length 4
    · rw [if_pos hg] at h ⊢
      by_cases hs : isStartCode d pos = true
      · rw [if_pos hs] at h ⊢
        exact ih _ _ _ k h
      · rw [if_neg hs] at h ⊢
        exact ih _ _ _ k h
    · rw [if_neg hg] at h ⊢
      exact h

/-- The size loop of the extended parser followed by the final size byte, on a size field of
`k` bytes FF closed by a byte `s` other than FF. -/
theorem readPayloadSize_run (pre tl : List Nat) (s k : Nat) (hs : s ≠ 0xFF) :
    readPayloadSize (pre ++ List.replicate k 0xFF ++ s :: tl) pre.length =
      (pre.length + k + 1, 255 * k + s) := by
  unfold readPayloadSize
  rw [readSizeLoop_run s tl hs k pre 0]
  have hlen : pre.length + k < (pre ++ List.replicate k 0xFF ++ s :: tl).length := by
    simp only [List.length_append, List.length_replicate, List.length_cons]
    omega
  have hget : (pre ++ List.replicate k 0xFF ++ s :: tl).getD (pre.length + k) 0 = s := by
    have e : pre.length + k = (pre ++ List.replicate k 0xFF).length := by simp
    rw [e, getD_append_at_length]
  simp only [hlen, if_true, hget]
  simp

/-! ## The encoder with provenance -/

/-- The `writeRBSPMarked` loop from index `pre.length` on. -/
theorem writeRBSPMarked_fold (suf : List Nat) :
    ∀ (pre : List Nat) (acc : List (Nat × Bool)),
      (List.range' pre.length suf.length).foldl (writeRBSPMarkedStep (pre ++ suf)) acc =
        acc ++ escapeMarkedFrom (lastByte2 pre) (lastByte pre) suf := by
  induction suf with
  | nil => intro pre acc; simp [escapeMarkedFrom]
  | cons b rest ih =>
    intro pre acc
    have e : pre ++ b :: rest = (pre ++ [b]) ++ rest := by simp
    have hstep : writeRBSPMarkedStep (pre ++ b :: rest) acc pre.length =
        acc ++ (if lastByte2 pre = 0 ∧ lastByte pre = 0 ∧ b ≤ 3
          then [(3, true), (b, false)] else [(b, false)]) := by
      have hz := prev_zero_iff pre (b :: rest)
      unfold writeRBSPMarkedStep
      simp only [getD_append_at_length]
      by_cases hc : lastByte2 pre = 0 ∧ lastByte pre = 0 ∧ b ≤ 3
      · have hc2 : 2 ≤ pre.length ∧ (pre ++ b :: rest).getD (pre.length - 2) 0 = 0 ∧
            (pre ++ b :: rest).getD (pre.length - 1) 0 = 0 ∧ b ≤ 3 := by
          have := hz.mpr ⟨hc.1, hc.2.1⟩
          exact ⟨this.1, this.2.1, this.2.2, hc.2.2⟩
        rw [if_pos hc2, if_pos hc]
        simp
      · have hc2 : ¬ (2 ≤ pre.length ∧ (pre ++ b :: rest).getD (pre.length - 2) 0 = 0 ∧
            (pre ++ b :: rest).getD (pre.length - 1) 0 = 0 ∧ b ≤ 3) := by
          intro h
          have := hz.mp ⟨h.1, h.2.1, h.2.2.1⟩
          exact hc ⟨this.1, this.2, h.2.2.2⟩
        rw [if_neg hc2, if_neg hc]
    have hlen : (pre ++ [b]).length = pre.length + 1 := by simp
    simp only [List.length_cons, List.range'_succ, List.foldl_cons]
    rw [hstep, e, ← hlen, ih (pre ++ [b]), lastByte_concat, lastByte2_concat]
    simp [escapeMarkedFrom]

/-- The function `writeRBSPMarked` as a list recursion. -/
theorem writeRBSPMarked_eq (x : List Nat) : writeRBSPMarked x = escapeMarkedFrom 1 1 x := by
  have h := writeRBSPMarked_fold x [] []
  simp only [List.length_nil, List.nil_append] at h
  unfold writeRBSPMarked
  rw [List.range_eq_range', h]
  rfl

/-- Forgetting the provenance gives the encoder. -/
theorem escapeMarkedFrom_fst (x : List Nat) :
    ∀ p2 p1 : Nat, (escapeMarkedFrom p2 p1 x).map Prod.fst = escapeFrom p2 p1 x := by
  induction x with
  | nil => intro p2 p1; rfl
  | cons b rest ih =>
    intro p2 p1
    by_cases he : p2 = 0 ∧ p1 = 0 ∧ b ≤ 3
    · simp only [escapeMarkedFrom, escapeFrom, if_pos he, List.map_append, ih]
      rfl
    · simp only [escapeMarkedFrom, escapeFrom, if_neg he, List.map_append, ih]
      rfl

/-- The bytes that are not marked are the source bytes, in order. -/
theorem escapeMarkedFrom_source (x : List Nat) :
    ∀ p2 p1 : Nat,
      ((escapeMarkedFrom p2 p1 x).filter (fun e => !e.2)).map Prod.fst = x := by
  induction x with
  | nil => intro p2 p1; rfl
  | cons b rest ih =>
    intro p2 p1
    by_cases he : p2 = 0 ∧ p1 = 0 ∧ b ≤ 3
    · simp only [escapeMarkedFrom, if_pos he, List.filter_append, List.map_append, ih]
      rfl
    · simp only [escapeMarkedFrom, if_neg he, List.filter_append, List.map_append, ih]
      rfl

/-- A marked byte is a byte 03. -/
theorem escapeMarkedFrom_marked (x : List Nat) :
    ∀ (p2 p1 : Nat) (e : Nat × Bool), e ∈ escapeMarkedFrom p2 p1 x → e.2 = true → e.1 = 3 := by
  induction x with
  | nil => intro p2 p1 e he; simp [escapeMarkedFrom] at he
  | cons b rest ih =>
    intro p2 p1 e he h2
    by_cases hc : p2 = 0 ∧ p1 = 0 ∧ b ≤ 3
    · simp only [escapeMarkedFrom, if_pos hc, List.mem_append, List.mem_cons,
        List.mem_singleton, List.not_mem_nil, or_false] at he
      rcases he with (rfl | rfl) | he
      · rfl
      · simp at h2
      · exact ih _ _ e he h2
    · simp only [escapeMarkedFrom, if_neg hc, List.mem_append, List.mem_cons,
        List.mem_singleton, List.not_mem_nil, or_false] at he
      rcases he with rfl | he
      · simp at h2
      · exact ih _ _ e he h2

/-- In the marked output, a byte 03 right after two bytes 00 is marked, also across the two
bytes emitted just before (`q2`, which is 03 or the source byte `p2`, and `p1`). -/
theorem escapeMarkedFrom_window (x : List Nat) :
    ∀ (p2 p1 q2 : Nat) (m2 m1 : Bool) (a b c : Nat × Bool), (q2 = 0 → p2 = 0) →
      [a, b, c] <:+: (q2, m2) :: (p1, m1) :: escapeMarkedFrom p2 p1 x →
      a.1 = 0 → b.1 = 0 → c.1 = 3 → c.2 = true := by
  induction x with
  | nil =>
    intro p2 p1 q2 m2 m1 a b c _ hin
    have := hin.length_le
    simp [escapeMarkedFrom] at this
  | cons s rest ih =>
    intro p2 p1 q2 m2 m1 a b c hq hin ha hb hc
    by_cases he : p2 = 0 ∧ p1 = 0 ∧ s ≤ 3
    · simp only [escapeMarkedFrom, if_pos he, List.cons_append, List.nil_append] at hin
      rw [List.infix_cons_iff] at hin
      rcases hin with hp | hin
      · simp at hp
        rw [hp.2.2]
      · rw [List.infix_cons_iff] at hin
        rcases hin with hp | hin
        · simp at hp
          rw [hp.2.1] at hb
          simp at hb
        · exact ih p1 s 3 true false a b c (by omega) hin ha hb hc
    · simp only [escapeMarkedFrom, if_neg he, List.cons_append, List.nil_append] at hin
      rw [List.infix_cons_iff] at hin
      rcases hin with hp | hin
      · simp at hp
        obtain ⟨h1, h2, h3⟩ := hp
        rw [h1] at ha
        rw [h2] at hb
        rw [h3] at hc
        exact absurd ⟨hq ha, hb, by simp at hc; omega⟩ he
      · exact ih p1 s p1 m1 false a b c (fun h => h) hin ha hb hc

/-- The output is longer than the source by the number of marked bytes. -/
theorem escapeFrom_length (x : List Nat) :
    ∀ p2 p1 : Nat,
      (escapeFrom p2 p1 x).length =
        x.length + (escapeMarkedFrom p2 p1 x).countP (fun e => e.2) := by
  induction x with
  | nil => intro p2 p1; rfl
  | cons b rest ih =>
    intro p2 p1
    by_cases he : p2 = 0 ∧ p1 = 0 ∧ b ≤ 3
    · simp only [escapeMarkedFrom, escapeFrom, if_pos he, List.length_append,
        List.countP_append, ih, List.length_cons, List.length_nil]
      simp [List.countP_cons]
      omega
    · simp only [escapeMarkedFrom, escapeFrom, if_neg he, List.length_append,
        List.countP_append, ih, List.length_cons, List.length_nil]
      simp [List.countP_cons]
      omega

/-- At most one escape byte per source byte. -/
theorem escapeMarkedFrom_count_le (x : List Nat) :
    ∀ p2 p1 : Nat, (escapeMarkedFrom p2 p1 x).countP (fun e => e.2) ≤ x.length := by
  induction x with
  | nil => intro p2 p1; simp [escapeMarkedFrom]
  | cons b rest ih =>
    intro p2 p1
    have h := ih p1 b
    by_cases he : p2 = 0 ∧ p1 = 0 ∧ b ≤ 3
    · simp only [escapeMarkedFrom, if_pos he, List.countP_append, List.length_cons]
      simp [List.countP_cons]
      omega
    · simp only [escapeMarkedFrom, if_neg he, List.countP_append, List.length_cons]
      simp [List.countP_cons]
      omega

/-- After a byte other than 00, the next two source bytes are never escaped. -/
theorem escapeMarkedFrom_after_nonzero (p2 p1 b c : Nat) (rest : List Nat) (h : p1 ≠ 0) :
    escapeMarkedFrom p2 p1 (b :: c :: rest) =
      (b, false) :: (c, false) :: escapeMarkedFrom b c rest := by
  have h1 : ¬ (p2 = 0 ∧ p1 = 0 ∧ b ≤ 3) := fun hh => h hh.2.1
  have h2 : ¬ (p1 = 0 ∧ b = 0 ∧ c ≤ 3) := fun hh => h hh.1
  simp only [escapeMarkedFrom, if_neg h1, if_neg h2]
  rfl

/-- The encoder's output length: the source length plus the inserted escape bytes. -/
theorem writeRBSP_length (x : List Nat) :
    (writeRBSP x).length = x.length + insertedEscapes x := by
  rw [writeRBSP_eq_escapeFrom, insertedEscapes, writeRBSPMarked_eq]
  exact escapeFrom_length x 1 1

/-- The first two source bytes are never escaped. -/
theorem insertedEscapes_le (x : List Nat) : insertedEscapes x ≤ x.length - 2 := by
  rw [insertedEscapes, writeRBSPMarked_eq]
  cases x with
  | nil => simp [escapeMarkedFrom]
  | cons b r1 =>
    cases r1 with
    | nil => simp [escapeMarkedFrom]
    | cons c rest =>
      rw [escapeMarkedFrom_after_nonzero 1 1 b c rest (by decide)]
      have h := escapeMarkedFrom_count_le rest b c
      simp only [List.countP_cons, List.length_cons]
      simp
      omega

/-- After a byte other than 00 the encoder starts afresh. -/
theorem escapeFrom_nonzero_ctx (p2 p1 : Nat) (h : p1 ≠ 0) (x : List Nat) :
    escapeFrom p2 p1 x = escapeFrom 1 1 x := by
  cases x with
  | nil => rfl
  | cons b r1 =>
    have h1 : ¬ (p2 = 0 ∧ p1 = 0 ∧ b ≤ 3) := fun hh => h hh.2.1
    have h2 : ¬ ((1 : Nat) = 0 ∧ (1 : Nat) = 0 ∧ b ≤ 3) := fun hh => by omega
    simp only [escapeFrom, if_neg h1, if_neg h2]
    cases r1 with
    | nil => rfl
    | cons c rest =>
      have h3 : ¬ (p1 = 0 ∧ b = 0 ∧ c ≤ 3) := fun hh => h hh.1
      have h4 : ¬ ((1 : Nat) = 0 ∧ b = 0 ∧ c ≤ 3) := fun hh => by omega
      simp only [escapeFrom, if_neg h3, if_neg h4]

/-- A prefix without a byte 00 is copied as it is, and the encoder starts afresh after it. -/
theorem escapeFrom_nonzero_prefix (pre : List Nat) (bs : List Nat) :
    (∀ b ∈ pre, b ≠ 0) → ∀ p2 p1 : Nat, p1 ≠ 0 →
      escapeFrom p2 p1 (pre ++ bs) = pre ++ escapeFrom 1 1 bs := by
  induction pre with
  | nil =>
    intro _ p2 p1 h
    exact escapeFrom_nonzero_ctx p2 p1 h bs
  | cons b rest ih =>
    intro hpre p2 p1 h
    have h1 : ¬ (p2 = 0 ∧ p1 = 0 ∧ b ≤ 3) := fun hh => h hh.2.1
    have hb : b ≠ 0 := hpre b (List.mem_cons_self _ _)
    have hrest : ∀ c ∈ rest, c ≠ 0 := fun c hc => hpre c (List.mem_cons_of_mem _ hc)
    have e : (b :: rest) ++ bs = b :: (rest ++ bs) := rfl
    rw [e]
    simp only [escapeFrom, if_neg h1, ih hrest p1 b hb]
    rfl

/-! ## The decoder as escape removal -/

/-- On an input that ends in 80 the decoder removes the escapes of what comes before. -/
theorem unescapeFrom_append_stop (r : List Nat) :
    ∀ q2 q1 : Nat, unescapeFrom q2 q1 (r ++ [0x80]) = removeEscapesFrom q2 q1 r := by
  induction r with
  | nil =>
    intro q2 q1
    simp [unescapeFrom, removeEscapesFrom]
  | cons b rest ih =>
    intro q2 q1
    have hne : ¬ (rest ++ [0x80] = [] ∧ b = 0x80) := fun hh => by simp at hh
    have e : (b :: rest) ++ [0x80] = b :: (rest ++ [0x80]) := rfl
    rw [e]
    by_cases he : q2 = 0 ∧ q1 = 0 ∧ b = 3
    · simp only [unescapeFrom, removeEscapesFrom, if_pos he, ih]
    · simp only [unescapeFrom, removeEscapesFrom, if_neg he, if_neg hne, ih]

/-- On an input that does not end in 80 the decoder only removes escapes. -/
theorem unescapeFrom_no_stop (y : List Nat) :
    ∀ q2 q1 : Nat, y.getLast? ≠ some 0x80 →
      unescapeFrom q2 q1 y = removeEscapesFrom q2 q1 y := by
  induction y with
  | nil => intro q2 q1 _; rfl
  | cons b rest ih =>
    intro q2 q1 hl
    have hrest : rest.getLast? ≠ some 0x80 := by
      cases rest with
      | nil => simp
      | cons c r2 => rw [List.getLast?_cons_cons] at hl; exact hl
    have hne : ¬ (rest = [] ∧ b = 0x80) := by
      rintro ⟨h1, h2⟩
      subst h1 h2
      simp at hl
    by_cases he : q2 = 0 ∧ q1 = 0 ∧ b = 3
    · simp only [unescapeFrom, removeEscapesFrom, if_pos he, ih q1 b hrest]
    · simp only [unescapeFrom, removeEscapesFrom, if_neg he, if_neg hne, ih q1 b hrest]

/-- Escape removal only drops bytes. -/
theorem removeEscapesFrom_sublist (r : List Nat) :
    ∀ q2 q1 : Nat, (removeEscapesFrom q2 q1 r).Sublist r := by
  induction r with
  | nil => intro q2 q1; exact List.Sublist.refl _
  | cons b rest ih =>
    intro q2 q1
    by_cases he : q2 = 0 ∧ q1 = 0 ∧ b = 3
    · simp only [removeEscapesFrom, if_pos he]
      exact List.Sublist.cons _ (ih q1 b)
    · simp only [removeEscapesFrom, if_neg he]
      exact List.Sublist.cons₂ _ (ih q1 b)

/-- Escape removal keeps every byte other than 03, in order. -/
theorem removeEscapesFrom_filter (r : List Nat) :
    ∀ q2 q1 : Nat,
      (removeEscapesFrom q2 q1 r).filter (fun b => b != 3) = r.filter (fun b => b != 3) := by
  induction r with
  | nil => intro q2 q1; rfl
  | cons b rest ih =>
    intro q2 q1
    by_cases he : q2 = 0 ∧ q1 = 0 ∧ b = 3
    · simp only [removeEscapesFrom, if_pos he, ih]
      rw [he.2.2]
      simp
    · simp only [removeEscapesFrom, if_neg he, List.filter_cons, ih]

/-! ## The Annex-B checker on the file of test_simple_sei -/

/-- The checker's `isStartCode` is the injector's. -/
theorem checkAnnexB_isStartCode_eq (d : List Nat) (j : Nat) :
    CheckAnnexB.isStartCode d j = isStartCode d j := rfl

/-- The checker's search loop is the injector's. -/
theorem checkAnnexB_findNextStartCodeLoop_eq (d : List Nat) (n : Nat) :
    ∀ i : Nat, CheckAnnexB.findNextStartCodeLoop d n i = findNextStartCodeLoop d n i := by
  induction n with
  | zero => intro i; rfl
  | succ n ih =>
    intro i
    rw [CheckAnnexB.findNextStartCodeLoop, findNextStartCodeLoop, ih,
      checkAnnexB_isStartCode_eq]

/-- The checker's `findNextStartCode` is the injector's. -/
theorem checkAnnexB_findNextStartCode_eq (d : List Nat) (start : Nat) :
    CheckAnnexB.findNextStartCode d start = findNextStartCode d start := by
  unfold CheckAnnexB.findNextStartCode findNextStartCode
  exact checkAnnexB_findNextStartCodeLoop_eq d _ start

/-- Once the checker's loop has ended within `fuel` iterations, it ends with the same report
within any larger number. -/
theorem checkAnnexB_scanLoop_mono (d : List Nat) (fuel : Nat) :
    ∀ (pos : Nat) (acc r : CheckAnnexB.ScanReport) (k : Nat),
      CheckAnnexB.scanLoop d fuel pos acc = some r →
      CheckAnnexB.scanLoop d (fuel + k) pos acc = some r := by
  induction fuel with
  | zero =>
    intro pos acc r k h
    simp [CheckAnnexB.scanLoop] at h
  | succ fuel ih =>
    intro pos acc r k h
    have e : fuel + 1 + k = (fuel + k) + 1 := by omega
    rw [e, CheckAnnexB.scanLoop]
    rw [CheckAnnexB.scanLoop] at h
    by_cases hg : pos < subSizeT d.length 4
    · rw [if_pos hg] at h ⊢
      by_cases hs : CheckAnnexB.isStartCode d pos = true
      · rw [if_pos hs] at h ⊢
        exact ih _ _ _ k h
      · rw [if_neg hs] at h ⊢
        exact ih _ _ _ k h
    · rw [if_neg hg] at h ⊢
      exact h

/-- The search from the first byte of a last payload without a window `00 00 01` ends at the
end of the buffer. -/
theorem findNextStartCode_last (A p : List Nat) (hp1 : ¬ [0, 0, 1] <:+: p) :
    findNextStartCode (A ++ p) A.length = (A ++ p).length := by
  unfold findNextStartCode
  rcases findNextStartCodeLoop_spec (A ++ p) (subSizeT (A ++ p).length 3 - A.length)
      A.length with ⟨hr, _⟩ | ⟨hsc, hge, _, _⟩
  · exact hr
  · exfalso
    obtain ⟨hlt, ha, hb, hc⟩ := (isStartCode_iff _ _).mp hsc
    obtain ⟨k, hk⟩ := Nat.exists_eq_add_of_le hge
    rw [hk] at hlt ha hb hc
    have hkl : k + 3 < p.length := by
      simp only [List.length_append] at hlt
      omega
    have e1 : A.length + k + 1 = A.length + (k + 1) := by omega
    have e2 : A.length + k + 2 = A.length + (k + 2) := by omega
    have e3 : A.length + k + 3 = A.length + (k + 3) := by omega
    rw [getD_append_add] at ha
    rw [e1, getD_append_add] at hb
    rw [e2, e3, getD_append_add, getD_append_add] at hc
    rcases hc with hc | ⟨hc0, hc1⟩
    · exact hp1 (window_of_getD 0 0 1 p k (by omega) ha hb hc)
    · exact hp1 (window_of_getD 0 0 1 p (k + 1) (by omega) hb hc0 hc1)

/-- A window that ends in another byte than `x` and lies in `bs ++ [x]` lies in `bs`. -/
theorem infix_of_infix_concat (a b c x : Nat) (bs : List Nat) (hx : c ≠ x)
    (h : [a, b, c] <:+: bs ++ [x]) : [a, b, c] <:+: bs := by
  obtain ⟨s, u, hsu⟩ := h
  rcases List.eq_nil_or_concat u with rfl | ⟨u1, y, rfl⟩
  · exfalso
    have e : s ++ [a, b, c] ++ [] = (s ++ [a, b]) ++ [c] := by simp
    rw [e] at hsu
    exact hx (List.append_inj_right' hsu rfl |> List.singleton_inj.mp)
  · have e : s ++ [a, b, c] ++ u1.concat y = (s ++ [a, b, c] ++ u1) ++ [y] := by simp
    rw [e] at hsu
    exact ⟨s, u1, List.append_inj_left' hsu rfl⟩

/-- The simple SEI is `06 01 08`, the timestamp bytes and `80`. -/
theorem createSimpleTimestampSEI_shape (t : Nat) :
    createSimpleTimestampSEI t = [6, 1, 8] ++ timestampToBytes t ++ [0x80] := rfl

/-- The simple SEI has a window `00 00 01` only if the timestamp bytes have one. -/
theorem createSimple_no_window (t : Nat) (hw : ¬ [0, 0, 1] <:+: timestampToBytes t) :
    ¬ [0, 0, 1] <:+: createSimpleTimestampSEI t := by
  rw [createSimpleTimestampSEI_shape]
  intro hin
  have h1 := infix_of_infix_concat 0 0 1 0x80 _ (by decide) hin
  have e : [6, 1, 8] ++ timestampToBytes t = 6 :: 1 :: 8 :: timestampToBytes t := rfl
  rw [e] at h1
  rw [List.infix_cons_iff] at h1
  rcases h1 with hp | h1
  · simp at hp
  · rw [List.infix_cons_iff] at h1
    rcases h1 with hp | h1
    · simp at hp
    · rw [List.infix_cons_iff] at h1
      rcases h1 with hp | h1
      · simp at hp
      · exact hw h1

/-- A byte after a prefix of known length. -/
theorem getD_at (pre suf : List Nat) (n i : Nat) (h : pre.length = n) :
    (pre ++ suf).getD (n + i) 0 = suf.getD i 0 := by
  subst h
  exact getD_append_add pre suf i

/-- The checker's report on the file written by test_simple_sei, within three iterations,
when the timestamp bytes have no window `00 00 01`. -/
theorem checkAnnexB_scan_writtenFile (t : Nat) (ht : t < 2 ^ 64)
    (hw : ¬ [0, 0, 1] <:+: timestampToBytes t) :
    CheckAnnexB.scan 3 (TestSimpleSei.writtenFile t) =
      some { units := [(4, 6, 12), (20, 1, 10)], sei_count := 1, frame_count := 1,
             simple_timestamps := [t] } := by
  have hSlen : (createSimpleTimestampSEI t).length = 12 := by
    rw [createSimpleTimestampSEI_eq]; rfl
  have hS : createSimpleTimestampSEI t ≠ [] := by
    intro h
    rw [h] at hSlen
    simp at hSlen
  have hD1 : TestSimpleSei.writtenFile t =
      [0, 0, 0, 1] ++ (createSimpleTimestampSEI t ++
        ([0, 0, 0, 1] ++ TestSimpleSei.frame_nal)) := by
    simp [TestSimpleSei.writtenFile, TestSimpleSei.start_code]
  have hD2 : TestSimpleSei.writtenFile t =
      ([0, 0, 0, 1] ++ createSimpleTimestampSEI t) ++
        ([0, 0, 0, 1] ++ (TestSimpleSei.frame_nal ++ [])) := by
    simp [TestSimpleSei.writtenFile, TestSimpleSei.start_code]
  have hD3 : TestSimpleSei.writtenFile t =
      ([0, 0, 0, 1] ++ createSimpleTimestampSEI t ++ [0, 0, 0, 1]) ++
        TestSimpleSei.frame_nal := rfl
  have h16 : ([0, 0, 0, 1] ++ createSimpleTimestampSEI t).length = 16 := by
    rw [List.length_append, hSlen]; rfl
  have h20 : ([0, 0, 0, 1] ++ createSimpleTimestampSEI t ++ [0, 0, 0, 1]).length = 20 := by
    rw [List.length_append, h16]; rfl
  have hlen : (TestSimpleSei.writtenFile t).length = 30 := by
    rw [hD3, List.length_append, h20]; rfl
  have hs0 : CheckAnnexB.isStartCode (TestSimpleSei.writtenFile t) 0 = true := by
    rw [checkAnnexB_isStartCode_eq, hD1]
    exact isStartCode_at_unit [] true (createSimpleTimestampSEI t)
      ([0, 0, 0, 1] ++ TestSimpleSei.frame_nal) hS
  have hg2 : (TestSimpleSei.writtenFile t).getD 2 0 = 0 := by
    rw [hD1]; rfl
  have hs16 : CheckAnnexB.isStartCode (TestSimpleSei.writtenFile t) 16 = true := by
    rw [checkAnnexB_isStartCode_eq, hD2, ← h16]
    exact isStartCode_at_unit ([0, 0, 0, 1] ++ createSimpleTimestampSEI t) true
      TestSimpleSei.frame_nal [] (by decide)
  have hf4 : CheckAnnexB.findNextStartCode (TestSimpleSei.writtenFile t) 4 = 16 := by
    rw [checkAnnexB_findNextStartCode_eq]
    have hs16b := hs16
    rw [checkAnnexB_isStartCode_eq, hD1] at hs16b
    have h := findNextStartCode_payload [0, 0, 0, 1] (createSimpleTimestampSEI t)
      ([0, 0, 0, 1] ++ TestSimpleSei.frame_nal) hS (createSimple_no_window t hw)
      (by rw [createSimpleTimestampSEI_shape, List.getLast?_concat]; decide) (by decide)
      (Or.inr ⟨by decide, by rw [hSlen]; exact hs16b⟩)
    rw [hSlen] at h
    rw [hD1]
    exact h
  have hty4 : (TestSimpleSei.writtenFile t).getD 4 0 = 6 := by
    rw [hD1, createSimpleTimestampSEI_shape]; rfl
  have hsei : ((TestSimpleSei.writtenFile t).drop 4).take 12 = createSimpleTimestampSEI t := by
    rw [hD1]
    have e : ([0, 0, 0, 1] ++ (createSimpleTimestampSEI t ++
        ([0, 0, 0, 1] ++ TestSimpleSei.frame_nal))).drop 4 =
        createSimpleTimestampSEI t ++ ([0, 0, 0, 1] ++ TestSimpleSei.frame_nal) := rfl
    rw [e]
    exact List.take_left' hSlen
  have hext := extractSimple_createSimple t ht
  have hg18 : (TestSimpleSei.writtenFile t).getD 18 0 = 0 := by
    rw [hD2]
    exact getD_at _ ([0, 0, 0, 1] ++ (TestSimpleSei.frame_nal ++ [])) 16 2 h16
  have hf20 : CheckAnnexB.findNextStartCode (TestSimpleSei.writtenFile t) 20 = 30 := by
    rw [checkAnnexB_findNextStartCode_eq]
    have h := findNextStartCode_last
      ([0, 0, 0, 1] ++ createSimpleTimestampSEI t ++ [0, 0, 0, 1]) TestSimpleSei.frame_nal
      (by decide)
    rw [← hD3, h20, hlen] at h
    exact h
  have hty20 : (TestSimpleSei.writtenFile t).getD 20 0 = 0x41 := by
    rw [hD3]
    exact getD_at _ TestSimpleSei.frame_nal 20 0 h20
  have hand6 : (6 &&& 0x1F : Nat) = 6 := by decide
  have hand41 : (0x41 &&& 0x1F : Nat) = 1 := by decide
  have hsub1 : subSizeT 30 4 = 26 := by decide
  have hsub2 : subSizeT 16 4 = 12 := by decide
  have hsub3 : subSizeT 30 20 = 10 := by decide
  have c1 : ((0 : Nat) < 26) = True := eq_true (by decide)
  have c2 : ((0 : Nat) = 1) = False := eq_false (by decide)
  have c3 : ((12 : Nat) > 0 ∧ (4 : Nat) < 30) = True := eq_true (by decide)
  have c4 : ((16 : Nat) < 26) = True := eq_true (by decide)
  have c5 : ((10 : Nat) > 0 ∧ (20 : Nat) < 30) = True := eq_true (by decide)
  have c6 : ((1 : Nat) = 6) = False := eq_false (by decide)
  have c7 : ((30 : Nat) < 26) = False := eq_false (by decide)
  have a1 : (16 : Nat) + 2 = 18 := rfl
  have a2 : (16 : Nat) + 4 = 20 := rfl
  unfold CheckAnnexB.scan
  rw [CheckAnnexB.scanLoop]
  simp only [hlen, hsub1, hs0, Nat.zero_add, hg2, c1, c2, if_true, if_false, hf4, hsub2, c3,
    hty4, hand6, hsei, hext]
  rw [CheckAnnexB.scanLoop]
  simp only [hlen, hsub1, hs16, a1, a2, hg18, c4, c2, if_true, if_false, hf20, hsub3, c5,
    hty20, hand41, c6, true_or]
  rw [CheckAnnexB.scanLoop]
  simp only [hlen, hsub1, c7, if_false]
  rfl

/-! ## Buffers shorter than four bytes -/

/-- On fewer than 4 bytes the 64-bit difference `size - 4` wraps to at least `2 ^ 64 - 4`. -/
theorem subSizeT_short (n : Nat) (h : n < 4) : subSizeT n 4 = n + 2 ^ 64 - 4 := by
  unfold subSizeT
  rw [if_neg (by omega)]

/-- On a buffer shorter than 4 bytes the Annex-B scan loop is still running after any number
of iterations that keeps the cursor below `2 ^ 64 - 4`. -/
theorem parseNALUnitsLoop_short_runs (d : List Nat) (h4 : d.length < 4) (fuel : Nat) :
    ∀ (pos : Nat) (acc : List NALUnit), pos + fuel ≤ 2 ^ 64 - 4 →
      parseNALUnitsLoop d fuel pos acc = none := by
  induction fuel with
  | zero => intro pos acc _; rfl
  | succ fuel ih =>
    intro pos acc hb
    have hsc : ¬ isStartCode d pos = true := by
      intro hs
      have := ((isStartCode_iff d pos).mp hs).1
      omega
    rw [parseNALUnitsLoop, subSizeT_short _ h4, if_pos (by omega), if_neg hsc]
    exact ih _ _ (by omega)

/-- Neither of the two mutually recursive functions reads outside its unit. -/
theorem extractTimestampFromSEI_in_bounds (n : List Nat) (depth : Nat) :
    extractTimestampFromSEI depth n ≠ Outcome.outOfBounds := by
  by_cases h : n.length = 0 ∨ n.getD 0 0 &&& 0x1F ≠ 6
  · rcases depth with _ | _ | d
    · simp [extractTimestampFromSEI]
    · simp [extractTimestampFromSEI, isTimestampSEI]
    · rw [(sei_calls_base n h d).1]
      simp
  · have h1 : n.length ≠ 0 := fun h0 => h (Or.inl h0)
    have h2 : n.getD 0 0 &&& 0x1F = 6 := by
      by_contra h6
      exact h (Or.inr h6)
    rw [(sei_calls_unfinished n h1 h2 depth).1]
    simp

/-- On a buffer of at least 4 bytes the copy loop of the rewriter reads inside the buffer. -/
theorem rewriteLoop_in_bounds (d : List Nat) (h4 : 4 ≤ d.length) (fuel : Nat) :
    ∀ (pos : Nat) (output : List Nat),
      ConvertToLengthPrefixed.rewriteLoop d fuel pos output ≠ Outcome.outOfBounds := by
  induction fuel with
  | zero => intro pos output; simp [ConvertToLengthPrefixed.rewriteLoop]
  | succ fuel ih =>
    intro pos output
    rw [ConvertToLengthPrefixed.rewriteLoop, subSizeT_of_le _ _ h4]
    by_cases hg : pos < d.length - 4
    · rw [if_pos hg, if_neg (by omega)]
      simp only
      split
      · simp
      · split
        · exact ih _ _
        · exact ih _ _
    · rw [if_neg hg]
      simp

/-- On a buffer of at least 4 bytes the scan loop of check_sei reads inside the buffer. -/
theorem checkSei_scanLoop_in_bounds (d : List Nat) (depth : Nat) (h4 : 4 ≤ d.length)
    (fuel : Nat) :
    ∀ (pos : Nat) (report : CheckSei.ScanReport),
      CheckSei.scanLoop d depth fuel pos report ≠ Outcome.outOfBounds := by
  induction fuel with
  | zero => intro pos report; simp [CheckSei.scanLoop]
  | succ fuel ih =>
    intro pos report
    rw [CheckSei.scanLoop, subSizeT_of_le _ _ h4]
    by_cases hg : pos < d.length - 4
    · rw [if_pos hg, if_neg (by omega)]
      simp only
      split
      · simp
      · split
        · split
          · have hb := extractTimestampFromSEI_in_bounds
              ((d.drop (pos + 4)).take (readLength d pos)) depth
            split
            · simp
            · rename_i heq
              exact absurd heq hb
            · exact ih _ _
          · split
            · exact ih _ _
            · exact ih _ _
        · exact ih _ _
    · rw [if_neg hg]
      simp

/-! ## The rewriter on complete units -/

/-- The rewriter writes `00 00 00 0C` and the simple SEI, then runs its copy loop. -/
theorem insertSeiAtStart_eq (fuel t : Nat) (data : List Nat) :
    ConvertToLengthPrefixed.insertSeiAtStart fuel t data =
      ConvertToLengthPrefixed.rewriteLoop data fuel 0
        (be32 12 ++ createSimpleTimestampSEI t) := by
  have hl : (createSimpleTimestampSEI t).length = 12 := by
    rw [createSimpleTimestampSEI_eq]
    rfl
  unfold ConvertToLengthPrefixed.insertSeiAtStart
  simp only [hl]
  rfl

/-- A buffer of at least one unit has at least 5 bytes. -/
theorem lengthPrefixed_length (ps : List (List Nat)) (hne : ps ≠ [])
    (hps : ∀ p ∈ ps, 1 ≤ p.length ∧ p.length < 2 ^ 32) :
    5 ≤ (lengthPrefixed ps).length := by
  cases ps with
  | nil => exact absurd rfl hne
  | cons p rest =>
    have := (hps p (List.mem_cons_self _ _)).1
    simp only [lengthPrefixed, List.length_append, be32_length]
    omega

/-- The copy loop on a well-formed buffer: it returns the units whose type is not 6. -/
theorem rewriteLoop_wellFormed (ps : List (List Nat)) (hne : ps ≠ [])
    (hps : ∀ p ∈ ps, 1 ≤ p.length ∧ p.length < 2 ^ 32) (fuel : Nat) (hf : ps.length < fuel)
    (output : List Nat) :
    ConvertToLengthPrefixed.rewriteLoop (lengthPrefixed ps) fuel 0 output =
      Outcome.returns (output ++ lengthPrefixed (ps.filter (fun p => decide (nalType p ≠ 6)))) := by
  obtain ⟨f, rfl⟩ : ∃ f, fuel = ps.length + (f + 1) := ⟨fuel - ps.length - 1, by omega⟩
  have h := rewriteLoop_units [] ps [] (f + 1) output hps
  simp only [List.nil_append, List.length_nil, Nat.zero_add, List.append_nil] at h
  have h5 := lengthPrefixed_length ps hne hps
  rw [h, ConvertToLengthPrefixed.rewriteLoop, subSizeT_of_le _ _ (by omega), if_neg (by omega)]

/-- The copy loop on complete units followed by at least 5 bytes whose length field overruns
the buffer: it leaves at that field and returns what it has copied. -/
theorem rewriteLoop_truncated (ps : List (List Nat)) (tail : List Nat)
    (hps : ∀ p ∈ ps, 1 ≤ p.length ∧ p.length < 2 ^ 32)
    (h5 : 5 ≤ tail.length) (hover : tail.length < 4 + readLength tail 0)
    (fuel : Nat) (hf : ps.length < fuel) (output : List Nat) :
    ConvertToLengthPrefixed.rewriteLoop (lengthPrefixed ps ++ tail) fuel 0 output =
      Outcome.returns (output ++ lengthPrefixed (ps.filter (fun p => decide (nalType p ≠ 6)))) := by
  obtain ⟨f, rfl⟩ : ∃ f, fuel = ps.length + (f + 1) := ⟨fuel - ps.length - 1, by omega⟩
  have h := rewriteLoop_units tail ps [] (f + 1) output hps
  simp only [List.nil_append, List.length_nil, Nat.zero_add] at h
  have hlen : (lengthPrefixed ps ++ tail).length = (lengthPrefixed ps).length + tail.length :=
    List.length_append _ _
  have hread : readLength (lengthPrefixed ps ++ tail) (lengthPrefixed ps).length =
      readLength tail 0 := by
    unfold readLength
    have g := fun m => getD_append_add (lengthPrefixed ps) tail m
    have g0 := g 0
    rw [Nat.add_zero] at g0
    rw [g0, g 1, g 2, g 3]
  rw [h, ConvertToLengthPrefixed.rewriteLoop, subSizeT_of_le _ _ (by omega),
    if_pos (by omega), if_neg (by omega)]
  simp only [hread]
  rw [if_pos (by omega)]

/-- The simple SEI is a unit of type 6 (and of 12 bytes). -/
theorem createSimpleTimestampSEI_unit (t : Nat) :
    (createSimpleTimestampSEI t).length = 12 ∧ nalType (createSimpleTimestampSEI t) = 6 := by
  rw [createSimpleTimestampSEI_eq]
  have h6 : (6 &&& 0x1F : Nat) = 6 := by decide
  exact ⟨rfl, h6⟩

/-- The second byte of an extended unit is the payload type 05. -/
theorem createUserDataSEI_second (uuid data : List Nat) :
    (createUserDataSEI uuid data).getD 1 0 = 5 := by
  rw [createUserDataSEI_eq, writeRBSP_eq_escapeFrom]
  have e : [0x05] ++
      (List.replicate ((16 + data.length) / 255) 0xFF ++ [(16 + data.length) % 255]) ++
      uuid ++ data =
      0x05 :: ((List.replicate ((16 + data.length) / 255) 0xFF ++
        [(16 + data.length) % 255]) ++ uuid ++ data) := by
    simp
  rw [e, escapeFrom, if_neg (by decide)]
  rfl

/-- The scan of check_sei.cpp on a non-empty unit of type 6 never gets past the call of line
59, whatever the depth of nested calls and the number of iterations allowed. -/
theorem checkSei_scanLoop_sei_unit (pre p R : List Nat) (depth fuel : Nat)
    (report : CheckSei.ScanReport) (hp1 : 1 ≤ p.length) (hp2 : p.length < 2 ^ 32)
    (h6 : nalType p = 6) :
    CheckSei.scanLoop (pre ++ (be32 p.length ++ (p ++ R))) depth (fuel + 1) pre.length report =
      Outcome.unfinished := by
  obtain ⟨hlen, hread, htype, _, htake⟩ := unit_facts pre p R hp1 hp2
  rw [CheckSei.scanLoop, subSizeT_of_le _ _ (by omega), if_pos (by omega), if_neg (by omega)]
  simp only [hread, htype, htake]
  rw [if_neg (by omega), if_pos (by omega), if_pos h6,
    (sei_calls_unfinished p (by omega) h6 depth).1]

/-- The output of the rewriter is itself a well-formed buffer: the simple SEI as first unit,
then the units kept. -/
theorem rewriter_output_wellFormed (t : Nat) (qs : List (List Nat)) :
    [0x00, 0x00, 0x00, 0x0C] ++ createSimpleTimestampSEI t ++ lengthPrefixed qs =
      lengthPrefixed (createSimpleTimestampSEI t :: qs) := by
  simp only [lengthPrefixed, (createSimpleTimestampSEI_unit t).1, List.append_assoc]
  rfl

/-- Filtering the units of type 6 out of the rewriter's units gives the kept units again. -/
theorem filter_rewriter_units (t : Nat) (ps : List (List Nat)) :
    (createSimpleTimestampSEI t :: ps.filter (fun p => decide (nalType p ≠ 6))).filter
        (fun p => decide (nalType p ≠ 6)) =
      ps.filter (fun p => decide (nalType p ≠ 6)) := by
  rw [List.filter_cons, (createSimpleTimestampSEI_unit t).2, List.filter_filter]
  simp

/-! ## The Annex-B scan at the end of the buffer -/

/-- One iteration of the scan loop at the start code of a unit: the unit is pushed and the
cursor moves to the first byte after its payload.  The unit is the last one, behind a 4-byte
start code or with at least 2 payload bytes, or it is followed by another unit and its
payload does not end in 00. -/
theorem parseNALUnitsLoop_unit (pre : List Nat) (c : Bool) (p R : List Nat) (fuel : Nat)
    (acc : List NALUnit) (hp0 : p ≠ []) (hp1 : ¬ [0, 0, 1] <:+: p)
    (hR : (R = [] ∧ (c = true ∨ 2 ≤ p.length)) ∨
      (p.getLast? ≠ some 0 ∧
        ∃ (c2 : Bool) (p2 R2 : List Nat), p2 ≠ [] ∧ R = startCode c2 ++ (p2 ++ R2))) :
    parseNALUnitsLoop (pre ++ (startCode c ++ (p ++ R))) (fuel + 1) pre.length acc =
      parseNALUnitsLoop (pre ++ (startCode c ++ (p ++ R))) fuel
        (pre.length + (startCode c).length + p.length)
        (acc ++ [{ offset := pre.length + (startCode c).length, size := p.length,
                   type := p.getD 0 0 &&& 0x1F,
                   is_frame := decide (p.getD 0 0 &&& 0x1F = NAL_UNIT_TYPE_IDR ∨
                     p.getD 0 0 &&& 0x1F = NAL_UNIT_TYPE_NON_IDR) }]) := by
  have hpl := List.length_pos.mpr hp0
  have hs := startCode_length c
  have hlen : (pre ++ (startCode c ++ (p ++ R))).length =
      pre.length + (startCode c).length + p.length + R.length := by
    simp only [List.length_append]
    omega
  have h4 : 4 ≤ (pre ++ (startCode c ++ (p ++ R))).length := by
    rw [hlen]; omega
  have hA : pre ++ (startCode c ++ (p ++ R)) = (pre ++ startCode c) ++ (p ++ R) := by
    rw [List.append_assoc]
  have hAl : (pre ++ startCode c).length = pre.length + (startCode c).length := by
    simp
  have hguard : pre.length < (pre ++ (startCode c ++ (p ++ R))).length - 4 := by
    rw [hlen]
    rcases hR with ⟨_, hc | h2⟩ | ⟨_, c2, p2, R2, hp2, rfl⟩
    · have : (startCode c).length = 4 := by rw [hc]; rfl
      omega
    · omega
    · have := (startCode_length c2).1
      simp only [List.length_append]
      omega
  have hfind : findNextStartCode (pre ++ (startCode c ++ (p ++ R)))
      (pre.length + (startCode c).length) =
      pre.length + (startCode c).length + p.length := by
    rcases hR with ⟨rfl, _⟩ | ⟨hlast, c2, p2, R2, hp2, rfl⟩
    · have h := findNextStartCode_last (pre ++ startCode c) p hp1
      rw [List.append_nil, ← List.append_assoc, ← hAl, h, List.length_append]
    · have hhead : (startCode c2 ++ (p2 ++ R2)).getD 0 0 = 0 ∧
          (startCode c2 ++ (p2 ++ R2)).getD 1 0 = 0 := by
        cases c2 <;> simp [startCode]
      have hl4 : 4 ≤ (startCode c2 ++ (p2 ++ R2)).length := by
        have := (startCode_length c2).1
        have := List.length_pos.mpr hp2
        simp only [List.length_append]
        omega
      have e : (pre ++ startCode c) ++ (p ++ (startCode c2 ++ (p2 ++ R2))) =
          ((pre ++ startCode c) ++ p) ++ (startCode c2 ++ (p2 ++ R2)) := by
        simp only [List.append_assoc]
      have el : (pre ++ startCode c).length + p.length =
          ((pre ++ startCode c) ++ p).length := (List.length_append _ _).symm
      have hnext : isStartCode ((pre ++ startCode c) ++ (p ++ (startCode c2 ++ (p2 ++ R2))))
          ((pre ++ startCode c).length + p.length) = true := by
        rw [e, el]
        exact isStartCode_at_unit _ c2 p2 R2 hp2
      have h := findNextStartCode_payload (pre ++ startCode c) p
        (startCode c2 ++ (p2 ++ R2)) hp0 hp1 hlast hhead (Or.inr ⟨hl4, hnext⟩)
      rw [← hA, hAl] at h
      exact h
  have hsc := isStartCode_at_unit pre c p R hp0
  have hskip := skip_startCode pre c (p ++ R)
  have hbyte : (pre ++ (startCode c ++ (p ++ R))).getD
      (pre.length + (startCode c).length) 0 = p.getD 0 0 := by
    rw [hA, ← hAl]
    have := getD_append_add (pre ++ startCode c) (p ++ R) 0
    rw [Nat.add_zero] at this
    rw [this, List.getD_append p _ 0 0 hpl]
  rw [parseNALUnitsLoop, subSizeT_of_le _ _ h4, if_pos hguard, if_pos hsc]
  simp only [hskip, hfind, hbyte]
  rw [subSizeT_of_le _ _ (by omega)]
  have hsz : pre.length + (startCode c).length + p.length -
      (pre.length + (startCode c).length) = p.length := by omega
  rw [hsz, if_pos ⟨hpl, by rw [hlen]; omega⟩]

/-- With the cursor in the last 4 bytes of a buffer of at least 4 bytes the scan loop ends. -/
theorem parseNALUnitsLoop_at_end (d : List Nat) (fuel pos : Nat) (acc : List NALUnit)
    (h4 : 4 ≤ d.length) (hpos : d.length - 4 ≤ pos) :
    parseNALUnitsLoop d (fuel + 1) pos acc = some acc := by
  rw [parseNALUnitsLoop, subSizeT_of_le _ _ h4, if_neg (by omega)]

/-- A synthetic buffer of two runs of units is the concatenation of their buffers. -/
theorem annexB_append (us vs : List (Bool × List Nat)) :
    annexB (us ++ vs) = annexB us ++ annexB vs := by
  induction us with
  | nil => rfl
  | cons u rest ih =>
    have e : (u :: rest) ++ vs = u :: (rest ++ vs) := rfl
    rw [e]
    simp only [annexB, ih, List.append_assoc]

/-- The expected triples of two runs of units. -/
theorem expectedTriples_append (us vs : List (Bool × List Nat)) :
    ∀ off : Nat, expectedTriples off (us ++ vs) =
      expectedTriples off us ++ expectedTriples (off + (annexB us).length) vs := by
  induction us with
  | nil => intro off; simp [expectedTriples, annexB]
  | cons u rest ih =>
    intro off
    have e : (u :: rest) ++ vs = u :: (rest ++ vs) := rfl
    rw [e]
    simp only [expectedTriples, annexB, ih, List.cons_append, List.length_append]
    have e2 : off + (startCode u.1).length + u.2.length + (annexB rest).length =
        off + ((startCode u.1).length + (u.2.length + (annexB rest).length)) := by omega
    rw [e2]

/-- The scan loop over units that are followed by a further start code and payload: one
iteration and one pushed unit per unit, and the cursor ends on the further start code. -/
theorem parseNALUnitsLoop_units_then (us : List (Bool × List Nat)) :
    ∀ (pre R : List Nat) (fuel : Nat) (acc : List NALUnit),
      (∀ u ∈ us, u.2 ≠ [] ∧ ¬ [0, 0, 1] <:+: u.2 ∧ u.2.getLast? ≠ some 0) →
      (∃ (c2 : Bool) (p2 R2 : List Nat), p2 ≠ [] ∧ R = startCode c2 ++ (p2 ++ R2)) →
      ∃ r, parseNALUnitsLoop (pre ++ (annexB us ++ R)) (us.length + fuel) pre.length acc =
          parseNALUnitsLoop (pre ++ (annexB us ++ R)) fuel
            (pre.length + (annexB us).length) (acc ++ r) ∧
        r.map (fun u => (u.offset, u.size, u.type)) = expectedTriples pre.length us := by
  induction us with
  | nil =>
    intro pre R fuel acc _ _
    exact ⟨[], by simp [annexB], by simp [expectedTriples]⟩
  | cons u rest ih =>
    intro pre R fuel acc hall hR
    rcases u with ⟨c, p⟩
    obtain ⟨hp0, hp1, hp2⟩ := hall (c, p) (List.mem_cons_self _ _)
    have hdata : pre ++ (annexB ((c, p) :: rest) ++ R) =
        pre ++ (startCode c ++ (p ++ (annexB rest ++ R))) := by
      simp only [annexB, List.append_assoc]
    have hdata2 : pre ++ (startCode c ++ (p ++ (annexB rest ++ R))) =
        (pre ++ (startCode c ++ p)) ++ (annexB rest ++ R) := by
      simp only [List.append_assoc]
    have hpre2l : (pre ++ (startCode c ++ p)).length =
        pre.length + (startCode c).length + p.length := by
      simp only [List.length_append]
      omega
    have hnext : ∃ (c2 : Bool) (p2 R2 : List Nat), p2 ≠ [] ∧
        annexB rest ++ R = startCode c2 ++ (p2 ++ R2) := by
      cases rest with
      | nil => simpa [annexB] using hR
      | cons u2 rest2 =>
        rcases u2 with ⟨c2, p2⟩
        refine ⟨c2, p2, annexB rest2 ++ R,
          (hall (c2, p2) (List.mem_cons_of_mem _ (List.mem_cons_self _ _))).1, ?_⟩
        simp only [annexB, List.append_assoc]
    have hfu : ((c, p) :: rest).length + fuel = (rest.length + fuel) + 1 := by
      simp only [List.length_cons]
      omega
    have hstep := parseNALUnitsLoop_unit pre c p (annexB rest ++ R) (rest.length + fuel) acc
      hp0 hp1 (Or.inr ⟨hp2, hnext⟩)
    obtain ⟨r, hr, hmap⟩ := ih (pre ++ (startCode c ++ p)) R fuel
      (acc ++ [{ offset := pre.length + (startCode c).length, size := p.length,
                 type := p.getD 0 0 &&& 0x1F,
                 is_frame := decide (p.getD 0 0 &&& 0x1F = NAL_UNIT_TYPE_IDR ∨
                   p.getD 0 0 &&& 0x1F = NAL_UNIT_TYPE_NON_IDR) }])
      (fun u hu => hall u (List.mem_cons_of_mem _ hu)) hR
    rw [← hdata2, hpre2l] at hr
    have hal : (annexB ((c, p) :: rest)).length =
        (startCode c).length + p.length + (annexB rest).length := by
      simp only [annexB, List.length_append]
      omega
    refine ⟨{ offset := pre.length + (startCode c).length, size := p.length,
              type := p.getD 0 0 &&& 0x1F,
              is_frame := decide (p.getD 0 0 &&& 0x1F = NAL_UNIT_TYPE_IDR ∨
                p.getD 0 0 &&& 0x1F = NAL_UNIT_TYPE_NON_IDR) } :: r, ?_, ?_⟩
    · rw [hfu, hdata, hstep, hr, hal, List.append_assoc]
      have e : pre.length + (startCode c).length + p.length + (annexB rest).length =
          pre.length + ((startCode c).length + p.length + (annexB rest).length) := by omega
      rw [e]
      rfl
    · simp only [List.map_cons, expectedTriples, hmap, hpre2l]

/-- The scan of units followed by a final unit behind a 3-byte start code with one payload
byte: the loop ends on that start code, 4 bytes before the end, and the final unit is not
pushed. -/
theorem parseNALUnits_final_dropped (us : List (Bool × List Nat)) (x fuel : Nat)
    (hall : ∀ u ∈ us, u.2 ≠ [] ∧ ¬ [0, 0, 1] <:+: u.2 ∧ u.2.getLast? ≠ some 0)
    (hf : us.length < fuel) :
    ∃ units, parseNALUnits fuel (annexB (us ++ [(false, [x])])) = some units ∧
      units.map (fun u => (u.offset, u.size, u.type)) = expectedTriples 0 us := by
  obtain ⟨f, rfl⟩ : ∃ f, fuel = us.length + (f + 1) := ⟨fuel - us.length - 1, by omega⟩
  have hA : annexB (us ++ [(false, [x])]) = annexB us ++ (startCode false ++ ([x] ++ [])) := by
    rw [annexB_append]
    rfl
  obtain ⟨r, hr, hmap⟩ := parseNALUnitsLoop_units_then us [] (startCode false ++ ([x] ++ []))
    (f + 1) [] hall ⟨false, [x], [], by simp, rfl⟩
  simp only [List.nil_append, List.length_nil, Nat.zero_add] at hr hmap
  refine ⟨r, ?_, hmap⟩
  unfold parseNALUnits
  rw [hA, hr]
  apply parseNALUnitsLoop_at_end
  · simp [startCode]
  · simp [startCode]

/-- The scan of units followed by a final unit behind a 4-byte start code, or with at least 2
payload bytes: the final unit is pushed too. -/
theorem parseNALUnits_final_emitted (us : List (Bool × List Nat)) (c : Bool) (p : List Nat)
    (fuel : Nat)
    (hall : ∀ u ∈ us, u.2 ≠ [] ∧ ¬ [0, 0, 1] <:+: u.2 ∧ u.2.getLast? ≠ some 0)
    (hp0 : p ≠ []) (hp1 : ¬ [0, 0, 1] <:+: p) (hcp : c = true ∨ 2 ≤ p.length)
    (hf : us.length + 1 < fuel) :
    ∃ units, parseNALUnits fuel (annexB (us ++ [(c, p)])) = some units ∧
      units.map (fun u => (u.offset, u.size, u.type)) = expectedTriples 0 (us ++ [(c, p)]) := by
  obtain ⟨f, rfl⟩ : ∃ f, fuel = us.length + ((f + 1) + 1) := ⟨fuel - us.length - 2, by omega⟩
  have hA : annexB (us ++ [(c, p)]) = annexB us ++ (startCode c ++ (p ++ [])) := by
    rw [annexB_append]
    rfl
  obtain ⟨r, hr, hmap⟩ := parseNALUnitsLoop_units_then us [] (startCode c ++ (p ++ []))
    ((f + 1) + 1) [] hall ⟨c, p, [], hp0, rfl⟩
  simp only [List.nil_append, List.length_nil, Nat.zero_add] at hr hmap
  have hstep := parseNALUnitsLoop_unit (annexB us) c p [] (f + 1) r hp0 hp1 (Or.inl ⟨rfl, hcp⟩)
  have hs := startCode_length c
  have hpl := List.length_pos.mpr hp0
  have hlen : (annexB us ++ (startCode c ++ (p ++ []))).length =
      (annexB us).length + (startCode c).length + p.length := by
    simp only [List.length_append, List.length_nil]
    omega
  refine ⟨r ++ [{ offset := (annexB us).length + (startCode c).length, size := p.length,
                  type := p.getD 0 0 &&& 0x1F,
                  is_frame := decide (p.getD 0 0 &&& 0x1F = NAL_UNIT_TYPE_IDR ∨
                    p.getD 0 0 &&& 0x1F = NAL_UNIT_TYPE_NON_IDR) }], ?_, ?_⟩
  · unfold parseNALUnits
    rw [hA, hr, hstep]
    apply parseNALUnitsLoop_at_end
    · rw [hlen]; omega
    · rw [hlen]; omega
  · rw [expectedTriples_append, List.map_append, hmap]
    simp [expectedTriples]

/-- On any buffer that ends with a byte other than 00, the start code `00 00 01` and one more
byte, every unit pushed by the scan loop ends at or before that start code: the final byte
belongs to no unit. -/
theorem parseNALUnitsLoop_before_final_code (d : List Nat) (h5 : 5 ≤ d.length)
    (hb : d.getD (d.length - 5) 0 ≠ 0) (h0 : d.getD (d.length - 4) 0 = 0)
    (h1 : d.getD (d.length - 3) 0 = 0) (h2 : d.getD (d.length - 2) 0 = 1) (fuel : Nat) :
    ∀ (pos : Nat) (acc r : List NALUnit), pos ≤ d.length - 4 →
      parseNALUnitsLoop d fuel pos acc = some r →
      ∃ new, r = acc ++ new ∧ ∀ u ∈ new, u.offset + u.size ≤ d.length - 4 := by
  have hfinal : isStartCode d (d.length - 4) = true := by
    rw [isStartCode_iff]
    have e1 : d.length - 4 + 1 = d.length - 3 := by omega
    have e2 : d.length - 4 + 2 = d.length - 2 := by omega
    rw [e1, e2]
    exact ⟨by omega, h0, h1, Or.inl h2⟩
  induction fuel with
  | zero =>
    intro pos acc r _ h
    simp [parseNALUnitsLoop] at h
  | succ fuel ih =>
    intro pos acc r hpos h
    rw [parseNALUnitsLoop, subSizeT_of_le _ _ (by omega)] at h
    by_cases hg : pos < d.length - 4
    · rw [if_pos hg] at h
      by_cases hsc : isStartCode d pos = true
      · rw [if_pos hsc] at h
        obtain ⟨_, ha, hb1, hc⟩ := (isStartCode_iff d pos).mp hsc
        have hp1 : (if d.getD (pos + 2) 0 = 0x01 then pos + 3 else pos + 4) ≤
            d.length - 4 := by
          have hcases : pos + 8 ≤ d.length ∨ pos + 7 = d.length ∨ pos + 6 = d.length ∨
              pos + 5 = d.length := by omega
          rcases hcases with h8 | h7 | h6 | h5'
          · split <;> omega
          · have e : d.length - 4 = pos + 3 := by omega
            rw [e] at h0
            rcases hc with hc | ⟨_, hc⟩
            · rw [if_pos hc]; omega
            · rw [h0] at hc; exact absurd hc (by decide)
          · have e : d.length - 4 = pos + 2 := by omega
            have e3 : d.length - 3 = pos + 3 := by omega
            rw [e] at h0
            rw [e3] at h1
            rcases hc with hc | ⟨_, hc⟩
            · rw [h0] at hc; exact absurd hc (by decide)
            · rw [h1] at hc; exact absurd hc (by decide)
          · have e : d.length - 5 = pos := by omega
            rw [e] at hb
            exact absurd ha hb
        generalize (if d.getD (pos + 2) 0 = 0x01 then pos + 3 else pos + 4) = p1 at h hp1
        have hnext : p1 ≤ findNextStartCode d p1 ∧ findNextStartCode d p1 ≤ d.length - 4 := by
          unfold findNextStartCode
          rcases findNextStartCodeLoop_spec d (subSizeT d.length 3 - p1) p1 with
            ⟨_, hall⟩ | ⟨_, hge, _, hall⟩
          · have := hall (d.length - 4) hp1
              (by rw [subSizeT_of_le _ _ (by omega)]; omega)
            rw [hfinal] at this
            exact absurd this (by decide)
          · refine ⟨hge, ?_⟩
            by_contra hcon
            have := hall (d.length - 4) hp1 (by omega)
            rw [hfinal] at this
            exact absurd this (by decide)
        simp only at h
        generalize findNextStartCode d p1 = next at h hnext
        rw [subSizeT_of_le _ _ hnext.1] at h
        obtain ⟨new, hnew, hall⟩ := ih _ _ _ hnext.2 h
        by_cases hcond : next - p1 > 0 ∧ p1 < d.length
        · rw [if_pos hcond] at hnew
          refine ⟨_ :: new, by rw [hnew, List.append_assoc]; rfl, ?_⟩
          intro u hu
          rcases List.mem_cons.mp hu with rfl | hu
          · show p1 + (next - p1) ≤ d.length - 4
            omega
          · exact hall u hu
        · rw [if_neg hcond] at hnew
          exact ⟨new, hnew, hall⟩
      · rw [if_neg hsc] at h
        exact ih _ _ _ (by omega) h
    · rw [if_neg hg] at h
      simp only [Option.some.injEq] at h
      exact ⟨[], by simp [h], by simp⟩

/-! ## The three Annex-B scanners side by side -/

/-- The reader's `isStartCode` is the injector's. -/
theorem reader_isStartCode_eq (d : List Nat) (j : Nat) :
    H264TimestampReader.isStartCode d j = isStartCode d j := rfl

/-- The reader's search loop is the injector's. -/
theorem reader_findNextStartCodeLoop_eq (d : List Nat) (n : Nat) :
    ∀ i : Nat,
      H264TimestampReader.findNextStartCodeLoop d n i = findNextStartCodeLoop d n i := by
  induction n with
  | zero => intro i; rfl
  | succ n ih =>
    intro i
    rw [H264TimestampReader.findNextStartCodeLoop, findNextStartCodeLoop, ih,
      reader_isStartCode_eq]

/-- The reader's `findNextStartCode` is the injector's. -/
theorem reader_findNextStartCode_eq (d : List Nat) (start : Nat) :
    H264TimestampReader.findNextStartCode d start = findNextStartCode d start := by
  unfold H264TimestampReader.findNextStartCode findNextStartCode
  exact reader_findNextStartCodeLoop_eq d _ start

/-- The units pushed by the injector's loop do not depend on the units already there. -/
theorem parseNALUnitsLoop_acc (d : List Nat) (fuel : Nat) :
    ∀ (pos : Nat) (acc : List NALUnit),
      parseNALUnitsLoop d fuel pos acc =
        (parseNALUnitsLoop d fuel pos []).map (fun new => acc ++ new) := by
  induction fuel with
  | zero => intro pos acc; rfl
  | succ fuel ih =>
    intro pos acc
    rw [parseNALUnitsLoop, parseNALUnitsLoop]
    by_cases hg : pos < subSizeT d.length 4
    · rw [if_pos hg, if_pos hg]
      by_cases hsc : isStartCode d pos = true
      · rw [if_pos hsc, if_pos hsc]
        simp only
        generalize (if d.getD (pos + 2) 0 = 0x01 then pos + 3 else pos + 4) = p1
        generalize findNextStartCode d p1 = next
        by_cases hc : subSizeT next p1 > 0 ∧ p1 < d.length
        · rw [if_pos hc, if_pos hc, ih next (acc ++ _), ih next ([] ++ _), Option.map_map]
          congr 1
          funext new
          simp
        · rw [if_neg hc, if_neg hc]
          exact ih next acc
      · rw [if_neg hsc, if_neg hsc]
        exact ih (pos + 1) acc
    · rw [if_neg hg, if_neg hg]
      simp

/-- A non-empty slice of the buffer: it has a first byte, the byte of the buffer at its
offset. -/
theorem slice_head (d : List Nat) (p1 sz : Nat) (hsz : 0 < sz) (hp : p1 < d.length) :
    ((d.drop p1).take sz).length ≠ 0 ∧ ((d.drop p1).take sz).getD 0 0 = d.getD p1 0 := by
  constructor
  · simp only [List.length_take, List.length_drop]
    omega
  · have h1 : 0 < ((d.drop p1).take sz).length := by
      simp only [List.length_take, List.length_drop]
      omega
    rw [List.getD_eq_getElem _ _ h1, List.getD_eq_getElem _ _ hp]
    simp

/-- Advancing the checker's report by no unit changes nothing. -/
theorem checkAnnexB_advance_nil (d : List Nat) (report : CheckAnnexB.ScanReport) :
    CheckAnnexB.advance d report [] = report := by
  simp [CheckAnnexB.advance]

/-- Advancing the checker's report by a unit and then by others. -/
theorem checkAnnexB_advance_cons (d : List Nat) (report : CheckAnnexB.ScanReport)
    (u : NALUnit) (new : List NALUnit) :
    CheckAnnexB.advance d report (u :: new) =
      CheckAnnexB.advance d (CheckAnnexB.advance d report [u]) new := by
  by_cases h6 : u.type = 6 <;> by_cases hf : u.is_frame = true <;>
    simp [CheckAnnexB.advance, List.countP_cons, List.filter_cons, h6, hf, Nat.add_assoc,
      Nat.add_comm]

/-- The checker's loop visits what the injector's loop pushes: its report is the report it
started with, advanced by the units that `parseNALUnits` pushes from the same cursor. -/
theorem checkAnnexB_scanLoop_eq (d : List Nat) (fuel : Nat) :
    ∀ (pos : Nat) (report : CheckAnnexB.ScanReport),
      CheckAnnexB.scanLoop d fuel pos report =
        (parseNALUnitsLoop d fuel pos []).map (CheckAnnexB.advance d report) := by
  induction fuel with
  | zero => intro pos report; rfl
  | succ fuel ih =>
    intro pos report
    rw [CheckAnnexB.scanLoop, parseNALUnitsLoop, checkAnnexB_isStartCode_eq]
    by_cases hg : pos < subSizeT d.length 4
    · rw [if_pos hg, if_pos hg]
      by_cases hsc : isStartCode d pos = true
      · rw [if_pos hsc, if_pos hsc]
        simp only [checkAnnexB_findNextStartCode_eq]
        generalize (if d.getD (pos + 2) 0 = 0x01 then pos + 3 else pos + 4) = p1
        generalize findNextStartCode d p1 = next
        by_cases hc : subSizeT next p1 > 0 ∧ p1 < d.length
        · rw [if_pos hc, if_pos hc, ih, parseNALUnitsLoop_acc d fuel next ([] ++ _),
            Option.map_map]
          congr 1
          funext new
          simp only [Function.comp, List.nil_append, List.singleton_append]
          rw [checkAnnexB_advance_cons]
          congr 1
          generalize d.getD p1 0 &&& 0x1F = ty
          by_cases h6 : ty = 6
          · subst h6
            rw [if_pos rfl]
            simp [CheckAnnexB.advance, List.countP_cons, NAL_UNIT_TYPE_IDR,
              NAL_UNIT_TYPE_NON_IDR]
          · rw [if_neg h6]
            by_cases hfr : ty = 1 ∨ ty = 5
            · rw [if_pos hfr]
              rcases hfr with rfl | rfl <;>
                simp [CheckAnnexB.advance, List.countP_cons, NAL_UNIT_TYPE_IDR,
                  NAL_UNIT_TYPE_NON_IDR]
            · rw [if_neg hfr]
              have h1 : ty ≠ 1 := fun h => hfr (Or.inl h)
              have h5 : ty ≠ 5 := fun h => hfr (Or.inr h)
              simp [CheckAnnexB.advance, List.countP_cons, NAL_UNIT_TYPE_IDR,
                NAL_UNIT_TYPE_NON_IDR, h6, h1, h5]
        · rw [if_neg hc, if_neg hc]
          exact ih next report
      · rw [if_neg hsc, if_neg hsc]
        exact ih (pos + 1) report
    · rw [if_neg hg, if_neg hg]
      simp [checkAnnexB_advance_nil]

/-- The reader's loop against the injector's loop from the same cursor: the reader returns,
with its report advanced by the units pushed, when the injector's loop returns and pushes no
unit of type 6; on the first unit of type 6 its call of `extractTimestampFromSEI` does not
return. -/
theorem reader_loop_eq (d : List Nat) (depth fuel : Nat) :
    ∀ (pos : Nat) (report : H264TimestampReader.ReadReport),
      H264TimestampReader.extractTimestampsLoop d depth fuel pos report =
        H264TimestampReader.expectedOutcome report (parseNALUnitsLoop d fuel pos []) := by
  induction fuel with
  | zero => intro pos report; rfl
  | succ fuel ih =>
    intro pos report
    rw [H264TimestampReader.extractTimestampsLoop, parseNALUnitsLoop, reader_isStartCode_eq]
    by_cases hg : pos < subSizeT d.length 4
    · rw [if_pos hg, if_pos hg]
      by_cases hsc : isStartCode d pos = true
      · rw [if_pos hsc, if_pos hsc]
        simp only [reader_findNextStartCode_eq]
        generalize (if d.getD (pos + 2) 0 = 0x01 then pos + 3 else pos + 4) = p1
        generalize findNextStartCode d p1 = next
        by_cases hc : subSizeT next p1 > 0 ∧ p1 < d.length
        · rw [if_pos hc, if_pos hc, parseNALUnitsLoop_acc d fuel next ([] ++ _)]
          by_cases h6 : d.getD p1 0 &&& 0x1F = 6
          · rw [if_pos h6]
            obtain ⟨hl, hh⟩ := slice_head d p1 (subSizeT next p1) hc.1 hc.2
            rw [(sei_calls_unfinished _ hl (by rw [hh]; exact h6) depth).1]
            cases parseNALUnitsLoop d fuel next [] with
            | none => rfl
            | some new =>
              simp only [Option.map_some', List.nil_append, List.singleton_append,
                H264TimestampReader.expectedOutcome, List.all_cons, h6]
              simp
          · rw [if_neg h6, ih]
            generalize d.getD p1 0 &&& 0x1F = ty at h6
            cases parseNALUnitsLoop d fuel next [] with
            | none => rfl
            | some new =>
              have e : new.length + (report.nal_count + 1) =
                  report.nal_count + (new.length + 1) := by omega
              simp [H264TimestampReader.expectedOutcome, H264TimestampReader.advance, h6,
                Nat.add_assoc, Nat.add_comm, e]
        · rw [if_neg hc, if_neg hc]
          exact ih next report
      · rw [if_neg hsc, if_neg hsc]
        exact ih (pos + 1) report
    · rw [if_neg hg, if_neg hg]
      simp [H264TimestampReader.expectedOutcome, H264TimestampReader.advance]

/-- Two runs of the injector's scan that both return, return the same units. -/
theorem parseNALUnits_deterministic (d : List Nat) (f1 f2 : Nat) (r1 r2 : List NALUnit)
    (h1 : parseNALUnits f1 d = some r1) (h2 : parseNALUnits f2 d = some r2) : r1 = r2 := by
  unfold parseNALUnits at h1 h2
  rcases Nat.le_total f1 f2 with hle | hle
  · obtain ⟨k, rfl⟩ := Nat.exists_eq_add_of_le hle
    have := parseNALUnitsLoop_mono d f1 0 [] r1 k h1
    rw [this] at h2
    exact Option.some.inj h2
  · obtain ⟨k, rfl⟩ := Nat.exists_eq_add_of_le hle
    have := parseNALUnitsLoop_mono d f2 0 [] r2 k h2
    rw [this] at h1
    exact (Option.some.inj h1).symm

/-! ## Claims -/

/-- Claim C1: for every 64-bit timestamp `t`, the simple parser applied to the simple unit
built for `t` returns `t`. -/
theorem C1_simple_roundtrip (t : Nat) (ht : t < 2 ^ 64) :
    extractSimpleTimestampFromSEI (createSimpleTimestampSEI t) = t :=
  extractSimple_createSimple t ht

/-- Witness of C1 at the timestamp of src/test_simple_sei.cpp. -/
theorem C1_simple_roundtrip_witness :
    1751959747173000 < 2 ^ 64 ∧
      extractSimpleTimestampFromSEI (createSimpleTimestampSEI 1751959747173000) =
        1751959747173000 :=
  ⟨by norm_num, C1_simple_roundtrip 1751959747173000 (by norm_num)⟩

/-- Claim C2: `createSimpleTimestampSEI t` is exactly the 12 bytes `06 01 08`, the 8 bytes of
`t` most significant first, and `80`; the timestamp bytes are copied as they are, so no
escape byte is inserted for any `t`. -/
theorem C2_simple_layout (t : Nat) :
    createSimpleTimestampSEI t =
      [0x06, 0x01, 0x08,
       t / 256 ^ 7 % 256, t / 256 ^ 6 % 256, t / 256 ^ 5 % 256, t / 256 ^ 4 % 256,
       t / 256 ^ 3 % 256, t / 256 ^ 2 % 256, t / 256 % 256, t % 256,
       0x80] ∧
    (createSimpleTimestampSEI t).length = 12 := by
  rw [createSimpleTimestampSEI_eq]
  norm_num

/-- Claim C3: on a well-formed byte vector `n`, `extractSimpleTimestampFromSEI` returns the
big-endian value of `n[3..10]` when `n` has at least 12 bytes, `(n[0] & 0x1F) = 6`, `n[1] = 1`
and `n[2] = 8`, and 0 in every other case; a vector `m` that agrees with `n` on the low five
bits of byte 0 and on bytes 1..10, and is on the same side of the 12-byte bound, gives the
same result, whatever its bits 5-7 of byte 0 and its bytes from index 11 on. -/
theorem C3_simple_parse (n m : List Nat) (hn : IsBytes n) (hm : IsBytes m)
    (hlen : 12 ≤ m.length ↔ 12 ≤ n.length)
    (h0 : m.getD 0 0 &&& 0x1F = n.getD 0 0 &&& 0x1F)
    (hmid : ∀ i, 1 ≤ i → i ≤ 10 → m.getD i 0 = n.getD i 0) :
    extractSimpleTimestampFromSEI n =
      (if 12 ≤ n.length ∧ n.getD 0 0 &&& 0x1F = 6 ∧ n.getD 1 0 = 1 ∧ n.getD 2 0 = 8 then
        n.getD 3 0 * 256 ^ 7 + n.getD 4 0 * 256 ^ 6 + n.getD 5 0 * 256 ^ 5 +
        n.getD 6 0 * 256 ^ 4 + n.getD 7 0 * 256 ^ 3 + n.getD 8 0 * 256 ^ 2 +
        n.getD 9 0 * 256 + n.getD 10 0
      else 0) ∧
    extractSimpleTimestampFromSEI m = extractSimpleTimestampFromSEI n := by
  refine ⟨extractSimple_cases n hn, ?_⟩
  rw [extractSimple_cases n hn, extractSimple_cases m hm]
  simp only [h0, hlen,
    hmid 1 (by omega) (by omega), hmid 2 (by omega) (by omega), hmid 3 (by omega) (by omega),
    hmid 4 (by omega) (by omega), hmid 5 (by omega) (by omega), hmid 6 (by omega) (by omega),
    hmid 7 (by omega) (by omega), hmid 8 (by omega) (by omega), hmid 9 (by omega) (by omega),
    hmid 10 (by omega) (by omega)]

/-- Witness of C3: a 12-byte unit carrying 0x0102030405060708, against a 14-byte unit with
bits 5-7 of byte 0 set and other bytes from index 11 on. -/
theorem C3_simple_parse_witness :
    IsBytes [0x06, 1, 8, 1, 2, 3, 4, 5, 6, 7, 8, 0x80] ∧
    IsBytes [0xE6, 1, 8, 1, 2, 3, 4, 5, 6, 7, 8, 0x00, 0xFF, 0x80] ∧
    extractSimpleTimestampFromSEI [0x06, 1, 8, 1, 2, 3, 4, 5, 6, 7, 8, 0x80] =
      0x0102030405060708 ∧
    extractSimpleTimestampFromSEI [0xE6, 1, 8, 1, 2, 3, 4, 5, 6, 7, 8, 0x00, 0xFF, 0x80] =
      extractSimpleTimestampFromSEI [0x06, 1, 8, 1, 2, 3, 4, 5, 6, 7, 8, 0x80] := by
  have h := C3_simple_parse [0x06, 1, 8, 1, 2, 3, 4, 5, 6, 7, 8, 0x80]
    [0xE6, 1, 8, 1, 2, 3, 4, 5, 6, 7, 8, 0x00, 0xFF, 0x80] (by decide) (by decide)
    (by decide) (by decide)
    (by intro i h1 h2; interval_cases i <;> rfl)
  exact ⟨by decide, by decide, h.1.trans (by decide), h.2⟩

/-- Counterexample to C4 as stated: the result for the unit built from timestamp 0 is equal
to the result for the empty buffer and to the result for a 12-byte unit of NAL type 7. -/
theorem C4_zero_conflated :
    extractSimpleTimestampFromSEI (createSimpleTimestampSEI 0) =
      extractSimpleTimestampFromSEI [] ∧
    extractSimpleTimestampFromSEI (createSimpleTimestampSEI 0) =
      extractSimpleTimestampFromSEI [0x07, 1, 8, 0, 0, 0, 0, 0, 0, 0, 1, 0x80] := by
  decide

/-- Claim C4, amended: a buffer that fails one of the guards of the simple parser gives the
result 0 ("or 0 if not a simple timestamp SEI"), and the result for the unit built from a
64-bit timestamp `t` is equal to it exactly when `t = 0`: only a non-zero timestamp is
distinguishable from "absent". -/
theorem C4_absent_is_zero (t : Nat) (n : List Nat) (ht : t < 2 ^ 64)
    (hn : n.length < 12 ∨ n.getD 0 0 &&& 0x1F ≠ 6 ∨ n.getD 1 0 ≠ 1 ∨ n.getD 2 0 ≠ 8) :
    extractSimpleTimestampFromSEI n = 0 ∧
    (extractSimpleTimestampFromSEI (createSimpleTimestampSEI t) =
      extractSimpleTimestampFromSEI n ↔ t = 0) := by
  rw [extractSimple_absent n hn, extractSimple_createSimple t ht]
  exact ⟨rfl, Iff.rfl⟩

/-- Witness of C4 (amended) at timestamp 5 and the empty buffer. -/
theorem C4_absent_is_zero_witness :
    extractSimpleTimestampFromSEI [] = 0 ∧
    (extractSimpleTimestampFromSEI (createSimpleTimestampSEI 5) =
      extractSimpleTimestampFromSEI [] ↔ 5 = 0) :=
  C4_absent_is_zero 5 [] (by norm_num) (Or.inl (by decide))

/-- Claim C5, evaluated on the code: for every timestamp `t` the call
`extractTimestampFromSEI (createTimestampSEI t)` does not return, whatever depth of nested
calls is allowed; and for `t = 1` lines 89-138 alone, run on the unit, give 0x0000000300030003
instead of 1. -/
theorem C5_extended_roundtrip_fails (t depth : Nat) :
    extractTimestampFromSEI depth (createTimestampSEI t) = Outcome.unfinished ∧
    extractTimestampBody (createTimestampSEI 1) = some 0x0000000300030003 := by
  constructor
  · have h := createUserDataSEI_head TIMESTAMP_UUID (timestampToBytes t)
    exact (sei_calls_unfinished _ h.1 h.2 depth).1
  · have hp : readRBSP ((createTimestampSEI 1).drop 1) =
        [0x05] ++ List.replicate 0 0xFF ++ [24] ++ TIMESTAMP_UUID ++
          [0, 0, 0, 3, 0, 3, 0, 3, 0, 3, 0, 3, 1] := by decide
    rw [extractTimestampBody_shape (createTimestampSEI 1) 0 24 TIMESTAMP_UUID
      [0, 0, 0, 3, 0, 3, 0, 3, 0, 3, 0, 3, 1] (by decide) hp (by decide) (by decide)
      (by decide)]
    decide

/-- Claim C6, evaluated on the code: for every non-empty unit `n` whose first byte has low
five bits 6, neither `extractTimestampFromSEI n` nor `isTimestampSEI n` returns, whatever
depth of nested calls is allowed: each call reaches the other on the same unit. -/
theorem C6_calls_never_return (n : List Nat) (depth : Nat) (hne : n.length ≠ 0)
    (h6 : n.getD 0 0 &&& 0x1F = 6) :
    extractTimestampFromSEI depth n = Outcome.unfinished ∧
    isTimestampSEI depth n = Outcome.unfinished :=
  sei_calls_unfinished n hne h6 depth

/-- Witness of C6 on the one-byte unit `06`, depth 1000. -/
theorem C6_calls_never_return_witness :
    [0x06].length ≠ 0 ∧ ([0x06] : List Nat).getD 0 0 &&& 0x1F = 6 ∧
    extractTimestampFromSEI 1000 [0x06] = Outcome.unfinished ∧
    isTimestampSEI 1000 [0x06] = Outcome.unfinished :=
  ⟨by decide, by decide, C6_calls_never_return [0x06] 1000 (by decide) (by decide)⟩

/-- Claim C7: `createUserDataSEI uuid data` is `06`, then `writeRBSP` of `05 ++ S ++ uuid ++
data`, then `80`, where `n = 16 + |data|` and `S` is `n / 255` bytes FF followed by the byte
`n mod 255`. -/
theorem C7_user_data_layout (uuid data : List Nat) :
    createUserDataSEI uuid data =
      [0x06] ++
        writeRBSP ([0x05] ++
          (List.replicate ((16 + data.length) / 255) 0xFF ++ [(16 + data.length) % 255]) ++
          uuid ++ data) ++
        [0x80] :=
  createUserDataSEI_eq uuid data

/-- Counterexample to C8 as stated: a type-6 unit of the extended shape with another tag and
one with the recognized UUID carrying eight 00 bytes get the same outcome from
`extractTimestampFromSEI` at every depth of nested calls, and lines 89-138 give the same
value, 0, on both. -/
theorem C8_unrecognized_not_distinguished :
    (∀ depth, extractTimestampFromSEI depth unitWithOtherTag =
      extractTimestampFromSEI depth unitWithZeroTimestamp) ∧
    extractTimestampBody unitWithOtherTag = some 0 ∧
    extractTimestampBody unitWithZeroTimestamp = some 0 := by
  refine ⟨?_, ?_, ?_⟩
  · intro depth
    rw [(sei_calls_unfinished unitWithOtherTag (by decide) (by decide) depth).1,
      (sei_calls_unfinished unitWithZeroTimestamp (by decide) (by decide) depth).1]
  · have hp : readRBSP (unitWithOtherTag.drop 1) =
        [0x05] ++ List.replicate 0 0xFF ++ [0x18] ++ List.replicate 16 0x41 ++
          [1, 2, 3, 4, 5, 6, 7, 8] := by decide
    rw [extractTimestampBody_shape unitWithOtherTag 0 0x18 (List.replicate 16 0x41)
      [1, 2, 3, 4, 5, 6, 7, 8] (by decide) hp (by decide) (by decide) (by decide)]
    decide
  · have hp : readRBSP (unitWithZeroTimestamp.drop 1) =
        [0x05] ++ List.replicate 0 0xFF ++ [0x18] ++ TIMESTAMP_UUID ++
          [0, 0, 0, 0, 0, 0, 0, 0] := by decide
    rw [extractTimestampBody_shape unitWithZeroTimestamp 0 0x18 TIMESTAMP_UUID
      [0, 0, 0, 0, 0, 0, 0, 0] (by decide) hp (by decide) (by decide) (by decide)]
    decide

/-- Claim C8, amended: for a type-6 unit `n` whose decoded payload is `05`, a size field (`k`
bytes FF and a byte `s` other than FF), 16 tag bytes other than the recognized UUID and at
least 8 more bytes, lines 89-138 of `extractTimestampFromSEI` give 0, the documented "or 0 if
not a timestamp SEI"; they give the same 0 for a type-6 unit `n0` of that shape with the
recognized UUID followed by eight 00 bytes. -/
theorem C8_unrecognized_is_zero (n n0 : List Nat) (k s k0 s0 : Nat)
    (tag rest rest0 : List Nat)
    (h6 : n.getD 0 0 &&& 0x1F = 6)
    (hp : readRBSP (n.drop 1) = [0x05] ++ List.replicate k 0xFF ++ [s] ++ tag ++ rest)
    (hs : s ≠ 0xFF) (htag : tag.length = 16) (hrest : 8 ≤ rest.length)
    (hne : tag ≠ TIMESTAMP_UUID)
    (h60 : n0.getD 0 0 &&& 0x1F = 6)
    (hp0 : readRBSP (n0.drop 1) =
      [0x05] ++ List.replicate k0 0xFF ++ [s0] ++ TIMESTAMP_UUID ++
        ([0x00, 0x00, 0x00, 0x00, 0x00, 0x00, 0x00, 0x00] ++ rest0))
    (hs0 : s0 ≠ 0xFF) :
    extractTimestampBody n = some 0 ∧
    extractTimestampBody n0 = extractTimestampBody n := by
  have hb : extractTimestampBody n = some 0 := by
    rw [extractTimestampBody_shape n k s tag rest (length_ne_zero_of_type6 n h6) hp hs htag
      hrest, if_neg hne]
  have hb0 : extractTimestampBody n0 = some 0 := by
    rw [extractTimestampBody_shape n0 k0 s0 TIMESTAMP_UUID
      ([0x00, 0x00, 0x00, 0x00, 0x00, 0x00, 0x00, 0x00] ++ rest0)
      (length_ne_zero_of_type6 n0 h60) hp0 hs0 (by decide) (by simp), if_pos rfl]
    have ht : List.take 8 ([0x00, 0x00, 0x00, 0x00, 0x00, 0x00, 0x00, 0x00] ++ rest0) =
        [0x00, 0x00, 0x00, 0x00, 0x00, 0x00, 0x00, 0x00] := by
      simp
    rw [ht]
    decide
  exact ⟨hb, hb0.trans hb.symm⟩

/-- Witness of C8 (amended) on the two sample units. -/
theorem C8_unrecognized_is_zero_witness :
    unitWithOtherTag.getD 0 0 &&& 0x1F = 6 ∧
    unitWithZeroTimestamp.getD 0 0 &&& 0x1F = 6 ∧
    List.replicate 16 0x41 ≠ TIMESTAMP_UUID ∧
    extractTimestampBody unitWithOtherTag = some 0 ∧
    extractTimestampBody unitWithZeroTimestamp = extractTimestampBody unitWithOtherTag :=
  ⟨by decide, by decide, by decide,
    C8_unrecognized_is_zero unitWithOtherTag unitWithZeroTimestamp 0 0x18 0 0x18
      (List.replicate 16 0x41) [1, 2, 3, 4, 5, 6, 7, 8] []
      (by decide) (by decide) (by decide) (by decide) (by decide) (by decide)
      (by decide) (by decide) (by decide)⟩

/-- Counterexample to C9 as stated: a source ending in 80 loses that byte, and the source
`00 00 00 00` comes back as `00 00 00 03 00`. -/
theorem C9_roundtrip_fails :
    readRBSP (writeRBSP [0x80]) = [] ∧
    readRBSP (writeRBSP [0x00, 0x00, 0x00, 0x00]) = [0x00, 0x00, 0x00, 0x03, 0x00] := by
  decide

/-- Claim C9, amended: for every source `x` without four consecutive bytes `00 00 00 b`,
`b ≤ 03`, decoding the encoding of `x` gives `x` when `x` does not end in 80, and `x` without
its last byte when it does (the decoder takes a final 80 for the stop bit). -/
theorem C9_roundtrip_amended (x : List Nat)
    (h : ∀ b, b ≤ 3 → ¬ [0x00, 0x00, 0x00, b] <:+: x) :
    readRBSP (writeRBSP x) = if x.getLast? = some 0x80 then x.dropLast else x :=
  readRBSP_writeRBSP x h

/-- Witness of C9 (amended): a source with the run `00 00 01` that ends in 80. -/
theorem C9_roundtrip_amended_witness :
    (∀ b, b ≤ 3 → ¬ [0x00, 0x00, 0x00, b] <:+: [0x05, 0x00, 0x00, 0x01, 0x80]) ∧
    readRBSP (writeRBSP [0x05, 0x00, 0x00, 0x01, 0x80]) = [0x05, 0x00, 0x00, 0x01] := by
  have hx : ∀ b, b ≤ 3 → ¬ [0x00, 0x00, 0x00, b] <:+: [0x05, 0x00, 0x00, 0x01, 0x80] := by
    intro b _ hin
    simp [List.infix_cons_iff] at hin
  exact ⟨hx, (C9_roundtrip_amended _ hx).trans (by decide)⟩

/-- Counterexample to C10 as stated: the encoding of `00 00 00` is `00 00 03 00`, whose first
three bytes are the window `00 00 03`. -/
theorem C10_window_00_00_03 :
    writeRBSP [0x00, 0x00, 0x00] = [0x00, 0x00, 0x03, 0x00] ∧
    [0x00, 0x00, 0x03] <:+: writeRBSP [0x00, 0x00, 0x00] := by
  refine ⟨by decide, ?_⟩
  have e : writeRBSP [0x00, 0x00, 0x00] = [0x00, 0x00, 0x03, 0x00] := by decide
  rw [e]
  exact ⟨[], [0x00], rfl⟩

/-- Claim C10, amended: for every source `x`, no three consecutive bytes of `writeRBSP x` are
`00 00 00`, `00 00 01` or `00 00 02`. -/
theorem C10_no_start_code_window (x : List Nat) :
    ¬ [0x00, 0x00, 0x00] <:+: writeRBSP x ∧
    ¬ [0x00, 0x00, 0x01] <:+: writeRBSP x ∧
    ¬ [0x00, 0x00, 0x02] <:+: writeRBSP x :=
  ⟨writeRBSP_no_window 0 (by omega) x, writeRBSP_no_window 1 (by omega) x,
    writeRBSP_no_window 2 (by omega) x⟩

/-- Claim C11: for every 64-bit `t`, `bytesToTimestamp (timestampToBytes t) = t`, and for
every vector `b` of exactly 8 bytes, `timestampToBytes (bytesToTimestamp b) = b`. -/
theorem C11_timestamp_bytes_inverse (t : Nat) (b : List Nat) (ht : t < 2 ^ 64)
    (hb : IsBytes b) (hlen : b.length = 8) :
    bytesToTimestamp (timestampToBytes t) = t ∧
    timestampToBytes (bytesToTimestamp b) = b := by
  constructor
  · rw [timestampToBytes_eq, bytesToTimestamp_eight]
    · omega
    · intro x hx
      simp only [List.mem_cons, List.mem_singleton, List.not_mem_nil, or_false] at hx
      omega
  · obtain ⟨b0, b1, b2, b3, b4, b5, b6, b7, rfl⟩ := eq_of_length_eight b hlen
    rw [bytesToTimestamp_eight _ _ _ _ _ _ _ _ hb, timestampToBytes_eq]
    have h0 := hb b0 (by simp)
    have h1 := hb b1 (by simp)
    have h2 := hb b2 (by simp)
    have h3 := hb b3 (by simp)
    have h4 := hb b4 (by simp)
    have h5 := hb b5 (by simp)
    have h6 := hb b6 (by simp)
    have h7 := hb b7 (by simp)
    simp only [List.cons.injEq, and_true]
    refine ⟨?_, ?_, ?_, ?_, ?_, ?_, ?_, ?_⟩ <;> omega

/-- Witness of C11 at the timestamp of src/test_simple_sei.cpp and the bytes 01..08. -/
theorem C11_timestamp_bytes_inverse_witness :
    bytesToTimestamp (timestampToBytes 1751959747173000) = 1751959747173000 ∧
    timestampToBytes (bytesToTimestamp [1, 2, 3, 4, 5, 6, 7, 8]) = [1, 2, 3, 4, 5, 6, 7, 8] :=
  C11_timestamp_bytes_inverse 1751959747173000 [1, 2, 3, 4, 5, 6, 7, 8] (by norm_num)
    (by decide) (by decide)

/-- Claim C12: `timestampToBytes t` has exactly 8 bytes and its byte `k`, `k = 0..7`, is
`t / 256 ^ (7 - k) mod 256`: the most significant byte comes first. -/
theorem C12_timestamp_bytes_big_endian (t : Nat) :
    (timestampToBytes t).length = 8 ∧
    ∀ k, k < 8 → (timestampToBytes t).getD k 0 = t / 256 ^ (7 - k) % 256 := by
  rw [timestampToBytes_eq]
  refine ⟨rfl, ?_⟩
  intro k hk
  interval_cases k <;> norm_num

/-- Claim C13: on a buffer of at least 4 bytes the Annex-B scan returns (within any number
of iterations above the buffer length) units whose offsets are strictly ascending, each
followed by the next no earlier than `offset + size + 3`; each unit has `size ≥ 1`,
`offset + size` within the buffer, and the three bytes before its offset are `00 00 01`. -/
theorem C13_scan_units_ordered (d : List Nat) (fuel : Nat) (h4 : 4 ≤ d.length)
    (hf : d.length < fuel) :
    ∃ units, parseNALUnits fuel d = some units ∧
      units.Pairwise (fun a b => a.offset < b.offset) ∧
      units.Pairwise (fun a b => a.offset + a.size + 3 ≤ b.offset) ∧
      ∀ u ∈ units, 1 ≤ u.size ∧ u.offset + u.size ≤ d.length ∧ 3 ≤ u.offset ∧
        d.getD (u.offset - 3) 0 = 0x00 ∧ d.getD (u.offset - 2) 0 = 0x00 ∧
        d.getD (u.offset - 1) 0 = 0x01 := by
  obtain ⟨r, hr⟩ := parseNALUnitsLoop_returns d h4 fuel 0 [] (by omega) (by omega)
  obtain ⟨new, hnew, hall, hpw⟩ := parseNALUnitsLoop_spec d h4 fuel 0 [] r hr
  simp only [List.nil_append] at hnew
  subst hnew
  refine ⟨r, hr, hpw.imp (fun h => by omega), hpw, ?_⟩
  intro u hu
  obtain ⟨h1, h2, h3, h4, h5, h6, _⟩ := hall u hu
  exact ⟨h2, h3, by omega, h4, h5, h6⟩

/-- Witness of C13 on the 18-byte buffer `SPS, PPS, IDR` with 4-byte start codes. -/
theorem C13_scan_units_ordered_witness :
    parseNALUnits 19
      [0, 0, 0, 1, 0x67, 0xAA, 0, 0, 0, 1, 0x68, 0xBB, 0, 0, 0, 1, 0x65, 0xCC] =
      some [{ offset := 4, size := 2, type := 7, is_frame := false },
            { offset := 10, size := 2, type := 8, is_frame := false },
            { offset := 16, size := 2, type := 5, is_frame := true }] ∧
    ∃ units, parseNALUnits 19
        [0, 0, 0, 1, 0x67, 0xAA, 0, 0, 0, 1, 0x68, 0xBB, 0, 0, 0, 1, 0x65, 0xCC] =
          some units ∧
      units.Pairwise (fun a b => a.offset < b.offset) ∧
      units.Pairwise (fun a b => a.offset + a.size + 3 ≤ b.offset) ∧
      ∀ u ∈ units, 1 ≤ u.size ∧
        u.offset + u.size ≤
          [0, 0, 0, 1, 0x67, 0xAA, 0, 0, 0, 1, 0x68, 0xBB, 0, 0, 0, 1, 0x65, 0xCC].length ∧
        3 ≤ u.offset ∧
        [0, 0, 0, 1, 0x67, 0xAA, 0, 0, 0, 1, 0x68, 0xBB, 0, 0, 0, 1, 0x65, 0xCC].getD
          (u.offset - 3) 0 = 0x00 ∧
        [0, 0, 0, 1, 0x67, 0xAA, 0, 0, 0, 1, 0x68, 0xBB, 0, 0, 0, 1, 0x65, 0xCC].getD
          (u.offset - 2) 0 = 0x00 ∧
        [0, 0, 0, 1, 0x67, 0xAA, 0, 0, 0, 1, 0x68, 0xBB, 0, 0, 0, 1, 0x65, 0xCC].getD
          (u.offset - 1) 0 = 0x01 :=
  ⟨by decide,
    C13_scan_units_ordered
      [0, 0, 0, 1, 0x67, 0xAA, 0, 0, 0, 1, 0x68, 0xBB, 0, 0, 0, 1, 0x65, 0xCC] 19
      (by decide) (by decide)⟩

/-- Claim C14: the Annex-B scan returns on every buffer of at least 4 bytes, and whenever it
returns, every unit it emitted has `type` equal to the low 5 bits of the buffer byte at its
offset, so `type < 32`, and `is_frame` true exactly when `type` is 1 or 5. -/
theorem C14_scan_type_and_frame (d : List Nat) (fuel : Nat) :
    (4 ≤ d.length → d.length < fuel → ∃ units, parseNALUnits fuel d = some units) ∧
    ∀ units, parseNALUnits fuel d = some units →
      ∀ u ∈ units, u.type = d.getD u.offset 0 &&& 0x1F ∧ u.type < 32 ∧
        (u.is_frame = true ↔ u.type = 1 ∨ u.type = 5) := by
  constructor
  · intro h4 hf
    exact parseNALUnitsLoop_returns d h4 fuel 0 [] (by omega) (by omega)
  · intro units h u hu
    by_cases h4 : 4 ≤ d.length
    · obtain ⟨new, hnew, hall, _⟩ := parseNALUnitsLoop_spec d h4 fuel 0 [] units h
      simp only [List.nil_append] at hnew
      subst hnew
      obtain ⟨_, _, _, _, _, _, ht, hfr⟩ := hall u hu
      refine ⟨ht, ?_, ?_⟩
      · rw [ht]
        have : d.getD u.offset 0 &&& 0x1F ≤ 0x1F := Nat.and_le_right
        omega
      · rw [hfr]
        simp only [decide_eq_true_eq]
        constructor
        · rintro (h | h)
          · exact Or.inr h
          · exact Or.inl h
        · rintro (h | h)
          · exact Or.inr h
          · exact Or.inl h
    · have := parseNALUnitsLoop_short d (by omega) fuel 0 [] units h
      subst this
      simp at hu

/-- Claim C15: on a buffer that is the concatenation of at least one unit `c_i ++ p_i`, each
`c_i` a 3-byte or 4-byte start code, each payload non-empty, without three consecutive bytes
`00 00 01` and not ending in 00, the last payload of at least 2 bytes, the Annex-B scan
returns exactly the triples `(offset of p_i, |p_i|, p_i[0] & 0x1F)`, in order. -/
theorem C15_scan_recovers_units (us : List (Bool × List Nat)) (fuel : Nat)
    (hne : us ≠ [])
    (hall : ∀ u ∈ us, u.2 ≠ [] ∧ ¬ [0x00, 0x00, 0x01] <:+: u.2 ∧ u.2.getLast? ≠ some 0x00)
    (hlast : ∀ u, us.getLast? = some u → 2 ≤ u.2.length)
    (hf : (annexB us).length < fuel) :
    ∃ units, parseNALUnits fuel (annexB us) = some units ∧
      units.map (fun u => (u.offset, u.size, u.type)) = expectedTriples 0 us := by
  have h4 : 4 ≤ (([] : List Nat) ++ annexB us).length := by
    cases us with
    | nil => exact absurd rfl hne
    | cons u rest =>
      rcases u with ⟨c, p⟩
      exact annexB_cons_length c p rest (hall (c, p) (List.mem_cons_self _ _)).1
  obtain ⟨r, hr, hmap⟩ := parseNALUnitsLoop_annexB us [] fuel [] h4 hall hlast hf
  exact ⟨r, by simpa [parseNALUnits] using hr, by simpa using hmap⟩

/-- Witness of C15: a 4-byte code with payload `67 AA`, a 3-byte code with payload `68`, a
4-byte code with payload `65 00 CC`. -/
theorem C15_scan_recovers_units_witness :
    annexB [(true, [0x67, 0xAA]), (false, [0x68]), (true, [0x65, 0x00, 0xCC])] =
      [0, 0, 0, 1, 0x67, 0xAA, 0, 0, 1, 0x68, 0, 0, 0, 1, 0x65, 0x00, 0xCC] ∧
    ∃ units, parseNALUnits 18
        (annexB [(true, [0x67, 0xAA]), (false, [0x68]), (true, [0x65, 0x00, 0xCC])]) =
          some units ∧
      units.map (fun u => (u.offset, u.size, u.type)) = [(4, 2, 7), (9, 1, 8), (14, 3, 5)] := by
  refine ⟨by decide, ?_⟩
  have h := C15_scan_recovers_units
    [(true, [0x67, 0xAA]), (false, [0x68]), (true, [0x65, 0x00, 0xCC])] 18
    (by decide)
    (by
      intro u hu
      simp only [List.mem_cons, List.mem_singleton, List.not_mem_nil, or_false] at hu
      rcases hu with rfl | rfl | rfl <;>
        refine ⟨by decide, ?_, by decide⟩ <;>
        · intro hin
          simp [List.infix_cons_iff] at hin)
    (by
      intro u hu
      simp at hu
      subst hu
      decide)
    (by decide)
  exact h

/-- Counterexample to C16 as stated: in `FF FF 00 00 01 65 AA` the scan emits one unit, at
offset 5, and the first byte of the buffer lies in no span of it, whether the start code is
counted with 3 or with 4 bytes. -/
theorem C16_leading_bytes_in_no_span :
    parseNALUnits 8 [0xFF, 0xFF, 0x00, 0x00, 0x01, 0x65, 0xAA] =
      some [{ offset := 5, size := 2, type := 5, is_frame := true }] ∧
    ¬ inSpan 3 { offset := 5, size := 2, type := 5, is_frame := true } 0 ∧
    ¬ inSpan 4 { offset := 5, size := 2, type := 5, is_frame := true } 0 := by
  refine ⟨by decide, ?_, ?_⟩ <;> simp [inSpan]

/-- Claim C16, amended: on a buffer of at least 4 bytes the Annex-B scan returns, and every
byte index lies in the span of at most one emitted unit, the span being the three bytes
`00 00 01` before the payload together with the payload. -/
theorem C16_spans_disjoint (d : List Nat) (fuel : Nat) (h4 : 4 ≤ d.length)
    (hf : d.length < fuel) :
    ∃ units, parseNALUnits fuel d = some units ∧
      ∀ i, ∀ u ∈ units, ∀ v ∈ units, inSpan 3 u i → inSpan 3 v i → u = v := by
  obtain ⟨r, hr⟩ := parseNALUnitsLoop_returns d h4 fuel 0 [] (by omega) (by omega)
  obtain ⟨new, hnew, hall, hpw⟩ := parseNALUnitsLoop_spec d h4 fuel 0 [] r hr
  simp only [List.nil_append] at hnew
  subst hnew
  refine ⟨r, hr, ?_⟩
  intro i u hu v hv hui hvi
  unfold inSpan at hui hvi
  have h3u := (hall u hu).1
  have h3v := (hall v hv).1
  rcases pairwise_trichotomy _ r hpw u hu v hv with h | h | h
  · exact h
  · omega
  · omega

/-- Witness of C16 (amended) on a buffer with two leading bytes and two units. -/
theorem C16_spans_disjoint_witness :
    parseNALUnits 13 [0xFF, 0xFF, 0, 0, 1, 0x65, 0xAA, 0, 0, 0, 1, 0x41] =
      some [{ offset := 5, size := 2, type := 5, is_frame := true },
            { offset := 11, size := 1, type := 1, is_frame := true }] ∧
    ∃ units, parseNALUnits 13 [0xFF, 0xFF, 0, 0, 1, 0x65, 0xAA, 0, 0, 0, 1, 0x41] =
        some units ∧
      ∀ i, ∀ u ∈ units, ∀ v ∈ units, inSpan 3 u i → inSpan 3 v i → u = v :=
  ⟨by decide,
    C16_spans_disjoint [0xFF, 0xFF, 0, 0, 1, 0x65, 0xAA, 0, 0, 0, 1, 0x41] 13
      (by decide) (by decide)⟩

/-- Counterexample to C17 as stated: in `00 00 00 01 65 00 00 00 05` the length field at
cursor 5 announces 5 bytes where none is left (5 + 4 + 5 > 9); the scan stops at 5 after the
first unit and reports no invalid length. -/
theorem C17_trailing_length_field_unsignalled :
    readLength [0, 0, 0, 1, 0x65, 0, 0, 0, 5] 5 = 5 ∧
    CheckSei.scan 0 3 [0, 0, 0, 1, 0x65, 0, 0, 0, 5] =
      Outcome.returns
        { units := [(4, 5, 1)], sei_count := 0, frame_count := 1, invalid_at := none } := by
  decide

/-- Claim C17, amended: let the buffer be complete units, each of 1 to `2 ^ 32 - 1` payload
bytes and of a type other than 6, followed at cursor `p` by at least 5 bytes whose length
field overruns the buffer.  The scan of check_sei.cpp returns (it reads nothing past the
end), with one report line per complete unit, the frame count of these units, and the
invalid length reported at `p`; on the complete units alone it gives the same lines and
counts with no invalid length. -/
theorem C17_truncation_reported (depth fuel : Nat) (ps : List (List Nat)) (tail : List Nat)
    (hps : ∀ p ∈ ps, 1 ≤ p.length ∧ p.length < 2 ^ 32 ∧ nalType p ≠ 6)
    (h5 : 5 ≤ tail.length) (hover : tail.length < 4 + readLength tail 0)
    (hf : ps.length < fuel) :
    CheckSei.scan depth fuel (lengthPrefixed ps ++ tail) =
      Outcome.returns
        { units := CheckSei.expectedLines 0 ps, sei_count := 0,
          frame_count := CheckSei.frameUnits ps,
          invalid_at := some (lengthPrefixed ps).length } ∧
    (ps ≠ [] →
      CheckSei.scan depth fuel (lengthPrefixed ps) =
        Outcome.returns
          { units := CheckSei.expectedLines 0 ps, sei_count := 0,
            frame_count := CheckSei.frameUnits ps, invalid_at := none }) := by
  obtain ⟨f, rfl⟩ : ∃ f, fuel = ps.length + (f + 1) := ⟨fuel - ps.length - 1, by omega⟩
  constructor
  · have h := scanLoop_units depth tail ps [] (f + 1)
      { units := [], sei_count := 0, frame_count := 0, invalid_at := none } hps
    simp only [List.nil_append, List.length_nil, Nat.zero_add] at h
    unfold CheckSei.scan
    rw [h, CheckSei.scanLoop]
    have hlen : (lengthPrefixed ps ++ tail).length = (lengthPrefixed ps).length + tail.length :=
      List.length_append _ _
    have hread : readLength (lengthPrefixed ps ++ tail) (lengthPrefixed ps).length =
        readLength tail 0 := by
      unfold readLength
      have g := fun m => getD_append_add (lengthPrefixed ps) tail m
      have g0 := g 0
      rw [Nat.add_zero] at g0
      rw [g0, g 1, g 2, g 3]
    rw [subSizeT_of_le _ _ (by omega), if_pos (by omega), if_neg (by omega)]
    simp only [hread]
    rw [if_pos (by omega)]
  · intro hne
    have h := scanLoop_units depth [] ps [] (f + 1)
      { units := [], sei_count := 0, frame_count := 0, invalid_at := none } hps
    simp only [List.nil_append, List.length_nil, Nat.zero_add, List.append_nil] at h
    unfold CheckSei.scan
    rw [h, CheckSei.scanLoop]
    have h4 : 4 ≤ (lengthPrefixed ps).length := by
      cases ps with
      | nil => exact absurd rfl hne
      | cons p rest =>
        simp only [lengthPrefixed, List.length_append, be32_length]
        omega
    rw [subSizeT_of_le _ _ h4, if_neg (by omega)]

/-- Witness of C17 (amended): two complete units, then a length field of 5 with one byte
left. -/
theorem C17_truncation_reported_witness :
    lengthPrefixed [[0x65, 0x01], [0x41]] ++ [0, 0, 0, 5, 0xAA] =
      [0, 0, 0, 2, 0x65, 0x01, 0, 0, 0, 1, 0x41, 0, 0, 0, 5, 0xAA] ∧
    CheckSei.scan 0 3 (lengthPrefixed [[0x65, 0x01], [0x41]] ++ [0, 0, 0, 5, 0xAA]) =
      Outcome.returns
        { units := [(4, 5, 2), (10, 1, 1)], sei_count := 0, frame_count := 2,
          invalid_at := some 11 } := by
  refine ⟨by decide, ?_⟩
  have h := (C17_truncation_reported 0 3 [[0x65, 0x01], [0x41]] [0, 0, 0, 5, 0xAA]
    (by decide) (by decide) (by decide) (by decide)).1
  exact h.trans (by decide)

/-- Claim C18: for every timestamp `t` and every well-formed length-prefixed input, made of at
least one unit `be32 len_i ++ payload_i` with `1 ≤ len_i < 2 ^ 32`, the rewriter "insert one
SEI at start" returns `00 00 00 0C`, then `createSimpleTimestampSEI t`, then the units whose
type is not 6, each with its length field, in their original order. -/
theorem C18_insert_sei_at_start (t fuel : Nat) (ps : List (List Nat))
    (hne : ps ≠ []) (hps : ∀ p ∈ ps, 1 ≤ p.length ∧ p.length < 2 ^ 32)
    (hf : ps.length < fuel) :
    ConvertToLengthPrefixed.insertSeiAtStart fuel t (lengthPrefixed ps) =
      Outcome.returns
        ([0x00, 0x00, 0x00, 0x0C] ++ createSimpleTimestampSEI t ++
          lengthPrefixed (ps.filter (fun p => decide (p.getD 0 0 &&& 0x1F ≠ 6)))) := by
  obtain ⟨f, rfl⟩ : ∃ f, fuel = ps.length + (f + 1) := ⟨fuel - ps.length - 1, by omega⟩
  have h := fun output => rewriteLoop_units [] ps [] (f + 1) output hps
  simp only [List.nil_append, List.length_nil, Nat.zero_add, List.append_nil] at h
  have h4 : 4 ≤ (lengthPrefixed ps).length := by
    cases ps with
    | nil => exact absurd rfl hne
    | cons p rest =>
      simp only [lengthPrefixed, List.length_append, be32_length]
      omega
  have hl : (createSimpleTimestampSEI t).length = 12 := by
    rw [createSimpleTimestampSEI_eq]
    rfl
  unfold ConvertToLengthPrefixed.insertSeiAtStart
  simp only [hl]
  rw [h, ConvertToLengthPrefixed.rewriteLoop, subSizeT_of_le _ _ h4, if_neg (by omega)]
  rfl

/-- Witness of C18: an input of one SEI unit and one frame unit gives the new SEI unit and
then the frame unit. -/
theorem C18_insert_sei_at_start_witness :
    ConvertToLengthPrefixed.insertSeiAtStart 3 1000000
        (lengthPrefixed [[0x06, 0x01, 0x08, 0, 0, 0, 0, 0, 0, 0, 0x07, 0x80], [0x65, 0xAA]]) =
      Outcome.returns
        [0x00, 0x00, 0x00, 0x0C,
         0x06, 0x01, 0x08, 0, 0, 0, 0, 0, 0x0F, 0x42, 0x40, 0x80,
         0x00, 0x00, 0x00, 0x02, 0x65, 0xAA] :=
  (C18_insert_sei_at_start 1000000 3
    [[0x06, 0x01, 0x08, 0, 0, 0, 0, 0, 0, 0, 0x07, 0x80], [0x65, 0xAA]]
    (by decide) (by decide) (by decide)).trans (by decide)

/-- Counterexample to C19 as stated: the input `00 00 00 01 06 AA BB 00 00 00 01 65 CC` holds
a type-6 unit at offset 4; the scan finds it and `processPerFrame` writes it back, before
the new SEI unit and the frame. -/
theorem C19_scanned_sei_is_kept :
    parseNALUnits 14 [0, 0, 0, 1, 0x06, 0xAA, 0xBB, 0, 0, 0, 1, 0x65, 0xCC] =
      some [{ offset := 4, size := 3, type := 6, is_frame := false },
            { offset := 11, size := 2, type := 5, is_frame := true }] ∧
    (processPerFrame [0, 0, 0, 1, 0x06, 0xAA, 0xBB, 0, 0, 0, 1, 0x65, 0xCC]
        [{ offset := 4, size := 3, type := 6, is_frame := false },
         { offset := 11, size := 2, type := 5, is_frame := true }] [1000000]).1 =
      [0, 0, 0, 1, 0x06, 0xAA, 0xBB,
       0, 0, 0, 1, 0x06, 0x01, 0x08, 0, 0, 0, 0, 0, 0x0F, 0x42, 0x40, 0x80,
       0, 0, 0, 1, 0x65, 0xCC] := by
  decide

/-- Claim C19, amended: `processPerFrame` drops no scanned unit: for every unit of the list
it is given, type-6 units included, the output contains the 4-byte start code followed by
the payload of that unit. -/
theorem C19_per_frame_copies_every_unit (d : List Nat) (units : List NALUnit)
    (ts : List Nat) (u : NALUnit) (hu : u ∈ units) :
    [0x00, 0x00, 0x00, 0x01] ++ (d.drop u.offset).take u.size <:+:
      (processPerFrame d units ts).1 := by
  rw [processPerFrame_eq]
  obtain ⟨i, hi, hiu⟩ := List.getElem_of_mem hu
  have hget : units.getD i { offset := 0, size := 0, type := 0, is_frame := false } = u := by
    rw [List.getD_eq_getElem units _ hi, hiu]
  have hmem : i ∈ List.range units.length := List.mem_range.mpr hi
  have hchunk := List.infix_flatMap_of_mem hmem (fun i =>
    (if (units.getD i { offset := 0, size := 0, type := 0, is_frame := false }).is_frame = true ∧
        framesBefore units i < ts.length then
        [0x00, 0x00, 0x00, 0x01] ++ createSimpleTimestampSEI (ts.getD (framesBefore units i) 0)
      else []) ++
      unitBytes d (units.getD i { offset := 0, size := 0, type := 0, is_frame := false }))
  simp only [hget] at hchunk
  refine List.IsInfix.trans ?_ hchunk
  exact (List.suffix_append _ _).isInfix

/-- Witness of C19 (amended): the type-6 unit `06 AA BB` of the input is in the output, behind
a 4-byte start code. -/
theorem C19_per_frame_copies_every_unit_witness :
    ({ offset := 4, size := 3, type := 6, is_frame := false } : NALUnit) ∈
      [{ offset := 4, size := 3, type := 6, is_frame := false },
       { offset := 11, size := 2, type := 5, is_frame := true }] ∧
    [0x00, 0x00, 0x00, 0x01, 0x06, 0xAA, 0xBB] <:+:
      (processPerFrame [0, 0, 0, 1, 0x06, 0xAA, 0xBB, 0, 0, 0, 1, 0x65, 0xCC]
        [{ offset := 4, size := 3, type := 6, is_frame := false },
         { offset := 11, size := 2, type := 5, is_frame := true }] [1000000]).1 :=
  ⟨by decide,
    C19_per_frame_copies_every_unit [0, 0, 0, 1, 0x06, 0xAA, 0xBB, 0, 0, 0, 1, 0x65, 0xCC]
      [{ offset := 4, size := 3, type := 6, is_frame := false },
       { offset := 11, size := 2, type := 5, is_frame := true }] [1000000]
      { offset := 4, size := 3, type := 6, is_frame := false } (by decide)⟩

/-- Claim C20: for every list of units and every list `ts` of timestamps in microseconds,
`processPerFrame` writes, for each index `i` in order, the start code `00 00 00 01` and
`createSimpleTimestampSEI (ts[f(i)])` when `u_i` is a frame unit and `f(i) < |ts|`, then
`00 00 00 01` and the payload of `u_i`, where `f(i)` is the number of frame units before
`i`; the number of SEI units it inserts is the smaller of the number of frame units and
`|ts|`. -/
theorem C20_per_frame_output (d : List Nat) (units : List NALUnit) (ts : List Nat) :
    (processPerFrame d units ts).1 =
      (List.range units.length).flatMap (fun i =>
        let u := units.getD i { offset := 0, size := 0, type := 0, is_frame := false }
        let f := (units.take i).countP (fun v => v.is_frame)
        (if u.is_frame = true ∧ f < ts.length then
            [0x00, 0x00, 0x00, 0x01] ++ createSimpleTimestampSEI (ts.getD f 0)
          else []) ++
        ([0x00, 0x00, 0x00, 0x01] ++ (d.drop u.offset).take u.size)) ∧
    (processPerFrame d units ts).2 = min (units.countP (fun v => v.is_frame)) ts.length := by
  rw [processPerFrame_eq]
  exact ⟨rfl, rfl⟩

/-- Claim C21: on the 18-byte input `00 00 00 01 67 AA 00 00 00 01 68 BB 00 00 00 01 65 CC`
the scan returns within 4 iterations (and with any more) the units `SPS, PPS, IDR`, and the
scan followed by `processPerFrame` with the single timestamp 1000000 writes
`00 00 00 01 67 AA`, `00 00 00 01 68 BB`,
`00 00 00 01 06 01 08 00 00 00 00 00 0F 42 40 80`, `00 00 00 01 65 CC`, in that order,
injecting one timestamp. -/
theorem C21_scenario_per_frame (k : Nat) :
    parseNALUnits (4 + k)
      [0, 0, 0, 1, 0x67, 0xAA, 0, 0, 0, 1, 0x68, 0xBB, 0, 0, 0, 1, 0x65, 0xCC] =
      some [{ offset := 4, size := 2, type := 7, is_frame := false },
            { offset := 10, size := 2, type := 8, is_frame := false },
            { offset := 16, size := 2, type := 5, is_frame := true }] ∧
    (parseNALUnits (4 + k)
      [0, 0, 0, 1, 0x67, 0xAA, 0, 0, 0, 1, 0x68, 0xBB, 0, 0, 0, 1, 0x65, 0xCC]).map
      (fun nal_units => processPerFrame
        [0, 0, 0, 1, 0x67, 0xAA, 0, 0, 0, 1, 0x68, 0xBB, 0, 0, 0, 1, 0x65, 0xCC]
        nal_units [1000000]) =
      some ([0x00, 0x00, 0x00, 0x01, 0x67, 0xAA] ++
        [0x00, 0x00, 0x00, 0x01, 0x68, 0xBB] ++
        [0x00, 0x00, 0x00, 0x01, 0x06, 0x01, 0x08, 0x00, 0x00, 0x00, 0x00, 0x00, 0x0F, 0x42,
          0x40, 0x80] ++
        [0x00, 0x00, 0x00, 0x01, 0x65, 0xCC], 1) := by
  have h : parseNALUnits (4 + k)
      [0, 0, 0, 1, 0x67, 0xAA, 0, 0, 0, 1, 0x68, 0xBB, 0, 0, 0, 1, 0x65, 0xCC] =
      some [{ offset := 4, size := 2, type := 7, is_frame := false },
            { offset := 10, size := 2, type := 8, is_frame := false },
            { offset := 16, size := 2, type := 5, is_frame := true }] :=
    parseNALUnitsLoop_mono _ 4 0 [] _ k (by decide)
  refine ⟨h, ?_⟩
  rw [h]
  decide

/-- Claim C22: for every 64-bit timestamp `t` whose eight big-endian bytes contain no three
consecutive bytes `00 00 01`, the Annex-B scan of the file written by test_simple_sei ends
within 3 iterations (and with any more) and finds exactly two units: a type-6 unit at offset
4 of size 12, on which `extractSimpleTimestampFromSEI` returns `t`, and a unit of type 1 at
offset 20 of size 10; SEI count 1, frame count 1. -/
theorem C22_scan_of_test_file (t : Nat) (k : Nat) (ht : t < 2 ^ 64)
    (hw : ¬ [0x00, 0x00, 0x01] <:+: timestampToBytes t) :
    TestSimpleSei.writtenFile t =
      [0x00, 0x00, 0x00, 0x01] ++ createSimpleTimestampSEI t ++ [0x00, 0x00, 0x00, 0x01] ++
        [0x41, 0x9A, 0x24, 0x4D, 0x00, 0x28, 0x88, 0x09, 0x11, 0x00] ∧
    CheckAnnexB.scan (3 + k) (TestSimpleSei.writtenFile t) =
      some { units := [(4, 6, 12), (20, 1, 10)], sei_count := 1, frame_count := 1,
             simple_timestamps := [t] } ∧
    extractSimpleTimestampFromSEI (((TestSimpleSei.writtenFile t).drop 4).take 12) = t :=
  ⟨rfl,
    checkAnnexB_scanLoop_mono _ 3 0 _ _ k (checkAnnexB_scan_writtenFile t ht hw),
    by
      have e : ((TestSimpleSei.writtenFile t).drop 4).take 12 =
          (createSimpleTimestampSEI t ++
            (TestSimpleSei.start_code ++ TestSimpleSei.frame_nal)).take 12 := by
        simp [TestSimpleSei.writtenFile, TestSimpleSei.start_code]
      have hl : (createSimpleTimestampSEI t).length = 12 := by
        rw [createSimpleTimestampSEI_eq]; rfl
      rw [e, List.take_left' hl]
      exact extractSimple_createSimple t ht⟩

/-- Witness of C22: the timestamp of the test, 1751959747173000. -/
theorem C22_scan_of_test_file_witness :
    TestSimpleSei.writtenFile TestSimpleSei.test_timestamp =
      [0x00, 0x00, 0x00, 0x01] ++ createSimpleTimestampSEI TestSimpleSei.test_timestamp ++
        [0x00, 0x00, 0x00, 0x01] ++
        [0x41, 0x9A, 0x24, 0x4D, 0x00, 0x28, 0x88, 0x09, 0x11, 0x00] ∧
    CheckAnnexB.scan (3 + 0) (TestSimpleSei.writtenFile TestSimpleSei.test_timestamp) =
      some { units := [(4, 6, 12), (20, 1, 10)], sei_count := 1, frame_count := 1,
             simple_timestamps := [TestSimpleSei.test_timestamp] } ∧
    extractSimpleTimestampFromSEI
      (((TestSimpleSei.writtenFile TestSimpleSei.test_timestamp).drop 4).take 12) =
      TestSimpleSei.test_timestamp :=
  C22_scan_of_test_file TestSimpleSei.test_timestamp 0 (by decide) (by decide)

/-- Claim C23, evaluated on the code: on the source `00 00 00 00` the function `writeRBSP`
emits `00 00 03 00 03 00`, two escape bytes, where the reference encoder emits
`00 00 03 00 00`, one escape byte; `readRBSP` gives the source back from the reference
output and not from the output of `writeRBSP`. -/
theorem C23_writeRBSP_is_not_the_reference :
    writeRBSP [0x00, 0x00, 0x00, 0x00] = [0x00, 0x00, 0x03, 0x00, 0x03, 0x00] ∧
    referenceEncode [0x00, 0x00, 0x00, 0x00] = [0x00, 0x00, 0x03, 0x00, 0x00] ∧
    readRBSP (referenceEncode [0x00, 0x00, 0x00, 0x00]) = [0x00, 0x00, 0x00, 0x00] ∧
    readRBSP (writeRBSP [0x00, 0x00, 0x00, 0x00]) = [0x00, 0x00, 0x00, 0x03, 0x00] := by
  decide

/-- Claim C24: for every byte sequence `r`, `readRBSP (r ++ [80])` is the escape removal of
`r` alone; on an input that does not end in 80, `readRBSP` is escape removal; and escape
removal only drops bytes 03 (it yields a subsequence with the same bytes other than 03, in
the same order), so every byte 80 that is not the last input byte is kept. -/
theorem C24_trailing_stop_byte (r : List Nat) :
    readRBSP (r ++ [0x80]) = removeEscapes r ∧
    (∀ y : List Nat, y.getLast? ≠ some 0x80 → readRBSP y = removeEscapes y) ∧
    (removeEscapes r).Sublist r ∧
    (removeEscapes r).filter (fun b => b != 3) = r.filter (fun b => b != 3) := by
  refine ⟨?_, ?_, removeEscapesFrom_sublist r 1 1, removeEscapesFrom_filter r 1 1⟩
  · rw [readRBSP_eq_unescapeFrom]
    exact unescapeFrom_append_stop r 1 1
  · intro y hy
    rw [readRBSP_eq_unescapeFrom]
    exact unescapeFrom_no_stop y 1 1 hy

/-- Claim C25: for every source `x` that does not end in 80 and has no four consecutive bytes
`00 00 00 b` with `b ≤ 03`, `readRBSP (writeRBSP x) = x`. -/
theorem C25_roundtrip_without_runs (x : List Nat) (hlast : x.getLast? ≠ some 0x80)
    (hrun : ∀ b, b ≤ 0x03 → ¬ [0x00, 0x00, 0x00, b] <:+: x) :
    readRBSP (writeRBSP x) = x := by
  rw [readRBSP_writeRBSP x hrun, stripStop, if_neg hlast]

/-- Witness of C25: a source with the runs `00 00 01` and `00 00 00 04`. -/
theorem C25_roundtrip_without_runs_witness :
    readRBSP (writeRBSP [0x00, 0x00, 0x01, 0x80, 0x00, 0x00, 0x00, 0x04]) =
      [0x00, 0x00, 0x01, 0x80, 0x00, 0x00, 0x00, 0x04] :=
  C25_roundtrip_without_runs [0x00, 0x00, 0x01, 0x80, 0x00, 0x00, 0x00, 0x04] (by decide)
    (by
      intro b hb hin
      simp [List.infix_cons_iff] at hin
      omega)

/-- Claim C26: for every byte sequence `x`, `writeRBSP x` contains no three consecutive
bytes `00 00 c` with `c ≤ 02`; and, with the provenance of every output byte recorded
(forgetting it gives `writeRBSP x`, the unmarked bytes are the source `x`), every byte 03
that directly follows two bytes 00 in the output is an inserted escape byte. -/
theorem C26_no_start_code_inside (x : List Nat) :
    (∀ c : Nat, c ≤ 0x02 → ¬ [0x00, 0x00, c] <:+: writeRBSP x) ∧
    (writeRBSPMarked x).map Prod.fst = writeRBSP x ∧
    ((writeRBSPMarked x).filter (fun e => !e.2)).map Prod.fst = x ∧
    (∀ m1 m2 m3 : Bool,
      [(0x00, m1), (0x00, m2), (0x03, m3)] <:+: writeRBSPMarked x → m3 = true) := by
  refine ⟨fun c hc => writeRBSP_no_window c hc x, ?_, ?_, ?_⟩
  · rw [writeRBSPMarked_eq, writeRBSP_eq_escapeFrom]
    exact escapeMarkedFrom_fst x 1 1
  · rw [writeRBSPMarked_eq]
    exact escapeMarkedFrom_source x 1 1
  · intro m1 m2 m3 hin
    rw [writeRBSPMarked_eq] at hin
    exact escapeMarkedFrom_window x 1 1 1 false false (0, m1) (0, m2) (3, m3) (by omega)
      (List.infix_cons (List.infix_cons hin)) rfl rfl rfl

/-- Claim C27: for every `t`, `createTimestampSEI t` is `06`, then the stuffed payload
`05 18`, the tag and the eight bytes of `t`; it begins with the 19 bytes
`06 05 18 52 4F 53 42 41 47 2D 54 49 4D 45 53 54 41 4D 50`, carries the stuffed timestamp
bytes after them and ends with 80; its length is 28 plus the number of inserted escape
bytes, which is at most 6, and is 6 for `t = 0`. -/
theorem C27_extended_layout (t : Nat) :
    createTimestampSEI t =
      [0x06] ++ writeRBSP ([0x05, 0x18] ++ TIMESTAMP_UUID ++ timestampToBytes t) ++ [0x80] ∧
    createTimestampSEI t =
      [0x06, 0x05, 0x18, 0x52, 0x4F, 0x53, 0x42, 0x41, 0x47, 0x2D, 0x54, 0x49, 0x4D, 0x45,
        0x53, 0x54, 0x41, 0x4D, 0x50] ++ writeRBSP (timestampToBytes t) ++ [0x80] ∧
    (createTimestampSEI t).length =
      28 + insertedEscapes ([0x05, 0x18] ++ TIMESTAMP_UUID ++ timestampToBytes t) ∧
    insertedEscapes ([0x05, 0x18] ++ TIMESTAMP_UUID ++ timestampToBytes t) ≤ 6 ∧
    insertedEscapes ([0x05, 0x18] ++ TIMESTAMP_UUID ++ timestampToBytes 0) = 6 := by
  have hlen : (timestampToBytes t).length = 8 := by rw [timestampToBytes_eq]; rfl
  have hcore : createTimestampSEI t =
      [0x06] ++ writeRBSP ([0x05, 0x18] ++ TIMESTAMP_UUID ++ timestampToBytes t) ++
        [0x80] := by
    unfold createTimestampSEI
    rw [createUserDataSEI_eq, hlen]
    rfl
  have hw : writeRBSP ([0x05, 0x18] ++ TIMESTAMP_UUID ++ timestampToBytes t) =
      [0x05, 0x18] ++ TIMESTAMP_UUID ++ writeRBSP (timestampToBytes t) := by
    rw [writeRBSP_eq_escapeFrom, writeRBSP_eq_escapeFrom]
    exact escapeFrom_nonzero_prefix ([0x05, 0x18] ++ TIMESTAMP_UUID) (timestampToBytes t)
      (by decide) 1 1 (by decide)
  have hl1 := writeRBSP_length ([0x05, 0x18] ++ TIMESTAMP_UUID ++ timestampToBytes t)
  have hl2 := writeRBSP_length (timestampToBytes t)
  have hle := insertedEscapes_le (timestampToBytes t)
  have hu : TIMESTAMP_UUID.length = 16 := rfl
  have hl3 : (writeRBSP ([0x05, 0x18] ++ TIMESTAMP_UUID ++ timestampToBytes t)).length =
      18 + (writeRBSP (timestampToBytes t)).length := by
    rw [hw]
    simp only [List.length_append, List.length_cons, List.length_nil, hu]
  have hl4 : ([0x05, 0x18] ++ TIMESTAMP_UUID ++ timestampToBytes t).length = 26 := by
    simp only [List.length_append, List.length_cons, List.length_nil, hu, hlen]
  refine ⟨hcore, ?_, ?_, ?_, by decide⟩
  · rw [hcore, hw]
    rfl
  · rw [hcore]
    simp only [List.length_append, List.length_cons, List.length_nil]
    omega
  · omega

/-- Claim C28: for every unit `n` that is empty or whose first byte has low five bits other
than 6, `isTimestampSEI n` returns false (within one call) and `extractTimestampFromSEI n`
returns 0 (within two nested calls), whatever further depth is allowed. -/
theorem C28_not_sei_base_case (n : List Nat) (depth : Nat)
    (h : n.length = 0 ∨ n.getD 0 0 &&& 0x1F ≠ 6) :
    isTimestampSEI (depth + 1) n = Outcome.returns false ∧
    extractTimestampFromSEI (depth + 2) n = Outcome.returns 0 :=
  ⟨(sei_calls_base n h depth).2, (sei_calls_base n h depth).1⟩

/-- Witness of C28 on a unit of NAL type 7. -/
theorem C28_not_sei_base_case_witness :
    isTimestampSEI 1 [0x67, 0xAA] = Outcome.returns false ∧
    extractTimestampFromSEI 2 [0x67, 0xAA] = Outcome.returns 0 :=
  C28_not_sei_base_case [0x67, 0xAA] 0 (Or.inr (by decide))

/-- Claim C29: the size bytes written by `createUserDataSEI` for `n = 16 + |data|` are
`n / 255` bytes FF and a last byte `n mod 255`, smaller than FF; their sum is `n`; and lines
104-113 of `extractTimestampFromSEI`, run on `05`, these bytes and anything after them,
give the size `n` and stop right after them. -/
theorem C29_size_field_roundtrip (uuid data rest : List Nat) :
    createUserDataSEI uuid data =
      [0x06] ++
        writeRBSP ([0x05] ++
          (List.replicate ((16 + data.length) / 255) 0xFF ++ [(16 + data.length) % 255]) ++
          uuid ++ data) ++
        [0x80] ∧
    (16 + data.length) % 255 < 0xFF ∧
    (List.replicate ((16 + data.length) / 255) 0xFF ++ [(16 + data.length) % 255]).sum =
      16 + data.length ∧
    readPayloadSize
        ([0x05] ++
          (List.replicate ((16 + data.length) / 255) 0xFF ++ [(16 + data.length) % 255]) ++
          rest) 1 =
      (1 + (List.replicate ((16 + data.length) / 255) 0xFF ++
          [(16 + data.length) % 255]).length,
        16 + data.length) := by
  refine ⟨createUserDataSEI_eq uuid data, by omega, ?_, ?_⟩
  · simp only [List.sum_append, List.sum_replicate, List.sum_cons, List.sum_nil, smul_eq_mul]
    omega
  · have h := readPayloadSize_run [0x05] rest ((16 + data.length) % 255)
      ((16 + data.length) / 255) (by omega)
    have e : [0x05] ++
        (List.replicate ((16 + data.length) / 255) 0xFF ++ [(16 + data.length) % 255]) ++
        rest =
        [0x05] ++ List.replicate ((16 + data.length) / 255) 0xFF ++
          (16 + data.length) % 255 :: rest := by
      simp
    have h1 : ([0x05] : List Nat).length = 1 := rfl
    rw [h1] at h
    rw [e, h]
    simp only [List.length_cons, List.length_nil, List.length_append, List.length_replicate,
      Prod.mk.injEq]
    omega

/-- Claim C30: there is a timestamp, `t = 1`, for which the Annex-B scan of the file written
with `createSimpleTimestampSEI t` does not return the SEI as one 12-byte unit: a start code
is found at index 11, inside the timestamp bytes, the scan reports a type-6 unit of 7 bytes
at offset 4, a 1-byte unit of type 0 at offset 15 and the frame at offset 20, and
`extractSimpleTimestampFromSEI` on the scanned SEI unit returns 0, not `t`. -/
theorem C30_simple_sei_desynchronizes_scan :
    ∃ t : Nat, t < 2 ^ 64 ∧
      CheckAnnexB.isStartCode (TestSimpleSei.writtenFile t) 11 = true ∧
      CheckAnnexB.scan 4 (TestSimpleSei.writtenFile t) =
        some { units := [(4, 6, 7), (15, 0, 1), (20, 1, 10)], sei_count := 1,
               frame_count := 1, simple_timestamps := [0] } ∧
      extractSimpleTimestampFromSEI (((TestSimpleSei.writtenFile t).drop 4).take 7) ≠ t :=
  ⟨1, by decide, by decide, by decide, by decide⟩

/-- Counterexample to C31 as stated: the input of one complete unit `00 00 00 02 65 01`
followed by the length field `00 00 00 05` with one byte left gives the same result as the
well-formed input made of that unit alone: the output for the complete unit, and nothing
that tells the truncation. -/
theorem C31_truncation_is_silent :
    ConvertToLengthPrefixed.insertSeiAtStart 3 1000000
        ([0, 0, 0, 2, 0x65, 0x01] ++ [0, 0, 0, 5, 0xAA]) =
      ConvertToLengthPrefixed.insertSeiAtStart 3 1000000 [0, 0, 0, 2, 0x65, 0x01] ∧
    ConvertToLengthPrefixed.insertSeiAtStart 3 1000000
        ([0, 0, 0, 2, 0x65, 0x01] ++ [0, 0, 0, 5, 0xAA]) =
      Outcome.returns
        [0x00, 0x00, 0x00, 0x0C,
         0x06, 0x01, 0x08, 0, 0, 0, 0, 0, 0x0F, 0x42, 0x40, 0x80,
         0x00, 0x00, 0x00, 0x02, 0x65, 0x01] := by
  decide

/-- Claim C31, amended: let the input be at least one complete unit, each of 1 to
`2 ^ 32 - 1` payload bytes, followed by at least 5 bytes whose length field overruns the
buffer.  The rewriter "insert one SEI at start" returns `00 00 00 0C`, the simple SEI and the
complete units whose type is not 6, and this is exactly its result on the well-formed input
made of the complete units alone. -/
theorem C31_truncated_input_gives_prefix_output (t fuel : Nat) (ps : List (List Nat))
    (tail : List Nat) (hne : ps ≠ [])
    (hps : ∀ p ∈ ps, 1 ≤ p.length ∧ p.length < 2 ^ 32)
    (h5 : 5 ≤ tail.length) (hover : tail.length < 4 + readLength tail 0)
    (hf : ps.length < fuel) :
    ConvertToLengthPrefixed.insertSeiAtStart fuel t (lengthPrefixed ps ++ tail) =
      Outcome.returns
        ([0x00, 0x00, 0x00, 0x0C] ++ createSimpleTimestampSEI t ++
          lengthPrefixed (ps.filter (fun p => decide (nalType p ≠ 6)))) ∧
    ConvertToLengthPrefixed.insertSeiAtStart fuel t (lengthPrefixed ps ++ tail) =
      ConvertToLengthPrefixed.insertSeiAtStart fuel t (lengthPrefixed ps) := by
  rw [insertSeiAtStart_eq, insertSeiAtStart_eq, rewriteLoop_truncated ps tail hps h5 hover fuel hf,
    rewriteLoop_wellFormed ps hne hps fuel hf]
  exact ⟨rfl, rfl⟩

/-- Witness of C31 (amended): two complete units, the first of type 6, then a length field of
5 with one byte left. -/
theorem C31_truncated_input_gives_prefix_output_witness :
    ConvertToLengthPrefixed.insertSeiAtStart 3 1000000
        (lengthPrefixed [[0x06, 0xAA], [0x41]] ++ [0, 0, 0, 5, 0xAA]) =
      Outcome.returns
        ([0x00, 0x00, 0x00, 0x0C] ++ createSimpleTimestampSEI 1000000 ++
          lengthPrefixed ([[0x06, 0xAA], [0x41]].filter (fun p => decide (nalType p ≠ 6)))) ∧
    ConvertToLengthPrefixed.insertSeiAtStart 3 1000000
        (lengthPrefixed [[0x06, 0xAA], [0x41]] ++ [0, 0, 0, 5, 0xAA]) =
      ConvertToLengthPrefixed.insertSeiAtStart 3 1000000
        (lengthPrefixed [[0x06, 0xAA], [0x41]]) :=
  C31_truncated_input_gives_prefix_output 1000000 3 [[0x06, 0xAA], [0x41]] [0, 0, 0, 5, 0xAA]
    (by decide) (by decide) (by decide) (by decide) (by decide)

/-- Claim C32, evaluated on the code: on every buffer shorter than 4 bytes the guard
`pos < size - 4`, a 64-bit unsigned comparison, holds at `pos = 0`, and the first iteration
of the scan loop of check_sei and of the copy loop of the rewriter reads the four length
bytes at indices 0..3, of which index 3 is not smaller than the buffer size.  On buffers of
at least 4 bytes neither loop reads outside the buffer. -/
theorem C32_short_buffer_read_past_end (data : List Nat) (depth fuel t : Nat)
    (h : data.length < 4) :
    (0 < subSizeT data.length 4 ∧ ¬ 0 + 3 < data.length) ∧
    CheckSei.scan depth (fuel + 1) data = Outcome.outOfBounds ∧
    ConvertToLengthPrefixed.insertSeiAtStart (fuel + 1) t data = Outcome.outOfBounds ∧
    (∀ d : List Nat, 4 ≤ d.length → ∀ depth fuel t : Nat,
      CheckSei.scan depth fuel d ≠ Outcome.outOfBounds ∧
      ConvertToLengthPrefixed.insertSeiAtStart fuel t d ≠ Outcome.outOfBounds) := by
  have hg : 0 < subSizeT data.length 4 := by
    rw [subSizeT_short _ h]
    omega
  refine ⟨⟨hg, by omega⟩, ?_, ?_, ?_⟩
  · unfold CheckSei.scan
    rw [CheckSei.scanLoop, if_pos hg, if_pos (by omega)]
  · rw [insertSeiAtStart_eq, ConvertToLengthPrefixed.rewriteLoop, if_pos hg, if_pos (by omega)]
  · intro d h4 depth fuel t
    refine ⟨checkSei_scanLoop_in_bounds d depth h4 fuel 0 _, ?_⟩
    rw [insertSeiAtStart_eq]
    exact rewriteLoop_in_bounds d h4 fuel 0 _

/-- Witness of C32 on the empty buffer and on the 3-byte buffer `00 00 00`. -/
theorem C32_short_buffer_read_past_end_witness :
    CheckSei.scan 0 1 [] = Outcome.outOfBounds ∧
    ConvertToLengthPrefixed.insertSeiAtStart 1 1000000 [0, 0, 0] = Outcome.outOfBounds :=
  ⟨(C32_short_buffer_read_past_end [] 0 0 0 (by decide)).2.1,
    (C32_short_buffer_read_past_end [0, 0, 0] 0 0 1000000 (by decide)).2.2.1⟩

/-- Claim C33, evaluated on the code: on every buffer shorter than 4 bytes the guard
`pos < size - 4` of the Annex-B scan, a 64-bit unsigned comparison, holds at `pos = 0`
(`size - 4` wraps to `size + 2 ^ 64 - 4`), and the loop is still running after any number of
iterations up to `2 ^ 64 - 4`, the range in which `pos + 3` does not wrap. -/
theorem C33_short_buffer_guard_wraps (data : List Nat) (fuel : Nat) (h : data.length < 4)
    (hf : fuel ≤ 2 ^ 64 - 4) :
    subSizeT data.length 4 = data.length + 2 ^ 64 - 4 ∧
    0 < subSizeT data.length 4 ∧
    parseNALUnits fuel data = none := by
  refine ⟨subSizeT_short _ h, ?_, ?_⟩
  · rw [subSizeT_short _ h]
    omega
  · exact parseNALUnitsLoop_short_runs data h fuel 0 [] (by omega)

/-- Witness of C33 on the empty buffer and a million iterations. -/
theorem C33_short_buffer_guard_wraps_witness :
    subSizeT ([] : List Nat).length 4 = ([] : List Nat).length + 2 ^ 64 - 4 ∧
    0 < subSizeT ([] : List Nat).length 4 ∧
    parseNALUnits 1000000 [] = none :=
  C33_short_buffer_guard_wraps [] 1000000 (by decide) (by decide)

/-- Claim C34: on every buffer that ends with a byte other than 00, the start code
`00 00 01` and one payload byte, every unit emitted by the Annex-B scan ends at or before
that start code, so the final one-byte unit is not emitted.  On a buffer of units
`c_i ++ p_i` (each payload non-empty, without three consecutive bytes `00 00 01`, not ending
in 00) followed by such a final unit, the scan emits exactly the earlier units, the last of
them ending at that start code, and stops with the cursor 4 bytes before the end.  When the
final unit has a 4-byte start code, or at least 2 payload bytes (without `00 00 01`), it is
emitted after the earlier ones. -/
theorem C34_final_unit_at_buffer_end (us : List (Bool × List Nat)) (c : Bool) (p : List Nat)
    (x fuel : Nat)
    (hall : ∀ u ∈ us, u.2 ≠ [] ∧ ¬ [0x00, 0x00, 0x01] <:+: u.2 ∧ u.2.getLast? ≠ some 0x00)
    (hp0 : p ≠ []) (hp1 : ¬ [0x00, 0x00, 0x01] <:+: p) (hcp : c = true ∨ 2 ≤ p.length)
    (hf : us.length + 1 < fuel) :
    (∀ d : List Nat, 5 ≤ d.length → d.getD (d.length - 5) 0 ≠ 0x00 →
      d.getD (d.length - 4) 0 = 0x00 → d.getD (d.length - 3) 0 = 0x00 →
      d.getD (d.length - 2) 0 = 0x01 →
      ∀ (fuel2 : Nat) (units : List NALUnit), parseNALUnits fuel2 d = some units →
        ∀ u ∈ units, u.offset + u.size ≤ d.length - 4) ∧
    (annexB (us ++ [(false, [x])]) = annexB us ++ [0x00, 0x00, 0x01, x] ∧
      (annexB us).length = (annexB (us ++ [(false, [x])])).length - 4 ∧
      ∃ units, parseNALUnits fuel (annexB (us ++ [(false, [x])])) = some units ∧
        units.map (fun u => (u.offset, u.size, u.type)) = expectedTriples 0 us) ∧
    (∃ units, parseNALUnits fuel (annexB (us ++ [(c, p)])) = some units ∧
      units.map (fun u => (u.offset, u.size, u.type)) =
        expectedTriples 0 us ++
          [((annexB us).length + (startCode c).length, p.length, p.getD 0 0 &&& 0x1F)]) := by
  have hA : annexB (us ++ [(false, [x])]) = annexB us ++ [0x00, 0x00, 0x01, x] := by
    rw [annexB_append]
    rfl
  refine ⟨?_, ⟨hA, ?_, parseNALUnits_final_dropped us x fuel hall (by omega)⟩, ?_⟩
  · intro d h5 hb h0 h1 h2 fuel2 units hu u hmem
    obtain ⟨r, hr, hall2⟩ := parseNALUnitsLoop_before_final_code d h5 hb h0 h1 h2 fuel2 0 []
      units (by omega) hu
    rw [List.nil_append] at hr
    subst hr
    exact hall2 u hmem
  · rw [hA, List.length_append]
    rfl
  · obtain ⟨units, hu, hmap⟩ := parseNALUnits_final_emitted us c p fuel hall hp0 hp1 hcp hf
    refine ⟨units, hu, ?_⟩
    rw [hmap, expectedTriples_append]
    simp [expectedTriples]

/-- Witness of C34: the unit `00 00 00 01 67 AA`, then `00 00 01 65` (not emitted) or
`00 00 00 01 65` (emitted). -/
theorem C34_final_unit_at_buffer_end_witness :
    (∀ d : List Nat, 5 ≤ d.length → d.getD (d.length - 5) 0 ≠ 0x00 →
      d.getD (d.length - 4) 0 = 0x00 → d.getD (d.length - 3) 0 = 0x00 →
      d.getD (d.length - 2) 0 = 0x01 →
      ∀ (fuel2 : Nat) (units : List NALUnit), parseNALUnits fuel2 d = some units →
        ∀ u ∈ units, u.offset + u.size ≤ d.length - 4) ∧
    (annexB ([(true, [0x67, 0xAA])] ++ [(false, [0x65])]) =
        annexB [(true, [0x67, 0xAA])] ++ [0x00, 0x00, 0x01, 0x65] ∧
      (annexB [(true, [0x67, 0xAA])]).length =
        (annexB ([(true, [0x67, 0xAA])] ++ [(false, [0x65])])).length - 4 ∧
      ∃ units, parseNALUnits 3 (annexB ([(true, [0x67, 0xAA])] ++ [(false, [0x65])])) =
          some units ∧
        units.map (fun u => (u.offset, u.size, u.type)) =
          expectedTriples 0 [(true, [0x67, 0xAA])]) ∧
    (∃ units, parseNALUnits 3 (annexB ([(true, [0x67, 0xAA])] ++ [(true, [0x65])])) =
        some units ∧
      units.map (fun u => (u.offset, u.size, u.type)) =
        expectedTriples 0 [(true, [0x67, 0xAA])] ++
          [((annexB [(true, [0x67, 0xAA])]).length + (startCode true).length,
            [0x65].length, ([0x65] : List Nat).getD 0 0 &&& 0x1F)]) :=
  C34_final_unit_at_buffer_end [(true, [0x67, 0xAA])] true [0x65] 0x65 3 (by decide)
    (by decide) (by decide) (by decide) (by decide)

/-- Claim C35: for every well-formed length-prefixed input (at least one unit, every length
between 1 and `2 ^ 32 - 1`) and all timestamps `t1`, `t2`, the rewriter "insert one SEI at
start" returns an output `y` for `t1`, and run on `y` with `t2` it returns what it returns
on the input with `t2`: `00 00 00 0C`, the simple SEI of `t2` and the units of the input
whose type is not 6.  With `t1 = t2` this is idempotence, and the output holds one SEI
unit. -/
theorem C35_rewrite_of_rewritten (t1 t2 fuel : Nat) (ps : List (List Nat)) (hne : ps ≠ [])
    (hps : ∀ p ∈ ps, 1 ≤ p.length ∧ p.length < 2 ^ 32) (hf : ps.length + 1 < fuel) :
    ∃ y : List Nat,
      ConvertToLengthPrefixed.insertSeiAtStart fuel t1 (lengthPrefixed ps) =
        Outcome.returns y ∧
      ConvertToLengthPrefixed.insertSeiAtStart fuel t2 y =
        ConvertToLengthPrefixed.insertSeiAtStart fuel t2 (lengthPrefixed ps) ∧
      ConvertToLengthPrefixed.insertSeiAtStart fuel t2 y =
        Outcome.returns
          ([0x00, 0x00, 0x00, 0x0C] ++ createSimpleTimestampSEI t2 ++
            lengthPrefixed (ps.filter (fun p => decide (nalType p ≠ 6)))) ∧
      (∀ p ∈ ps.filter (fun p => decide (nalType p ≠ 6)), nalType p ≠ 6) := by
  have hx : ∀ t, ConvertToLengthPrefixed.insertSeiAtStart fuel t (lengthPrefixed ps) =
      Outcome.returns
        ([0x00, 0x00, 0x00, 0x0C] ++ createSimpleTimestampSEI t ++
          lengthPrefixed (ps.filter (fun p => decide (nalType p ≠ 6)))) := by
    intro t
    rw [insertSeiAtStart_eq, rewriteLoop_wellFormed ps hne hps fuel (by omega)]
    rfl
  have hqs : ∀ p ∈ createSimpleTimestampSEI t1 :: ps.filter (fun p => decide (nalType p ≠ 6)),
      1 ≤ p.length ∧ p.length < 2 ^ 32 := by
    intro p hp
    rcases List.mem_cons.mp hp with rfl | hp
    · rw [(createSimpleTimestampSEI_unit t1).1]
      omega
    · exact hps p (List.mem_of_mem_filter hp)
  have hlen : (createSimpleTimestampSEI t1 ::
      ps.filter (fun p => decide (nalType p ≠ 6))).length < fuel := by
    have := List.length_filter_le (fun p => decide (nalType p ≠ 6)) ps
    simp only [List.length_cons]
    omega
  have hy : ConvertToLengthPrefixed.insertSeiAtStart fuel t2
      ([0x00, 0x00, 0x00, 0x0C] ++ createSimpleTimestampSEI t1 ++
        lengthPrefixed (ps.filter (fun p => decide (nalType p ≠ 6)))) =
      Outcome.returns
        ([0x00, 0x00, 0x00, 0x0C] ++ createSimpleTimestampSEI t2 ++
          lengthPrefixed (ps.filter (fun p => decide (nalType p ≠ 6)))) := by
    rw [rewriter_output_wellFormed, insertSeiAtStart_eq,
      rewriteLoop_wellFormed _ (by simp) hqs fuel hlen, filter_rewriter_units]
    rfl
  refine ⟨_, hx t1, ?_, hy, ?_⟩
  · rw [hy, hx t2]
  · intro p hp
    simpa using (List.mem_filter.mp hp).2

/-- Witness of C35: an input of one SEI unit and one frame unit, rewritten with the timestamp
7 and then with 1000000. -/
theorem C35_rewrite_of_rewritten_witness :
    ∃ y : List Nat,
      ConvertToLengthPrefixed.insertSeiAtStart 4 7
          (lengthPrefixed [[0x06, 0xAA], [0x65, 0xBB]]) = Outcome.returns y ∧
      ConvertToLengthPrefixed.insertSeiAtStart 4 1000000 y =
        ConvertToLengthPrefixed.insertSeiAtStart 4 1000000
          (lengthPrefixed [[0x06, 0xAA], [0x65, 0xBB]]) ∧
      ConvertToLengthPrefixed.insertSeiAtStart 4 1000000 y =
        Outcome.returns
          ([0x00, 0x00, 0x00, 0x0C] ++ createSimpleTimestampSEI 1000000 ++
            lengthPrefixed ([[0x06, 0xAA], [0x65, 0xBB]].filter
              (fun p => decide (nalType p ≠ 6)))) ∧
      (∀ p ∈ [[0x06, 0xAA], [0x65, 0xBB]].filter (fun p => decide (nalType p ≠ 6)),
        nalType p ≠ 6) :=
  C35_rewrite_of_rewritten 7 1000000 4 [[0x06, 0xAA], [0x65, 0xBB]] (by decide) (by decide)
    (by decide)

/-- Claim C36, evaluated on the code: for every well-formed length-prefixed input and every
timestamp `t` the rewriter returns an output `y` whose first unit is the 12-byte simple SEI
of `t`; the scan of check_sei.cpp over `y` calls `extractTimestampFromSEI` on that unit
(line 59), a call that does not return whatever depth of nested calls is allowed, so the
scan returns no report, whatever number of iterations is allowed. -/
theorem C36_scan_of_rewritten_never_returns (t fuel : Nat) (ps : List (List Nat))
    (hne : ps ≠ []) (hps : ∀ p ∈ ps, 1 ≤ p.length ∧ p.length < 2 ^ 32)
    (hf : ps.length < fuel) :
    ∃ y : List Nat,
      ConvertToLengthPrefixed.insertSeiAtStart fuel t (lengthPrefixed ps) =
        Outcome.returns y ∧
      readLength y 0 = 12 ∧ (y.drop 4).take 12 = createSimpleTimestampSEI t ∧
      (∀ depth : Nat,
        extractTimestampFromSEI depth ((y.drop 4).take 12) = Outcome.unfinished) ∧
      (∀ depth fuel2 : Nat, CheckSei.scan depth fuel2 y = Outcome.unfinished) := by
  have hx : ConvertToLengthPrefixed.insertSeiAtStart fuel t (lengthPrefixed ps) =
      Outcome.returns
        ([0x00, 0x00, 0x00, 0x0C] ++ createSimpleTimestampSEI t ++
          lengthPrefixed (ps.filter (fun p => decide (nalType p ≠ 6)))) := by
    rw [insertSeiAtStart_eq, rewriteLoop_wellFormed ps hne hps fuel hf]
    rfl
  obtain ⟨h12, h6⟩ := createSimpleTimestampSEI_unit t
  have hshape : [0x00, 0x00, 0x00, 0x0C] ++ createSimpleTimestampSEI t ++
      lengthPrefixed (ps.filter (fun p => decide (nalType p ≠ 6))) =
      [] ++ (be32 (createSimpleTimestampSEI t).length ++ (createSimpleTimestampSEI t ++
        lengthPrefixed (ps.filter (fun p => decide (nalType p ≠ 6))))) := by
    rw [h12, List.nil_append, List.append_assoc]
    rfl
  obtain ⟨_, hread, _, _, htake⟩ := unit_facts [] (createSimpleTimestampSEI t)
    (lengthPrefixed (ps.filter (fun p => decide (nalType p ≠ 6)))) (by omega) (by omega)
  rw [← hshape, h12] at hread htake
  simp only [List.length_nil, Nat.zero_add] at hread htake
  have hun := fun depth =>
    (sei_calls_unfinished (createSimpleTimestampSEI t) (by omega) h6 depth).1
  refine ⟨_, hx, hread, htake, ?_, ?_⟩
  · intro depth
    rw [htake]
    exact hun depth
  · intro depth fuel2
    cases fuel2 with
    | zero => rfl
    | succ f =>
      unfold CheckSei.scan
      rw [hshape]
      exact checkSei_scanLoop_sei_unit [] (createSimpleTimestampSEI t) _ depth f _
        (by omega) (by omega) h6

/-- Witness of C36: an input of one frame unit. -/
theorem C36_scan_of_rewritten_never_returns_witness :
    ∃ y : List Nat,
      ConvertToLengthPrefixed.insertSeiAtStart 2 1000000 (lengthPrefixed [[0x65, 0xBB]]) =
        Outcome.returns y ∧
      readLength y 0 = 12 ∧ (y.drop 4).take 12 = createSimpleTimestampSEI 1000000 ∧
      (∀ depth : Nat,
        extractTimestampFromSEI depth ((y.drop 4).take 12) = Outcome.unfinished) ∧
      (∀ depth fuel2 : Nat, CheckSei.scan depth fuel2 y = Outcome.unfinished) :=
  C36_scan_of_rewritten_never_returns 1000000 2 [[0x65, 0xBB]] (by decide) (by decide)
    (by decide)

/-- Claim C37: the simple parser returns 0 on every extended unit: for every uuid and data,
the second byte of `createUserDataSEI uuid data` is 05, not 01, so
`extractSimpleTimestampFromSEI` returns 0 on it; in particular on `createTimestampSEI t`
for every `t`. -/
theorem C37_simple_parser_rejects_extended (uuid data : List Nat) (t : Nat) :
    (createUserDataSEI uuid data).getD 1 0 = 0x05 ∧
    extractSimpleTimestampFromSEI (createUserDataSEI uuid data) = 0 ∧
    extractSimpleTimestampFromSEI (createTimestampSEI t) = 0 := by
  have h : ∀ u d : List Nat, extractSimpleTimestampFromSEI (createUserDataSEI u d) = 0 := by
    intro u d
    apply extractSimple_absent
    right; right; left
    rw [createUserDataSEI_second]
    decide
  exact ⟨createUserDataSEI_second uuid data, h uuid data, h _ _⟩

/-- Claim C38, evaluated on the code.  For every buffer and number of iterations the scan
loop of check_annexb_sei visits exactly the units that `parseNALUnits` builds: its report
has one line `(offset, type, size)` per unit, its SEI count is the number of units of type 6
and its frame count the number of `is_frame` units.  The loop of
`H264TimestampReader::extractTimestamps` visits the same units when none is of type 6; when
one is, its call of `extractTimestampFromSEI` on the first such unit does not return,
whatever depth of nested calls is allowed, as on the file written by test_simple_sei. -/
theorem C38_checker_agrees_reader_stops_at_sei (d : List Nat) (depth fuel : Nat) :
    CheckAnnexB.scan fuel d =
      (parseNALUnits fuel d).map (fun units =>
        ({ units := units.map (fun u => (u.offset, u.type, u.size))
           sei_count := units.countP (fun u => decide (u.type = 6))
           frame_count := units.countP (fun u => u.is_frame)
           simple_timestamps :=
             (units.filter (fun u => decide (u.type = 6))).map
               (fun u => extractSimpleTimestampFromSEI ((d.drop u.offset).take u.size)) } :
          CheckAnnexB.ScanReport)) ∧
    (∀ units, parseNALUnits fuel d = some units → (∀ u ∈ units, u.type ≠ 6) →
      H264TimestampReader.extractTimestamps depth fuel d =
        Outcome.returns
          { visited := units.map (fun u => (u.offset, u.type, u.size))
            nal_count := units.length, sei_count := 0, timestamp_count := 0,
            timestamps := [] }) ∧
    (∀ units, parseNALUnits fuel d = some units → (∃ u ∈ units, u.type = 6) →
      H264TimestampReader.extractTimestamps depth fuel d = Outcome.unfinished) ∧
    (parseNALUnits 3 (TestSimpleSei.writtenFile TestSimpleSei.test_timestamp) =
        some [{ offset := 4, size := 12, type := 6, is_frame := false },
              { offset := 20, size := 10, type := 1, is_frame := true }] ∧
      H264TimestampReader.extractTimestamps depth fuel
        (TestSimpleSei.writtenFile TestSimpleSei.test_timestamp) = Outcome.unfinished) := by
  have hreader := fun data => reader_loop_eq data depth fuel 0
    { visited := [], nal_count := 0, sei_count := 0, timestamp_count := 0, timestamps := [] }
  have hfile : parseNALUnits 3 (TestSimpleSei.writtenFile TestSimpleSei.test_timestamp) =
      some [{ offset := 4, size := 12, type := 6, is_frame := false },
            { offset := 20, size := 10, type := 1, is_frame := true }] := by decide
  refine ⟨?_, ?_, ?_, hfile, ?_⟩
  · unfold CheckAnnexB.scan parseNALUnits
    rw [checkAnnexB_scanLoop_eq]
    congr 1
    funext units
    simp [CheckAnnexB.advance]
  · intro units hu hall
    unfold parseNALUnits at hu
    unfold H264TimestampReader.extractTimestamps
    rw [hreader d, hu]
    have hall2 : units.all (fun u => decide (u.type ≠ 6)) = true := by
      rw [List.all_eq_true]
      intro u hmem
      simpa using hall u hmem
    simp only [H264TimestampReader.expectedOutcome, hall2, if_true]
    simp [H264TimestampReader.advance]
  · intro units hu hex
    unfold parseNALUnits at hu
    unfold H264TimestampReader.extractTimestamps
    rw [hreader d, hu]
    have hall2 : units.all (fun u => decide (u.type ≠ 6)) = false := by
      obtain ⟨u, hmem, h6⟩ := hex
      rw [List.all_eq_false]
      exact ⟨u, hmem, by simp [h6]⟩
    simp only [H264TimestampReader.expectedOutcome, hall2]
    rfl
  · unfold H264TimestampReader.extractTimestamps
    rw [hreader]
    cases hp : parseNALUnitsLoop (TestSimpleSei.writtenFile TestSimpleSei.test_timestamp)
        fuel 0 [] with
    | none => rfl
    | some units =>
      have := parseNALUnits_deterministic _ fuel 3 units _ hp hfile
      subst this
      rfl
